import Mathlib

/-!
# dust3d `HoleWrapper` (src/dust3d/mesh/hole_wrapper.cc)

A shallow embedding of the advancing-front hole wrapper: the vertex registry,
the directed-edge ledger, the front of pending edges, the triangulator loop
and the quad merger, followed by theorems about them.

Conventions of the embedding.

* `size_t` values are natural numbers.  The only subtraction in the source,
  `sourcePlane - 1`, is applied to plane ids that start at one.
* `std::vector` and `std::list` are lists; `v[i]` is `List.getD` with the
  default-constructed element (reads past the end are undefined in the source).
* `std::map` is a finite partial function `key → Option value`; the source
  only ever calls `find`, `insert` and `operator[]` on its maps and never
  iterates over them.
* `std::set<size_t>` is a strictly ascending list.
* The `Vector3` and `Math` kernels are not part of the translated sources.
  They are a parameter (`Vector3Kernel`) of every definition that uses them.
* The class declaration (dust3d/mesh/hole_wrapper.h) is not part of the
  translated sources either.  The records below have the fields that
  hole_wrapper.cc reads and writes, in the order of its aggregate
  initialisers.
-/

set_option linter.unusedSectionVars false

namespace dust3d

/-- The floating-point kernel used by the wrapper: `Vector3`
(dust3d/base/vector3.h) over the scalar type `R`, `Math::radiansToDegrees`
and the scalar comparisons.  The two order laws hold for IEEE comparison,
where a NaN compares false with everything. -/
structure Vector3Kernel (V R : Type) where
  /-- `v2 - v1` on vectors. -/
  sub : V → V → V
  /-- `Vector3::crossProduct`. -/
  crossProduct : V → V → V
  /-- `Vector3::normal(a, b, c)`. -/
  normal : V → V → V → V
  /-- `Vector3::angleBetween`. -/
  angleBetween : V → V → R
  /-- `Math::radiansToDegrees`, followed by the conversion to `float`. -/
  radiansToDegrees : R → R
  /-- Component accessor `x()`. -/
  x : V → R
  /-- Component accessor `y()`. -/
  y : V → R
  /-- Component accessor `z()`. -/
  z : V → R
  /-- Scalar subtraction. -/
  rsub : R → R → R
  /-- Scalar `abs`. -/
  abs : R → R
  /-- Scalar `<=`. -/
  le : R → R → Bool
  /-- Scalar `>`. -/
  gt : R → R → Bool
  /-- The literal `0.0`. -/
  zero : R
  /-- The literal `0.01`. -/
  hundredth : R
  gt_irrefl : ∀ a, gt a a = false
  gt_trans : ∀ a b c, gt a b = true → gt b c = true → gt a c = true

/-- Modelled from the spec: `WrapItemKey` is declared in hole_wrapper.h, which
is missing.  The spec describes it as an ordered pair (from, to) of local
vertex indices whose equality and ordering is exact index comparison, so
`WrapItemKey { p1, p2 }` is the pair `(p1, p2)`. -/
abbrev WrapItemKey := Nat × Nat

/-- `HoleWrapper::SourceVertex`. -/
structure SourceVertex (V : Type) where
  position : V
  sourcePlane : Nat
  tag : Nat
  index : Nat

/-- `HoleWrapper::WrapItem`: a pending edge of the front. -/
structure WrapItem (V : Type) where
  baseNormal : V
  p1 : Nat
  p2 : Nat
  p3 : Nat
  processed : Bool

/-- `HoleWrapper::Face3`: a generated triangle. -/
structure Face3 (V : Type) where
  p1 : Nat
  p2 : Nat
  p3 : Nat
  normal : V
  index : Nat

/-- `HoleWrapper::Face4`: a merged quad. -/
structure Face4 where
  p1 : Nat
  p2 : Nat
  p3 : Nat
  p4 : Nat

instance {V : Type} [Inhabited V] : Inhabited (SourceVertex V) :=
  ⟨{ position := default, sourcePlane := 0, tag := 0, index := 0 }⟩

instance {V : Type} [Inhabited V] : Inhabited (WrapItem V) :=
  ⟨{ baseNormal := default, p1 := 0, p2 := 0, p3 := 0, processed := false }⟩

instance {V : Type} [Inhabited V] : Inhabited (Face3 V) :=
  ⟨{ p1 := 0, p2 := 0, p3 := 0, normal := default, index := 0 }⟩

/-- `std::map::insert`: the pair is stored only when the key is absent. -/
def mapInsert {κ α : Type} [DecidableEq κ] (m : κ → Option α) (k : κ) (v : α) :
    κ → Option α :=
  fun q => if q = k then (match m k with
    | some w => some w
    | none => some v) else m q

/-- The statement `m[k].push_back(x)` on a `std::map<size_t, std::vector<size_t>>`:
`operator[]` creates an empty vector when the key is absent. -/
def mapPushBack (m : Nat → Option (List Nat)) (k x : Nat) : Nat → Option (List Nat) :=
  fun q => if q = k then some ((m k).getD [] ++ [x]) else m q

/-- `std::set<size_t>::insert` on the ascending list of the elements. -/
def setInsert (a : Nat) : List Nat → List Nat
  | [] => [a]
  | b :: rest =>
    if a < b then a :: b :: rest
    else if a = b then b :: rest
    else b :: setInsert a rest

/-- The data members of `HoleWrapper` that hole_wrapper.cc uses. -/
structure HoleWrapper (V : Type) where
  m_positions : List V
  m_candidates : List Nat
  m_sourceVertices : List (SourceVertex V)
  m_items : List (WrapItem V)
  m_itemsMap : WrapItemKey → Option Nat
  m_itemsList : List Nat
  m_generatedFaceEdgesMap : WrapItemKey → Option (Nat × Bool)
  m_generatedVertexEdgesMap : Nat → Option (List Nat)
  m_generatedFaces : List (Face3 V)
  m_newlyGeneratedfaces : List (List Nat)
  m_finalizeFinished : Bool

namespace HoleWrapper

variable {V R : Type} [Inhabited V]

/-- Modelled from the spec: the member initialisers are in hole_wrapper.h,
which is missing.  Each call owns its vertex registry, ledger and front,
constructed fresh, so every container starts empty; `m_finalizeFinished` is
set by `finalize` only and starts as `false`. -/
def fresh : HoleWrapper V :=
  { m_positions := []
    m_candidates := []
    m_sourceVertices := []
    m_items := []
    m_itemsMap := fun _ => none
    m_itemsList := []
    m_generatedFaceEdgesMap := fun _ => none
    m_generatedVertexEdgesMap := fun _ => none
    m_generatedFaces := []
    m_newlyGeneratedfaces := []
    m_finalizeFinished := false }

/-- `HoleWrapper::setVertices`. -/
def setVertices (s : HoleWrapper V) (vertices : List V) : HoleWrapper V :=
  { s with m_positions := vertices }

/-- `m_sourceVertices[i]`. -/
def sourceVertex (s : HoleWrapper V) (i : Nat) : SourceVertex V :=
  s.m_sourceVertices.getD i default

/-- `m_items[i]`. -/
def item (s : HoleWrapper V) (i : Nat) : WrapItem V :=
  s.m_items.getD i default

/-- `HoleWrapper::findItem`. -/
def findItem (s : HoleWrapper V) (p1 p2 : Nat) : Nat × Bool :=
  match s.m_itemsMap (p1, p2) with
  | none => (0, false)
  | some i => (i, true)

/-- `HoleWrapper::isEdgeGenerated`. -/
def isEdgeGenerated (s : HoleWrapper V) (p1 p2 : Nat) : Bool :=
  (s.m_generatedFaceEdgesMap (p1, p2)).isSome

/-- `HoleWrapper::isEdgeClosed`. -/
def isEdgeClosed (s : HoleWrapper V) (p1 p2 : Nat) : Bool :=
  (s.m_generatedFaceEdgesMap (p1, p2)).isSome && (s.m_generatedFaceEdgesMap (p2, p1)).isSome

/-- `HoleWrapper::isVertexClosed`. -/
def isVertexClosed (s : HoleWrapper V) (vertexIndex : Nat) : Bool :=
  match s.m_generatedVertexEdgesMap vertexIndex with
  | none => false
  | some others => others.all (fun otherIndex => isEdgeClosed s vertexIndex otherIndex)

/-- `HoleWrapper::finished`. -/
def finished (s : HoleWrapper V) : Bool :=
  if s.m_finalizeFinished = false then false
  else if s.m_candidates.isEmpty = true then true
  else s.m_candidates.all (fun it => isVertexClosed s it)

/-- The first loop of `HoleWrapper::getFailedEdgeLoops`: the loop index of
every open candidate is inserted into the set `edgeLoopIndices`. -/
def collectFailed (s : HoleWrapper V) : List Nat → List Nat → List Nat
  | [], edgeLoopIndices => edgeLoopIndices
  | it :: rest, edgeLoopIndices =>
    if isVertexClosed s it = true then collectFailed s rest edgeLoopIndices
    else collectFailed s rest (setInsert ((sourceVertex s it).sourcePlane - 1) edgeLoopIndices)

/-- `HoleWrapper::getFailedEdgeLoops`: the indices are appended to the
caller's vector `failedEdgeLoops`. -/
def getFailedEdgeLoops (s : HoleWrapper V) (failedEdgeLoops : List Nat) : List Nat :=
  failedEdgeLoops ++ collectFailed s s.m_candidates []

/-- `HoleWrapper::addSourceVertex`. -/
def addSourceVertex (s : HoleWrapper V) (position : V) (sourcePlane tag : Nat) :
    HoleWrapper V × Nat :=
  let addedIndex := s.m_sourceVertices.length
  ({ s with
      m_sourceVertices := s.m_sourceVertices ++
        [{ position := position, sourcePlane := sourcePlane, tag := tag, index := addedIndex }]
      m_candidates := s.m_candidates ++ [addedIndex] }, addedIndex)

/-- `HoleWrapper::addItem`. -/
def addItem (s : HoleWrapper V) (p1 p2 : Nat) (baseNormal : V) : HoleWrapper V :=
  if s.m_items.isEmpty = false ∧ (sourceVertex s p1).sourcePlane = (sourceVertex s p2).sourcePlane then s
  else if (findItem s p1 p2).2 = true ∨ (findItem s p2 p1).2 = true then s
  else if isEdgeGenerated s p1 p2 = true ∨ isEdgeGenerated s p2 p1 = true then s
  else
    { s with
      m_items := s.m_items ++
        [{ baseNormal := baseNormal, p1 := p1, p2 := p2, p3 := 0, processed := false }]
      m_itemsMap := mapInsert s.m_itemsMap (p1, p2) s.m_items.length
      m_itemsList := s.m_items.length :: s.m_itemsList }

/-- `HoleWrapper::addStartup`. -/
def addStartup (s : HoleWrapper V) (p1 p2 : Nat) (baseNormal : V) : HoleWrapper V :=
  let s1 := if s.m_items.isEmpty = true then addItem s p1 p2 baseNormal else s
  { s1 with
    m_generatedFaceEdgesMap := mapInsert s1.m_generatedFaceEdgesMap (p2, p1) (0, false) }

/-- First loop of `HoleWrapper::addCandidateVertices`: one source vertex per
distinct tag of the loop, recorded in the local map `verticesIndexSet`. -/
def registerVertices (planeId : Nat) :
    List Nat → HoleWrapper V × (Nat → Option Nat) → HoleWrapper V × (Nat → Option Nat)
  | [], acc => acc
  | oldVertId :: rest, (s, verticesIndexSet) =>
    match verticesIndexSet oldVertId with
    | none =>
      let r := addSourceVertex s (s.m_positions.getD oldVertId default) planeId oldVertId
      registerVertices planeId rest (r.1, mapInsert verticesIndexSet oldVertId r.2)
    | some _ => registerVertices planeId rest (s, verticesIndexSet)

/-- Second loop of `HoleWrapper::addCandidateVertices`, for the positions `i`
listed: `addStartup` on every cyclically consecutive pair. -/
def seedEdges (vertices : List Nat) (verticesIndexSet : Nat → Option Nat) (planeNormal : V) :
    List Nat → HoleWrapper V → HoleWrapper V
  | [], s => s
  | i :: rest, s =>
    let oldVertId := vertices.getD i 0
    let oldNextVertId := vertices.getD ((i + 1) % vertices.length) 0
    let vertexIndex := (verticesIndexSet oldVertId).getD 0
    let nextVertexIndex := (verticesIndexSet oldNextVertId).getD 0
    seedEdges vertices verticesIndexSet planeNormal rest
      (addStartup s nextVertexIndex vertexIndex planeNormal)

/-- `HoleWrapper::addCandidateVertices`. -/
def addCandidateVertices (s : HoleWrapper V) (vertices : List Nat) (planeNormal : V)
    (planeId : Nat) : HoleWrapper V :=
  let r := registerVertices planeId vertices (s, fun _ => none)
  seedEdges vertices r.2 planeNormal (List.range vertices.length) r.1

/-- `HoleWrapper::calculateFaceVector`. -/
def calculateFaceVector (K : Vector3Kernel V R) (s : HoleWrapper V) (p1 p2 : Nat)
    (baseNormal : V) : V :=
  let seg := K.sub (sourceVertex s p2).position (sourceVertex s p1).position
  K.crossProduct seg baseNormal

/-- `HoleWrapper::angleOfBaseFaceAndPoint`. -/
def angleOfBaseFaceAndPoint (K : Vector3Kernel V R) (s : HoleWrapper V)
    (itemIndex vertexIndex : Nat) : R :=
  let it := item s itemIndex
  if it.p1 = vertexIndex ∨ it.p2 = vertexIndex then K.zero
  else
    let v1 := sourceVertex s it.p1
    let v2 := sourceVertex s it.p2
    let vp := sourceVertex s vertexIndex
    if v1.sourcePlane = v2.sourcePlane ∧ v1.sourcePlane = vp.sourcePlane then K.zero
    else
      let vd1 := calculateFaceVector K s it.p1 it.p2 it.baseNormal
      let normal := K.normal v2.position v1.position vp.position
      let vd2 := calculateFaceVector K s it.p1 it.p2 normal
      K.radiansToDegrees (K.angleBetween vd2 vd1)

/-- The scan of `HoleWrapper::findBestVertexOnTheLeft` over the candidates
still to visit.  It returns the candidates that stay in the pool (closed ones
are erased) and the best vertex found. -/
def findBestLoop (K : Vector3Kernel V R) (s : HoleWrapper V) (itemIndex p1 p2 : Nat) :
    List Nat → R → Nat × Bool → List Nat × (Nat × Bool)
  | [], _, result => ([], result)
  | cand :: rest, maxAngle, result =>
    if isVertexClosed s cand = true then findBestLoop K s itemIndex p1 p2 rest maxAngle result
    else
      let r :=
        if isEdgeClosed s p1 cand = true ∨ isEdgeClosed s p2 cand = true then
          findBestLoop K s itemIndex p1 p2 rest maxAngle result
        else
          let angle := angleOfBaseFaceAndPoint K s itemIndex cand
          if K.gt angle maxAngle = true then
            findBestLoop K s itemIndex p1 p2 rest angle (cand, true)
          else findBestLoop K s itemIndex p1 p2 rest maxAngle result
      (cand :: r.1, r.2)

/-- `HoleWrapper::findBestVertexOnTheLeft`. -/
def findBestVertexOnTheLeft (K : Vector3Kernel V R) (s : HoleWrapper V) (itemIndex : Nat) :
    HoleWrapper V × (Nat × Bool) :=
  let p1 := (item s itemIndex).p1
  let p2 := (item s itemIndex).p2
  let r := findBestLoop K s itemIndex p1 p2 s.m_candidates K.zero (0, false)
  ({ s with m_candidates := r.1 }, r.2)

/-- `HoleWrapper::peekItem`. -/
def peekItem (s : HoleWrapper V) : Nat × Bool :=
  match s.m_itemsList.find? (fun itemIndex => !(item s itemIndex).processed) with
  | some itemIndex => (itemIndex, true)
  | none => (0, false)

/-- The statement `m_items[itemIndex].processed = true` of `HoleWrapper::generate`. -/
def markProcessed (s : HoleWrapper V) (itemIndex : Nat) : HoleWrapper V :=
  { s with m_items := s.m_items.set itemIndex { item s itemIndex with processed := true } }

/-- The branch `if (findP3.second)` of `HoleWrapper::generate`: the triangle
`(p1, p2, p3)` is recorded, its two other edges join the front, its three
directed edges enter the ledger and the adjacency lists grow. -/
def emitFace (K : Vector3Kernel V R) (s : HoleWrapper V) (itemIndex p1 p2 p3 : Nat) :
    HoleWrapper V :=
  let s3 := { s with
    m_items := s.m_items.set itemIndex { item s itemIndex with p3 := p3 } }
  let baseNormal := K.normal (sourceVertex s3 p1).position (sourceVertex s3 p2).position
    (sourceVertex s3 p3).position
  let faceIndex := s3.m_generatedFaces.length
  let s4 := { s3 with
    m_generatedFaces := s3.m_generatedFaces ++
      [{ p1 := p1, p2 := p2, p3 := p3, normal := baseNormal, index := faceIndex }] }
  let s5 := addItem s4 p3 p2 baseNormal
  let s6 := addItem s5 p1 p3 baseNormal
  { s6 with
    m_generatedFaceEdgesMap :=
      mapInsert (mapInsert (mapInsert s6.m_generatedFaceEdgesMap
        (p1, p2) (faceIndex, true)) (p2, p3) (faceIndex, true)) (p3, p1) (faceIndex, true)
    m_generatedVertexEdgesMap :=
      mapPushBack (mapPushBack (mapPushBack (mapPushBack (mapPushBack (mapPushBack
        s6.m_generatedVertexEdgesMap p1 p2) p1 p3) p2 p3) p2 p1) p3 p1) p3 p2 }

/-- One pass through the body of the `for (;;)` loop of `HoleWrapper::generate`,
after `peekItem` has found `itemIndex`. -/
def generateBody (K : Vector3Kernel V R) (s : HoleWrapper V) (itemIndex : Nat) :
    HoleWrapper V :=
  let s1 := markProcessed s itemIndex
  let p1 := (item s1 itemIndex).p1
  let p2 := (item s1 itemIndex).p2
  if isEdgeClosed s1 p1 p2 = true then s1
  else
    let r := findBestVertexOnTheLeft K s1 itemIndex
    if r.2.2 = true then emitFace K r.1 itemIndex p1 p2 r.2.1
    else r.1

/-- The `for (;;)` loop of `HoleWrapper::generate`, cut off after `fuel` passes. -/
def generateFuel (K : Vector3Kernel V R) : Nat → HoleWrapper V → HoleWrapper V
  | 0, s => s
  | fuel + 1, s =>
    if (peekItem s).2 = true then generateFuel K fuel (generateBody K s (peekItem s).1)
    else s

/-- `HoleWrapper::generate`.  The front holds at most one item per directed
pair of registered vertices and every pass processes one of them, so the
number of passes never exceeds the square of the number of source vertices
(`generate_exhausts_front` below). -/
def generate (K : Vector3Kernel V R) (s : HoleWrapper V) : HoleWrapper V :=
  generateFuel K (s.m_sourceVertices.length * s.m_sourceVertices.length) s

/-- `HoleWrapper::anotherVertexIndexOfFace3`. -/
def anotherVertexIndexOfFace3 (f : Face3 V) (p1 p2 : Nat) : Nat :=
  match [f.p1, f.p2, f.p3].find? (fun index => decide (index ≠ p1 ∧ index ≠ p2)) with
  | some index => index
  | none => 0

/-- `HoleWrapper::almostEqual`. -/
def almostEqual (K : Vector3Kernel V R) (v1 v2 : V) : Bool :=
  K.le (K.abs (K.rsub (K.x v1) (K.x v2))) K.hundredth &&
  K.le (K.abs (K.rsub (K.y v1) (K.y v2))) K.hundredth &&
  K.le (K.abs (K.rsub (K.z v1) (K.z v2))) K.hundredth

/-- The `for` loop of `HoleWrapper::findPairFace3` over the edge positions
`i` still to try. -/
def findPairLoop (K : Vector3Kernel V R) (s : HoleWrapper V) (f : Face3 V)
    (usedIds : Nat → Option Bool) (q : List Face4) : List Nat → (Nat × Bool) × List Face4
  | [] => ((0, false), q)
  | i :: rest =>
    let indices := [f.p1, f.p2, f.p3]
    let j := (i + 1) % indices.length
    let k := (i + 2) % indices.length
    match s.m_generatedFaceEdgesMap (indices.getD j 0, indices.getD i 0) with
    | some (pairedFace3Id, true) =>
      if (usedIds pairedFace3Id).isSome = true then findPairLoop K s f usedIds q rest
      else
        let pairedFace3 := s.m_generatedFaces.getD pairedFace3Id default
        if almostEqual K pairedFace3.normal f.normal = false then
          findPairLoop K s f usedIds q rest
        else
          let anotherIndex :=
            anotherVertexIndexOfFace3 pairedFace3 (indices.getD j 0) (indices.getD i 0)
          ((pairedFace3Id, true),
            q ++ [{ p1 := indices.getD i 0, p2 := anotherIndex, p3 := indices.getD j 0,
                    p4 := indices.getD k 0 }])
    | _ => findPairLoop K s f usedIds q rest

/-- `HoleWrapper::findPairFace3`. -/
def findPairFace3 (K : Vector3Kernel V R) (s : HoleWrapper V) (f : Face3 V)
    (usedIds : Nat → Option Bool) (q : List Face4) : (Nat × Bool) × List Face4 :=
  findPairLoop K s f usedIds q (List.range 3)

/-- The local state of `HoleWrapper::finalize` while it walks the triangles. -/
structure FinalizeState where
  quads : List Face4
  usedIds : Nat → Option Bool
  triangles : List (List Nat)

/-- The first loop of `HoleWrapper::finalize`, over the triangles still to visit. -/
def finalizeLoop (K : Vector3Kernel V R) (s : HoleWrapper V) :
    List (Face3 V) → FinalizeState → FinalizeState
  | [], st => st
  | f :: rest, st =>
    if (st.usedIds f.index).isSome = true then finalizeLoop K s rest st
    else
      let usedIds := mapInsert st.usedIds f.index true
      let paired := findPairFace3 K s f usedIds st.quads
      if paired.1.2 = true then
        finalizeLoop K s rest
          { quads := paired.2, usedIds := mapInsert usedIds paired.1.1 true,
            triangles := st.triangles }
      else
        finalizeLoop K s rest
          { quads := paired.2, usedIds := usedIds,
            triangles := st.triangles ++
              [[(sourceVertex s f.p1).tag, (sourceVertex s f.p2).tag, (sourceVertex s f.p3).tag]] }

/-- `HoleWrapper::finalize`. -/
def finalize (K : Vector3Kernel V R) (s : HoleWrapper V) : HoleWrapper V :=
  let st := finalizeLoop K s s.m_generatedFaces
    { quads := [], usedIds := fun _ => none, triangles := [] }
  { s with
    m_finalizeFinished := true
    m_newlyGeneratedfaces := s.m_newlyGeneratedfaces ++ st.triangles ++
      st.quads.map (fun f =>
        [(sourceVertex s f.p1).tag, (sourceVertex s f.p2).tag, (sourceVertex s f.p3).tag,
          (sourceVertex s f.p4).tag]) }

/-- The `for` loop of `HoleWrapper::wrap`; `nextPlaneId` is the running counter. -/
def registerLoops : List (List Nat × V) → Nat → HoleWrapper V → HoleWrapper V
  | [], _, s => s
  | it :: rest, nextPlaneId, s =>
    registerLoops rest (nextPlaneId + 1) (addCandidateVertices s it.1 it.2 nextPlaneId)

/-- `HoleWrapper::wrap`. -/
def wrap (K : Vector3Kernel V R) (s : HoleWrapper V) (edgeLoops : List (List Nat × V)) :
    HoleWrapper V :=
  finalize K (generate K (registerLoops edgeLoops 1 s))

/-- `HoleWrapper::newlyGeneratedFaces`. -/
def newlyGeneratedFaces (s : HoleWrapper V) : List (List Nat) :=
  s.m_newlyGeneratedfaces

/-- The call sequence of a stitching request: a fresh wrapper, `setVertices`,
then `wrap`. -/
def run (K : Vector3Kernel V R) (positions : List V) (edgeLoops : List (List Nat × V)) :
    HoleWrapper V :=
  wrap K (setVertices fresh positions) edgeLoops

end HoleWrapper

/-- A vector with exact rational coordinates. -/
structure QVec where
  x : Rat
  y : Rat
  z : Rat

instance : Inhabited QVec := ⟨⟨0, 0, 0⟩⟩

/-- Componentwise difference. -/
def QVec.sub (a b : QVec) : QVec := ⟨a.x - b.x, a.y - b.y, a.z - b.z⟩

/-- Cross product. -/
def QVec.cross (a b : QVec) : QVec :=
  ⟨a.y * b.z - a.z * b.y, a.z * b.x - a.x * b.z, a.x * b.y - a.y * b.x⟩

/-- Dot product. -/
def QVec.dot (a b : QVec) : Rat := a.x * b.x + a.y * b.y + a.z * b.z

/-- An exact-arithmetic instance of the kernel, used to evaluate the wrapper
on concrete inputs.  Normals are left unnormalised (only their direction is
exact), and the angle between `u` and `w` is measured by `1 - cos²` for an
acute and `1 + cos²` for an obtuse angle, a quantity that is zero for equal
directions and grows with the angle.  A zero vector is at a right angle to
everything, as with `Vector3::normalized`. -/
def exactKernel : Vector3Kernel QVec Rat where
  sub := QVec.sub
  crossProduct := QVec.cross
  normal a b c := QVec.cross (QVec.sub b a) (QVec.sub c a)
  angleBetween u w :=
    let d := QVec.dot u w
    let n := QVec.dot u u * QVec.dot w w
    if n = 0 then 1 else if 0 ≤ d then 1 - d * d / n else 1 + d * d / n
  radiansToDegrees r := r
  x := QVec.x
  y := QVec.y
  z := QVec.z
  rsub a b := a - b
  abs a := |a|
  le a b := decide (a ≤ b)
  gt a b := decide (a > b)
  zero := 0
  hundredth := 1 / 100
  gt_irrefl := by intro a; simp
  gt_trans := by
    intro a b c h1 h2
    simp only [decide_eq_true_eq] at *
    exact lt_trans h2 h1

namespace HoleWrapper

variable {V R : Type} [Inhabited V]

/-- The directed edges of the items of the front, in the order of `m_items`. -/
def itemKeys (s : HoleWrapper V) : List WrapItemKey :=
  s.m_items.map (fun it => (it.p1, it.p2))

/-- Structural well-formedness of the registry and the front: candidates and
item end points are registered vertices, no two items have the same directed
edge, every item is recorded in `m_itemsMap`, and `m_itemsList` holds item
indices. -/
structure FrontOk (s : HoleWrapper V) : Prop where
  cand_lt : ∀ c ∈ s.m_candidates, c < s.m_sourceVertices.length
  item_lt : ∀ k ∈ itemKeys s, k.1 < s.m_sourceVertices.length ∧ k.2 < s.m_sourceVertices.length
  keys_nodup : (itemKeys s).Nodup
  key_mapped : ∀ k ∈ itemKeys s, (s.m_itemsMap k).isSome = true
  list_lt : ∀ i ∈ s.m_itemsList, i < s.m_items.length

/-- The number of items already processed. -/
def processedCount (s : HoleWrapper V) : Nat :=
  s.m_items.countP (fun it => it.processed)

/-- What `findBestVertexOnTheLeft` demands of the vertex it returns. -/
def Eligible (K : Vector3Kernel V R) (s : HoleWrapper V) (i p1 p2 c : Nat) : Prop :=
  isVertexClosed s c = false ∧ isEdgeClosed s p1 c = false ∧ isEdgeClosed s p2 c = false ∧
    K.gt (angleOfBaseFaceAndPoint K s i c) K.zero = true

/-- The pool after the lazy pruning of `findBestVertexOnTheLeft`. -/
def prune (s : HoleWrapper V) : HoleWrapper V :=
  { s with m_candidates := s.m_candidates.filter (fun c => !isVertexClosed s c) }

/-- The pair `(vertexIndex, nextVertexIndex)` that the second loop of
`addCandidateVertices` computes at position `i`. -/
def seedKey (vertices : List Nat) (verticesIndexSet : Nat → Option Nat) (i : Nat) :
    WrapItemKey :=
  ((verticesIndexSet (vertices.getD i 0)).getD 0,
    (verticesIndexSet (vertices.getD ((i + 1) % vertices.length) 0)).getD 0)

/-- The vertex with local index `a` was registered for the loop with plane id
`p` from the tag `t`. -/
def Registered (s : HoleWrapper V) (a p t : Nat) : Prop :=
  a < s.m_sourceVertices.length ∧ (sourceVertex s a).sourcePlane = p ∧
    (sourceVertex s a).tag = t

/-- The state between two calls of `addCandidateVertices` in `wrap`, where
`next` is the value of `nextPlaneId`. -/
structure RegOk (next : Nat) (s : HoleWrapper V) : Prop where
  front : FrontOk s
  planes : ∀ sv ∈ s.m_sourceVertices, 1 ≤ sv.sourcePlane ∧ sv.sourcePlane < next
  unique : ∀ a b p t, Registered s a p t → Registered s b p t → a = b
  cands : s.m_candidates = List.range s.m_sourceVertices.length
  noFaces : s.m_generatedFaces = []
  noAdj : ∀ v, s.m_generatedVertexEdgesMap v = none
  ledger_val : ∀ k v, s.m_generatedFaceEdgesMap k = some v → v = (0, false)
  items_le : s.m_items.length ≤ 1
  empty_items : s.m_items = [] →
    (∀ k, s.m_itemsMap k = none) ∧ ∀ k, s.m_generatedFaceEdgesMap k = none
  seed_rev : ∀ k ∈ itemKeys s, (s.m_generatedFaceEdgesMap (k.2, k.1)).isSome = true
  unprocessed : ∀ it ∈ s.m_items, it.processed = false

/-- The state of `wrap` after its `for` loop, before `generate` runs. -/
def registered (positions : List V) (edgeLoops : List (List Nat × V)) : HoleWrapper V :=
  registerLoops edgeLoops 1 (setVertices fresh positions)

/-- The vertex with local index `v` was registered from the loop at 0-based
position `k` of the input: it carries the plane id `k + 1` of that loop and
one of the loop's tags. -/
def FromLoop (edgeLoops : List (List Nat × V)) (s : HoleWrapper V) (v k : Nat) : Prop :=
  ∃ tags normal t, edgeLoops[k]? = some (tags, normal) ∧ t ∈ tags ∧ Registered s v (k + 1) t

/-- Every registered vertex has the plane id `p`, and nothing has been
generated yet. -/
structure Flat (p : Nat) (s : HoleWrapper V) : Prop where
  front : FrontOk s
  planes : ∀ sv ∈ s.m_sourceVertices, sv.sourcePlane = p
  cands : s.m_candidates = List.range s.m_sourceVertices.length
  noFaces : s.m_generatedFaces = []
  noAdj : ∀ v, s.m_generatedVertexEdgesMap v = none

/-- Three points of the plane `z = 0`: a right triangle. -/
def trianglePositions : List QVec := [⟨0, 0, 0⟩, ⟨1, 0, 0⟩, ⟨0, 1, 0⟩]

/-- Four points of the plane `z = 0`: the unit square, counter-clockwise. -/
def squarePositions : List QVec := [⟨0, 0, 0⟩, ⟨1, 0, 0⟩, ⟨1, 1, 0⟩, ⟨0, 1, 0⟩]

/-- Four points: a triangle in the plane `z = 0` and one point above it. -/
def conePositions : List QVec := [⟨0, 0, 0⟩, ⟨3, 0, 0⟩, ⟨0, 3, 0⟩, ⟨1, 1, 2⟩]

/-- The neighbours recorded for `v` in `m_generatedVertexEdgesMap`
(none when the map has no entry for `v`). -/
def adjList (s : HoleWrapper V) (v : Nat) : List Nat :=
  (s.m_generatedVertexEdgesMap v).getD []

/-- The three directed edges of a triangle, `(p1, p2)`, `(p2, p3)`, `(p3, p1)`. -/
def faceEdges (f : Face3 V) : List WrapItemKey :=
  [(f.p1, f.p2), (f.p2, f.p3), (f.p3, f.p1)]

/-- The three vertices of a triangle. -/
def faceVertices (f : Face3 V) : List Nat :=
  [f.p1, f.p2, f.p3]

/-- The invariant of the triangulator loop.  Besides the well-formedness of
the front it records how items, triangles, the ledger, the adjacency lists
and the candidate pool hang together. -/
structure GenOk (s : HoleWrapper V) : Prop where
  front : FrontOk s
  /-- The reverse of every front edge is in the ledger. -/
  item_rev : ∀ k ∈ itemKeys s, (s.m_generatedFaceEdgesMap (k.2, k.1)).isSome = true
  /-- A vertex has an adjacency list exactly when it is a vertex of a triangle. -/
  adj_face : ∀ v, (s.m_generatedVertexEdgesMap v).isSome = true ↔
    ∃ f ∈ s.m_generatedFaces, v ∈ faceVertices f
  /-- Before the first triangle the front holds the seed only. -/
  seed_only : s.m_generatedFaces = [] → s.m_items.length ≤ 1
  /-- The end points of a pending item that is not the seed are neighbours. -/
  item_adj : ∀ it ∈ s.m_items, it.processed = false →
    s.m_generatedFaces = [] ∨ (it.p2 ∈ adjList s it.p1 ∧ it.p1 ∈ adjList s it.p2)
  /-- A registered vertex that left the pool is closed. -/
  pool : ∀ v, v < s.m_sourceVertices.length → v ∈ s.m_candidates ∨ isVertexClosed s v = true
  /-- A triangle is stored at the position named by its `index`. -/
  face_index : ∀ i, i < s.m_generatedFaces.length →
    (s.m_generatedFaces.getD i default).index = i
  /-- A ledger entry with the flag set names a generated triangle. -/
  flag_lt : ∀ k fi, s.m_generatedFaceEdgesMap k = some (fi, true) →
    fi < s.m_generatedFaces.length
  /-- The directed edges of every triangle are ledger keys. -/
  face_edges : ∀ f ∈ s.m_generatedFaces, ∀ e ∈ faceEdges f,
    (s.m_generatedFaceEdgesMap e).isSome = true
  /-- The later of two triangles that share an edge in opposite directions
  owns its direction of the edge in the ledger. -/
  face_later : ∀ i j, i < j → j < s.m_generatedFaces.length →
    ∀ e ∈ faceEdges (s.m_generatedFaces.getD j default),
      (e.2, e.1) ∈ faceEdges (s.m_generatedFaces.getD i default) →
      s.m_generatedFaceEdgesMap e = some (j, true)

/-- Six points: a triangle in the plane `z = 0` and its copy in the plane `z = 2`. -/
def prismPositions : List QVec :=
  [⟨0, 0, 0⟩, ⟨3, 0, 0⟩, ⟨0, 3, 0⟩, ⟨0, 0, 2⟩, ⟨3, 0, 2⟩, ⟨0, 3, 2⟩]

/-- The two rims of the prism, with opposing normals and opposite orientation. -/
def prismLoops : List (List Nat × QVec) :=
  [([0, 1, 2], ⟨0, 0, 1⟩), ([3, 5, 4], ⟨0, 0, -1⟩)]

/-- A triangle and a single-vertex loop above it. -/
def coneLoops : List (List Nat × QVec) :=
  [([0, 1, 2], ⟨0, 0, -1⟩), ([3], ⟨0, 0, 1⟩)]

/-- The vertex tags of a triangle, as `finalize` writes them. -/
def triTags (s : HoleWrapper V) (f : Face3 V) : List Nat :=
  [(sourceVertex s f.p1).tag, (sourceVertex s f.p2).tag, (sourceVertex s f.p3).tag]

/-- The vertex tags of a quad, as `finalize` writes them. -/
def quadTags (s : HoleWrapper V) (f : Face4) : List Nat :=
  [(sourceVertex s f.p1).tag, (sourceVertex s f.p2).tag, (sourceVertex s f.p3).tag,
    (sourceVertex s f.p4).tag]

/-- The bookkeeping of the first loop of `finalize`, made explicit: for every
triangle the loop visits while it is unused, the triangle and, when
`findPairFace3` found one, the index of the partner it is merged with.
Triangles that are skipped because they are already used leave no entry. -/
def mergeTrace (K : Vector3Kernel V R) (s : HoleWrapper V) :
    List (Face3 V) → (Nat → Option Bool) → List (Face3 V × Option Nat)
  | [], _ => []
  | f :: rest, usedIds =>
    if (usedIds f.index).isSome = true then mergeTrace K s rest usedIds
    else
      let paired := findPairFace3 K s f (mapInsert usedIds f.index true) []
      if paired.1.2 = true then
        (f, some paired.1.1) ::
          mergeTrace K s rest (mapInsert (mapInsert usedIds f.index true) paired.1.1 true)
      else (f, none) :: mergeTrace K s rest (mapInsert usedIds f.index true)

/-- The triangles of a trace that were emitted unchanged. -/
def singlesOf (tr : List (Face3 V × Option Nat)) : List (Face3 V) :=
  (tr.filter (fun e => e.2.isNone)).map (fun e => e.1)

/-- The pairs of triangle indices of a trace that were merged into a quad. -/
def pairsOf (tr : List (Face3 V × Option Nat)) : List (Nat × Nat) :=
  tr.filterMap (fun e => e.2.map (fun j => (e.1.index, j)))

/-- The triangle indices a trace accounts for: the visited triangles and
the partners they were merged with. -/
def accounted (tr : List (Face3 V × Option Nat)) : List Nat :=
  tr.map (fun e => e.1.index) ++ tr.filterMap (fun e => e.2)

/-- The state of `wrap` after `generate`, before `finalize` runs. -/
def generated (K : Vector3Kernel V R) (positions : List V) (edgeLoops : List (List Nat × V)) :
    HoleWrapper V :=
  generate K (registered positions edgeLoops)

/-- The triangle indices that a trace merged into quads. -/
def mergedIndices (tr : List (Face3 V × Option Nat)) : List Nat :=
  (pairsOf tr).map Prod.fst ++ (pairsOf tr).map Prod.snd

/-- A triangle in the plane `z = 0` and its centroid. -/
def flatPositions : List QVec := [⟨0, 0, 0⟩, ⟨3, 0, 0⟩, ⟨0, 3, 0⟩, ⟨1, 1, 0⟩]

/-- The state of `generate` right after the two `addItem` calls of a pass that
emits the triangle `(p1, p2, p3)`, before its edges enter the ledger. -/
def emitFront (K : Vector3Kernel V R) (s : HoleWrapper V) (itemIndex p1 p2 p3 : Nat) :
    HoleWrapper V :=
  let s3 := { s with
    m_items := s.m_items.set itemIndex { item s itemIndex with p3 := p3 } }
  let baseNormal := K.normal (sourceVertex s3 p1).position (sourceVertex s3 p2).position
    (sourceVertex s3 p3).position
  let s4 := { s3 with
    m_generatedFaces := s3.m_generatedFaces ++
      [{ p1 := p1, p2 := p2, p3 := p3, normal := baseNormal,
         index := s3.m_generatedFaces.length }] }
  addItem (addItem s4 p3 p2 baseNormal) p1 p3 baseNormal

/-- `m_itemsList` lists all item indices, the newest first: every `addItem`
pushes the new index to the front. -/
def ListOk (s : HoleWrapper V) : Prop :=
  s.m_itemsList = (List.range s.m_items.length).reverse

/-- The item indices that `peekItem` selects in the successive passes of the
loop of `generate`, in the order of the passes. -/
def peekTrace (K : Vector3Kernel V R) : Nat → HoleWrapper V → List Nat
  | 0, _ => []
  | fuel + 1, s =>
    if (peekItem s).2 = true then
      (peekItem s).1 :: peekTrace K fuel (generateBody K s (peekItem s).1)
    else []

/-- The normal `Vector3::normal` of the triangle `(p1, p2, p3)`, as `generate`
computes it for a new face. -/
def triNormal (K : Vector3Kernel V R) (s : HoleWrapper V) (p1 p2 p3 : Nat) : V :=
  K.normal (sourceVertex s p1).position (sourceVertex s p2).position (sourceVertex s p3).position

/-- The state of `generate` right after `m_generatedFaces.push_back` in a pass
that emits the triangle `(p1, p2, p3)`, before the two `addItem` calls. -/
def pushFace (K : Vector3Kernel V R) (s : HoleWrapper V) (itemIndex p1 p2 p3 : Nat) :
    HoleWrapper V :=
  let s3 := { s with
    m_items := s.m_items.set itemIndex { item s itemIndex with p3 := p3 } }
  { s3 with
    m_generatedFaces := s3.m_generatedFaces ++
      [{ p1 := p1, p2 := p2, p3 := p3,
         normal := K.normal (sourceVertex s3 p1).position (sourceVertex s3 p2).position
           (sourceVertex s3 p3).position,
         index := s3.m_generatedFaces.length }] }

/-- No two items of the front have the same end points, in either direction. -/
def PairsOk (s : HoleWrapper V) : Prop :=
  (itemKeys s).Pairwise (fun a b => a ≠ b ∧ a ≠ (b.2, b.1))

/-- Every key of `m_itemsMap` is the edge of an item. -/
def MapOk (s : HoleWrapper V) : Prop :=
  ∀ k, (s.m_itemsMap k).isSome = true → k ∈ itemKeys s

/-- How the generated triangles hang together with the items, the registry
and the ledger. -/
structure FacesOk (s : HoleWrapper V) : Prop where
  /-- The base edge of every triangle is the edge of a processed item. -/
  base : ∀ f ∈ s.m_generatedFaces, ∃ i, i < s.m_items.length ∧
    (item s i).processed = true ∧ (item s i).p1 = f.p1 ∧ (item s i).p2 = f.p2
  /-- No two triangles have the same base edge, in either direction. -/
  base_pairs : (s.m_generatedFaces.map (fun f => (f.p1, f.p2))).Pairwise
    (fun a b => a ≠ b ∧ a ≠ (b.2, b.1))
  /-- The vertices of a triangle are registered, pairwise distinct and not all
  of one source plane. -/
  shape : ∀ f ∈ s.m_generatedFaces,
    (f.p1 < s.m_sourceVertices.length ∧ f.p2 < s.m_sourceVertices.length ∧
      f.p3 < s.m_sourceVertices.length) ∧
    (f.p1 ≠ f.p2 ∧ f.p1 ≠ f.p3 ∧ f.p2 ≠ f.p3) ∧
    ¬ ((sourceVertex s f.p1).sourcePlane = (sourceVertex s f.p2).sourcePlane ∧
      (sourceVertex s f.p1).sourcePlane = (sourceVertex s f.p3).sourcePlane)
  /-- A ledger entry with the flag set is a directed edge of the triangle it names. -/
  flag_edge : ∀ k fi, s.m_generatedFaceEdgesMap k = some (fi, true) →
    k ∈ faceEdges (s.m_generatedFaces.getD fi default)

/-- The guards of `addItem` for the directed edge `(a, b)`, in a state with a
non-empty front: the end points share a source plane, or the front holds an
item for the edge in one of its two directions, or the ledger holds the edge
in one of its two directions. -/
def AddItemBlocked (s : HoleWrapper V) (a b : Nat) : Prop :=
  (sourceVertex s a).sourcePlane = (sourceVertex s b).sourcePlane ∨
  (a, b) ∈ itemKeys s ∨ (b, a) ∈ itemKeys s ∨
  (s.m_generatedFaceEdgesMap (a, b)).isSome = true ∨
  (s.m_generatedFaceEdgesMap (b, a)).isSome = true

/-- What `findBestVertexOnTheLeft` demands of a candidate `c` for the edge
`(p1, p2)` before it looks at the angle: `c` is not closed, and neither the
edge `(p1, c)` nor the edge `(p2, c)` is closed. -/
def Qualifies (s : HoleWrapper V) (p1 p2 c : Nat) : Prop :=
  isVertexClosed s c = false ∧ isEdgeClosed s p1 c = false ∧ isEdgeClosed s p2 c = false

/-- The merges of the first loop of `finalize`, made explicit: for every
triangle that `findPairFace3` pairs, the triangle, the index of its partner
and the quads that this call of `findPairFace3` pushes. -/
def mergeQuads (K : Vector3Kernel V R) (s : HoleWrapper V) :
    List (Face3 V) → (Nat → Option Bool) → List (Face3 V × Nat × List Face4)
  | [], _ => []
  | f :: rest, usedIds =>
    if (usedIds f.index).isSome = true then mergeQuads K s rest usedIds
    else
      let paired := findPairFace3 K s f (mapInsert usedIds f.index true) []
      if paired.1.2 = true then
        (f, paired.1.1, paired.2) ::
          mergeQuads K s rest (mapInsert (mapInsert usedIds f.index true) paired.1.1 true)
      else mergeQuads K s rest (mapInsert usedIds f.index true)

/-- A vector whose coordinates are rational numbers or NaN (`none`). -/
structure NVec where
  x : Option Rat
  y : Option Rat
  z : Option Rat

instance : Inhabited NVec := ⟨⟨some 0, some 0, some 0⟩⟩

/-- An arithmetic operation on scalars that may be NaN: the result is NaN as
soon as one operand is. -/
def nanOp (f : Rat → Rat → Rat) (a b : Option Rat) : Option Rat :=
  match a, b with
  | some x, some y => some (f x y)
  | _, _ => none

/-- Componentwise difference. -/
def NVec.sub (a b : NVec) : NVec :=
  ⟨nanOp (fun p q => p - q) a.x b.x, nanOp (fun p q => p - q) a.y b.y,
    nanOp (fun p q => p - q) a.z b.z⟩

/-- Cross product. -/
def NVec.cross (a b : NVec) : NVec :=
  ⟨nanOp (fun p q => p - q) (nanOp (fun p q => p * q) a.y b.z)
      (nanOp (fun p q => p * q) a.z b.y),
    nanOp (fun p q => p - q) (nanOp (fun p q => p * q) a.z b.x)
      (nanOp (fun p q => p * q) a.x b.z),
    nanOp (fun p q => p - q) (nanOp (fun p q => p * q) a.x b.y)
      (nanOp (fun p q => p * q) a.y b.x)⟩

/-- Dot product. -/
def NVec.dot (a b : NVec) : Option Rat :=
  nanOp (fun p q => p + q)
    (nanOp (fun p q => p + q) (nanOp (fun p q => p * q) a.x b.x)
      (nanOp (fun p q => p * q) a.y b.y))
    (nanOp (fun p q => p * q) a.z b.z)

/-- The exact kernel extended by NaN, with the rules of IEEE arithmetic: an
operation with a NaN operand gives NaN, and every comparison with a NaN is
false.  On numbers it agrees with `exactKernel`. -/
def nanKernel : Vector3Kernel NVec (Option Rat) where
  sub := NVec.sub
  crossProduct := NVec.cross
  normal a b c := NVec.cross (NVec.sub b a) (NVec.sub c a)
  angleBetween u w :=
    match NVec.dot u w, nanOp (fun p q => p * q) (NVec.dot u u) (NVec.dot w w) with
    | some d, some n =>
      some (if n = 0 then 1 else if 0 ≤ d then 1 - d * d / n else 1 + d * d / n)
    | _, _ => none
  radiansToDegrees r := r
  x := NVec.x
  y := NVec.y
  z := NVec.z
  rsub := nanOp (fun p q => p - q)
  abs a := a.map (fun p => |p|)
  le a b :=
    match a, b with
    | some p, some q => decide (p ≤ q)
    | _, _ => false
  gt a b :=
    match a, b with
    | some p, some q => decide (p > q)
    | _, _ => false
  zero := some 0
  hundredth := some (1 / 100)
  gt_irrefl := by
    intro a
    cases a <;> simp
  gt_trans := by
    intro a b c h1 h2
    cases a <;> cases b <;> cases c <;> simp at h1 h2 ⊢
    exact lt_trans h2 h1

/-- The prism, with a NaN in the position of the vertex with tag `3`. -/
def nanPositions : List NVec :=
  [⟨some 0, some 0, some 0⟩, ⟨some 3, some 0, some 0⟩, ⟨some 0, some 3, some 0⟩,
    ⟨none, some 0, some 2⟩, ⟨some 3, some 0, some 2⟩, ⟨some 0, some 3, some 2⟩]

/-- The two rims of the prism, as in `prismLoops`. -/
def nanLoops : List (List Nat × NVec) :=
  [([0, 1, 2], ⟨some 0, some 0, some 1⟩), ([3, 5, 4], ⟨some 0, some 0, some (-1)⟩)]

/-- Newton's iteration for the integer square root of `n`, at most `fuel`
steps from the guess `g`. -/
def sqrtIter (n : Nat) : Nat → Nat → Nat
  | 0, g => g
  | fuel + 1, g =>
    if (g + n / g) / 2 < g then sqrtIter n fuel ((g + n / g) / 2) else g

/-- The integer square root, for numbers below `2 ^ 500`. -/
def natSqrt (n : Nat) : Nat :=
  if n ≤ 1 then n else sqrtIter n 256 n

/-- The square root of a non-negative rational number, cut off after twelve
decimals. -/
def approxSqrt (q : Rat) : Rat :=
  (natSqrt (q.num.natAbs * 10 ^ 24 / q.den) : Rat) / 10 ^ 12

/-- `Vector3::normalized`, with the length cut off after twelve decimals; a
vector of length zero stays the zero vector. -/
def QVec.normalized (v : QVec) : QVec :=
  if approxSqrt (QVec.dot v v) = 0 then ⟨0, 0, 0⟩
  else ⟨v.x / approxSqrt (QVec.dot v v), v.y / approxSqrt (QVec.dot v v),
    v.z / approxSqrt (QVec.dot v v)⟩

/-- The exact kernel with unit normals and with the integer `abs` of the C
library as the scalar `abs`: the unqualified call `abs(...)` in `almostEqual`
finds `int abs(int)` when only `<cmath>` is included, so its argument is
converted to `int`, that is cut off toward zero, before the sign is dropped. -/
def truncKernel : Vector3Kernel QVec Rat :=
  { exactKernel with
    normal := fun a b c => QVec.normalized (QVec.cross (QVec.sub b a) (QVec.sub c a))
    abs := fun a => ((a.num.natAbs / a.den : Nat) : Rat) }

/-- Every component of the two vectors differs by at most 0.01: what the
name `almostEqual`, its constant and the spec mean by almost equal. -/
def withinHundredth (v1 v2 : QVec) : Bool :=
  decide (|v1.x - v2.x| ≤ 1 / 100) && decide (|v1.y - v2.y| ≤ 1 / 100) &&
    decide (|v1.z - v2.z| ≤ 1 / 100)

end HoleWrapper

/-! ## Maps and sets -/

section Basic
variable {κ α : Type} [DecidableEq κ]

theorem mapInsert_self_isSome (m : κ → Option α) (k : κ) (v : α) :
    (mapInsert m k v k).isSome = true := by
  unfold mapInsert
  cases h : m k <;> simp [h]

theorem mapInsert_of_ne (m : κ → Option α) (k q : κ) (v : α) (h : q ≠ k) :
    mapInsert m k v q = m q := by
  simp [mapInsert, h]

theorem mapInsert_of_some (m : κ → Option α) (k q : κ) (v w : α) (h : m q = some w) :
    mapInsert m k v q = some w := by
  unfold mapInsert
  by_cases hq : q = k
  · subst hq; simp [h]
  · simp [hq, h]

theorem mapInsert_of_none (m : κ → Option α) (k : κ) (v : α) (h : m k = none) :
    mapInsert m k v k = some v := by
  simp [mapInsert, h]

theorem mapInsert_isSome (m : κ → Option α) (k q : κ) (v : α) :
    (mapInsert m k v q).isSome = true ↔ q = k ∨ (m q).isSome = true := by
  by_cases hq : q = k
  · subst hq; simp [mapInsert_self_isSome]
  · simp [mapInsert_of_ne _ _ _ _ hq, hq]

theorem mapInsert_eq_some (m : κ → Option α) (k q : κ) (v w : α) :
    mapInsert m k v q = some w ↔ m q = some w ∨ (q = k ∧ m k = none ∧ w = v) := by
  unfold mapInsert
  by_cases hq : q = k
  · subst hq
    cases h : m q <;> simp [h, eq_comm]
  · simp [hq]

end Basic

theorem setInsert_ne_nil (a : Nat) (l : List Nat) : setInsert a l ≠ [] := by
  cases l with
  | nil => simp [setInsert]
  | cons b rest =>
    simp only [setInsert]
    split_ifs <;> simp

theorem mem_setInsert (a x : Nat) (l : List Nat) : x ∈ setInsert a l ↔ x = a ∨ x ∈ l := by
  induction l with
  | nil => simp [setInsert]
  | cons b rest ih =>
    simp only [setInsert]
    split_ifs with h1 h2
    · simp
    · subst h2; simp
    · simp only [List.mem_cons, ih]; tauto

theorem sorted_setInsert (a : Nat) (l : List Nat) (h : l.Sorted (· < ·)) :
    (setInsert a l).Sorted (· < ·) := by
  induction l with
  | nil => simp [setInsert]
  | cons b rest ih =>
    simp only [setInsert]
    have hb := List.rel_of_sorted_cons h
    have hr := List.Sorted.of_cons h
    split_ifs with h1 h2
    · refine List.sorted_cons.2 ⟨?_, h⟩
      intro y hy
      rcases List.mem_cons.1 hy with rfl | hy
      · exact h1
      · exact lt_trans h1 (hb y hy)
    · exact h
    · refine List.sorted_cons.2 ⟨?_, ih hr⟩
      intro y hy
      rcases (mem_setInsert a y rest).1 hy with rfl | hy
      · omega
      · exact hb y hy

/-! ## The closure queries -/
namespace HoleWrapper
variable {V R : Type} [Inhabited V]

theorem collectFailed_eq_nil (s : HoleWrapper V) (cands acc : List Nat) :
    collectFailed s cands acc = [] ↔
      acc = [] ∧ ∀ it ∈ cands, isVertexClosed s it = true := by
  induction cands generalizing acc with
  | nil => simp [collectFailed]
  | cons c rest ih =>
    simp only [collectFailed]
    split_ifs with h
    · rw [ih]; simp [h]
    · rw [ih]; simp [h, setInsert_ne_nil]

theorem mem_collectFailed (s : HoleWrapper V) (cands acc : List Nat) (k : Nat) :
    k ∈ collectFailed s cands acc ↔
      k ∈ acc ∨ ∃ it ∈ cands, isVertexClosed s it = false ∧
        (sourceVertex s it).sourcePlane - 1 = k := by
  induction cands generalizing acc with
  | nil => simp [collectFailed]
  | cons c rest ih =>
    simp only [collectFailed]
    split_ifs with h
    · rw [ih]; simp [h]
    · rw [ih, mem_setInsert]
      simp only [List.mem_cons, exists_eq_or_imp]
      have : isVertexClosed s c = false := by simpa using h
      simp only [this, true_and]
      constructor
      · rintro ((h1 | h1) | h1)
        · right; left; exact h1.symm
        · left; exact h1
        · right; right; exact h1
      · rintro (h1 | h1 | h1)
        · left; right; exact h1
        · left; left; exact h1.symm
        · right; exact h1

theorem sorted_collectFailed (s : HoleWrapper V) (cands acc : List Nat)
    (h : acc.Sorted (· < ·)) : (collectFailed s cands acc).Sorted (· < ·) := by
  induction cands generalizing acc with
  | nil => simpa [collectFailed] using h
  | cons c rest ih =>
    simp only [collectFailed]
    split_ifs with h1
    · exact ih acc h
    · exact ih _ (sorted_setInsert _ _ h)

theorem finished_iff (s : HoleWrapper V) (h : s.m_finalizeFinished = true) :
    finished s = true ↔ ∀ it ∈ s.m_candidates, isVertexClosed s it = true := by
  unfold finished
  simp only [h]
  cases hc : s.m_candidates with
  | nil => simp
  | cons c rest => simp

theorem finished_iff_failed_nil (s : HoleWrapper V) (h : s.m_finalizeFinished = true) :
    finished s = true ↔ getFailedEdgeLoops s [] = [] := by
  rw [finished_iff s h]
  unfold getFailedEdgeLoops
  simp [collectFailed_eq_nil]

/-! ## Field-by-field effect of the operations -/

theorem addItem_cases (s : HoleWrapper V) (p1 p2 : Nat) (n : V) :
    addItem s p1 p2 n = s ∨
    (s.m_itemsMap (p1, p2) = none ∧ s.m_itemsMap (p2, p1) = none ∧
      (s.m_items.isEmpty = false →
        (sourceVertex s p1).sourcePlane ≠ (sourceVertex s p2).sourcePlane) ∧
      addItem s p1 p2 n =
        { s with
          m_items := s.m_items ++
            [{ baseNormal := n, p1 := p1, p2 := p2, p3 := 0, processed := false }]
          m_itemsMap := mapInsert s.m_itemsMap (p1, p2) s.m_items.length
          m_itemsList := s.m_items.length :: s.m_itemsList }) := by
  unfold addItem
  split_ifs with h1 h2 h3
  · left; rfl
  · left; rfl
  · left; rfl
  · right
    refine ⟨?_, ?_, ?_, rfl⟩
    · cases h : s.m_itemsMap (p1, p2) with
      | none => rfl
      | some i => exact absurd (Or.inl (by simp [findItem, h])) h2
    · cases h : s.m_itemsMap (p2, p1) with
      | none => rfl
      | some i => exact absurd (Or.inr (by simp [findItem, h])) h2
    · intro he hp
      exact h1 ⟨he, hp⟩

@[simp] theorem addItem_sourceVertices (s : HoleWrapper V) (p1 p2 : Nat) (n : V) :
    (addItem s p1 p2 n).m_sourceVertices = s.m_sourceVertices := by
  rcases addItem_cases s p1 p2 n with h | ⟨_, _, _, h⟩ <;> rw [h]

@[simp] theorem addItem_candidates (s : HoleWrapper V) (p1 p2 : Nat) (n : V) :
    (addItem s p1 p2 n).m_candidates = s.m_candidates := by
  rcases addItem_cases s p1 p2 n with h | ⟨_, _, _, h⟩ <;> rw [h]

@[simp] theorem addItem_positions (s : HoleWrapper V) (p1 p2 : Nat) (n : V) :
    (addItem s p1 p2 n).m_positions = s.m_positions := by
  rcases addItem_cases s p1 p2 n with h | ⟨_, _, _, h⟩ <;> rw [h]

@[simp] theorem addItem_ledger (s : HoleWrapper V) (p1 p2 : Nat) (n : V) :
    (addItem s p1 p2 n).m_generatedFaceEdgesMap = s.m_generatedFaceEdgesMap := by
  rcases addItem_cases s p1 p2 n with h | ⟨_, _, _, h⟩ <;> rw [h]

@[simp] theorem addItem_adjacency (s : HoleWrapper V) (p1 p2 : Nat) (n : V) :
    (addItem s p1 p2 n).m_generatedVertexEdgesMap = s.m_generatedVertexEdgesMap := by
  rcases addItem_cases s p1 p2 n with h | ⟨_, _, _, h⟩ <;> rw [h]

@[simp] theorem addItem_faces (s : HoleWrapper V) (p1 p2 : Nat) (n : V) :
    (addItem s p1 p2 n).m_generatedFaces = s.m_generatedFaces := by
  rcases addItem_cases s p1 p2 n with h | ⟨_, _, _, h⟩ <;> rw [h]

@[simp] theorem addItem_newly (s : HoleWrapper V) (p1 p2 : Nat) (n : V) :
    (addItem s p1 p2 n).m_newlyGeneratedfaces = s.m_newlyGeneratedfaces := by
  rcases addItem_cases s p1 p2 n with h | ⟨_, _, _, h⟩ <;> rw [h]

@[simp] theorem addItem_finalizeFinished (s : HoleWrapper V) (p1 p2 : Nat) (n : V) :
    (addItem s p1 p2 n).m_finalizeFinished = s.m_finalizeFinished := by
  rcases addItem_cases s p1 p2 n with h | ⟨_, _, _, h⟩ <;> rw [h]

theorem addItem_frontOk (s : HoleWrapper V) (p1 p2 : Nat) (n : V) (h : FrontOk s)
    (h1 : p1 < s.m_sourceVertices.length) (h2 : p2 < s.m_sourceVertices.length) :
    FrontOk (addItem s p1 p2 n) := by
  rcases addItem_cases s p1 p2 n with e | ⟨hm, _, _, e⟩
  · rw [e]; exact h
  · rw [e]
    have hk : itemKeys
        ({ s with
          m_items := s.m_items ++
            [{ baseNormal := n, p1 := p1, p2 := p2, p3 := 0, processed := false }]
          m_itemsMap := mapInsert s.m_itemsMap (p1, p2) s.m_items.length
          m_itemsList := s.m_items.length :: s.m_itemsList } : HoleWrapper V) =
        itemKeys s ++ [(p1, p2)] := by
      simp [itemKeys]
    refine ⟨h.cand_lt, ?_, ?_, ?_, ?_⟩
    · intro k hk1
      rw [hk] at hk1
      rcases List.mem_append.1 hk1 with hk1 | hk1
      · exact h.item_lt k hk1
      · simp only [List.mem_singleton] at hk1
        subst hk1
        exact ⟨h1, h2⟩
    · rw [hk]
      refine List.Nodup.append h.keys_nodup (List.nodup_singleton _) ?_
      intro k hk1 hk2
      simp only [List.mem_singleton] at hk2
      subst hk2
      have := h.key_mapped _ hk1
      rw [hm] at this
      simp at this
    · intro k hk1
      rw [hk] at hk1
      show (mapInsert s.m_itemsMap (p1, p2) s.m_items.length k).isSome = true
      rw [mapInsert_isSome]
      rcases List.mem_append.1 hk1 with hk1 | hk1
      · right; exact h.key_mapped k hk1
      · simp only [List.mem_singleton] at hk1
        left; exact hk1
    · intro i hi
      simp only [List.length_append, List.length_singleton]
      rcases List.mem_cons.1 hi with rfl | hi
      · omega
      · have := h.list_lt i hi
        omega

theorem isEdgeClosed_congr {s t : HoleWrapper V}
    (h : t.m_generatedFaceEdgesMap = s.m_generatedFaceEdgesMap) (a b : Nat) :
    isEdgeClosed t a b = isEdgeClosed s a b := by
  simp [isEdgeClosed, h]

theorem isVertexClosed_congr {s t : HoleWrapper V}
    (h : t.m_generatedFaceEdgesMap = s.m_generatedFaceEdgesMap)
    (h2 : t.m_generatedVertexEdgesMap = s.m_generatedVertexEdgesMap) (v : Nat) :
    isVertexClosed t v = isVertexClosed s v := by
  simp [isVertexClosed, h2, isEdgeClosed, h]

theorem sourceVertex_congr {s t : HoleWrapper V}
    (h : t.m_sourceVertices = s.m_sourceVertices) (v : Nat) :
    sourceVertex t v = sourceVertex s v := by
  simp [sourceVertex, h]

theorem isEdgeClosed_comm (s : HoleWrapper V) (a b : Nat) :
    isEdgeClosed s a b = isEdgeClosed s b a := by
  simp [isEdgeClosed, Bool.and_comm]

theorem isEdgeClosed_iff (s : HoleWrapper V) (a b : Nat) :
    isEdgeClosed s a b = true ↔
      (s.m_generatedFaceEdgesMap (a, b)).isSome = true ∧
      (s.m_generatedFaceEdgesMap (b, a)).isSome = true := by
  simp [isEdgeClosed]

theorem isVertexClosed_iff (s : HoleWrapper V) (v : Nat) :
    isVertexClosed s v = true ↔
      ∃ others, s.m_generatedVertexEdgesMap v = some others ∧
        ∀ o ∈ others, isEdgeClosed s v o = true := by
  unfold isVertexClosed
  cases h : s.m_generatedVertexEdgesMap v with
  | none => simp
  | some l => simp

/-- The item stored at `i` keeps its end points when only its `processed`
flag or its `p3` changes. -/
theorem item_set_p1p2 (l : List (WrapItem V)) (i j : Nat) (w : WrapItem V)
    (h1 : w.p1 = (l.getD i default).p1) (h2 : w.p2 = (l.getD i default).p2) :
    ((l.set i w).getD j default).p1 = (l.getD j default).p1 ∧
    ((l.set i w).getD j default).p2 = (l.getD j default).p2 := by
  simp only [List.getD_eq_getElem?_getD, List.getElem?_set]
  by_cases hij : i = j
  · subst hij
    by_cases hl : i < l.length
    · simp [hl, h1, h2]
    · simp [hl, List.getElem?_eq_none (not_lt.1 hl)]
  · simp [hij]

theorem map_key_set (l : List (WrapItem V)) (i : Nat) (w : WrapItem V)
    (h1 : w.p1 = (l.getD i default).p1) (h2 : w.p2 = (l.getD i default).p2) :
    (l.set i w).map (fun it => (it.p1, it.p2)) = l.map (fun it => (it.p1, it.p2)) := by
  apply List.ext_getElem?
  intro j
  simp only [List.getElem?_map, List.getElem?_set]
  by_cases hij : i = j
  · subst hij
    by_cases hl : i < l.length
    · simp [hl, h1, h2, List.getD_eq_getElem?_getD, List.getElem?_eq_getElem hl]
    · simp [hl, List.getElem?_eq_none (not_lt.1 hl)]
  · simp [hij]

/-! ## The candidate scan -/

theorem findBestLoop_fst (K : Vector3Kernel V R) (s : HoleWrapper V) (i p1 p2 : Nat)
    (cands : List Nat) (m : R) (r : Nat × Bool) :
    (findBestLoop K s i p1 p2 cands m r).1 =
      cands.filter (fun c => !isVertexClosed s c) := by
  induction cands generalizing m r with
  | nil => simp [findBestLoop]
  | cons c rest ih =>
    simp only [findBestLoop]
    split_ifs with h1 h2 h3
    · simp [h1, ih]
    · simp [h1, ih]
    · simp [h1, ih]
    · simp [h1, ih]

theorem findBestLoop_snd (K : Vector3Kernel V R) (s : HoleWrapper V) (i p1 p2 : Nat)
    (cands : List Nat) (m : R) (r : Nat × Bool)
    (hm : m = K.zero ∨ K.gt m K.zero = true) :
    (findBestLoop K s i p1 p2 cands m r).2 = r ∨
      ((findBestLoop K s i p1 p2 cands m r).2.2 = true ∧
        (findBestLoop K s i p1 p2 cands m r).2.1 ∈ cands ∧
        Eligible K s i p1 p2 (findBestLoop K s i p1 p2 cands m r).2.1) := by
  induction cands generalizing m r with
  | nil => left; simp [findBestLoop]
  | cons c rest ih =>
    simp only [findBestLoop]
    split_ifs with h1 h2 h3
    · rcases ih m r hm with h | ⟨ha, hb, hc⟩
      · left; exact h
      · right; exact ⟨ha, List.mem_cons_of_mem _ hb, hc⟩
    · rcases ih m r hm with h | ⟨ha, hb, hc⟩
      · left; exact h
      · right; exact ⟨ha, List.mem_cons_of_mem _ hb, hc⟩
    · have hgt : K.gt (angleOfBaseFaceAndPoint K s i c) K.zero = true := by
        rcases hm with hm | hm
        · rw [← hm]; exact h3
        · exact K.gt_trans _ _ _ h3 hm
      rcases ih (angleOfBaseFaceAndPoint K s i c) (c, true) (Or.inr hgt) with h | ⟨ha, hb, hc⟩
      · right
        simp only [h]
        refine ⟨trivial, List.mem_cons_self _ _, ?_, ?_, ?_, hgt⟩
        · simpa using h1
        · simpa using (not_or.1 h2).1
        · simpa using (not_or.1 h2).2
      · right; exact ⟨ha, List.mem_cons_of_mem _ hb, hc⟩
    · rcases ih m r hm with h | ⟨ha, hb, hc⟩
      · left; exact h
      · right; exact ⟨ha, List.mem_cons_of_mem _ hb, hc⟩

theorem angle_zero_of_endpoint (K : Vector3Kernel V R) (s : HoleWrapper V) (i c : Nat)
    (h : (item s i).p1 = c ∨ (item s i).p2 = c) :
    angleOfBaseFaceAndPoint K s i c = K.zero := by
  unfold angleOfBaseFaceAndPoint
  simp [h]

theorem angle_zero_of_samePlane (K : Vector3Kernel V R) (s : HoleWrapper V) (i c : Nat)
    (h : (sourceVertex s (item s i).p1).sourcePlane = (sourceVertex s (item s i).p2).sourcePlane ∧
      (sourceVertex s (item s i).p1).sourcePlane = (sourceVertex s c).sourcePlane) :
    angleOfBaseFaceAndPoint K s i c = K.zero := by
  unfold angleOfBaseFaceAndPoint
  by_cases h0 : (item s i).p1 = c ∨ (item s i).p2 = c
  · simp only [h0, if_true]
  · simp only [h0, if_false]
    rw [if_pos h]

/-- A vertex with a positive angle is neither end point of the item and does
not share the source plane of both. -/
theorem Eligible.ne (K : Vector3Kernel V R) (s : HoleWrapper V) (i c : Nat)
    (h : Eligible K s i (item s i).p1 (item s i).p2 c) :
    (item s i).p1 ≠ c ∧ (item s i).p2 ≠ c ∧
      ¬ ((sourceVertex s (item s i).p1).sourcePlane = (sourceVertex s (item s i).p2).sourcePlane ∧
        (sourceVertex s (item s i).p1).sourcePlane = (sourceVertex s c).sourcePlane) := by
  have hz := h.2.2.2
  refine ⟨?_, ?_, ?_⟩
  · intro e
    rw [angle_zero_of_endpoint K s i c (Or.inl e), K.gt_irrefl] at hz
    exact Bool.noConfusion hz
  · intro e
    rw [angle_zero_of_endpoint K s i c (Or.inr e), K.gt_irrefl] at hz
    exact Bool.noConfusion hz
  · intro e
    rw [angle_zero_of_samePlane K s i c e, K.gt_irrefl] at hz
    exact Bool.noConfusion hz

/-- The outcome of `findBestVertexOnTheLeft`: closed candidates leave the
pool, nothing else changes, and a vertex that is returned is eligible. -/
theorem findBest_spec (K : Vector3Kernel V R) (s : HoleWrapper V) (i : Nat) :
    (findBestVertexOnTheLeft K s i).1 =
        { s with m_candidates := s.m_candidates.filter (fun c => !isVertexClosed s c) } ∧
      ((findBestVertexOnTheLeft K s i).2.2 = true →
        (findBestVertexOnTheLeft K s i).2.1 ∈ s.m_candidates ∧
        Eligible K s i (item s i).p1 (item s i).p2 (findBestVertexOnTheLeft K s i).2.1) := by
  unfold findBestVertexOnTheLeft
  refine ⟨?_, ?_⟩
  · simp only [findBestLoop_fst]
  · intro h
    simp only at h ⊢
    rcases findBestLoop_snd K s i (item s i).p1 (item s i).p2 s.m_candidates K.zero (0, false)
      (Or.inl rfl) with e | ⟨_, hb, hc⟩
    · rw [e] at h; exact Bool.noConfusion h
    · exact ⟨hb, hc⟩

/-! ## One pass of the triangulator -/

theorem item_markProcessed (s : HoleWrapper V) (i j : Nat) :
    (item (markProcessed s i) j).p1 = (item s j).p1 ∧
    (item (markProcessed s i) j).p2 = (item s j).p2 ∧
    (item (markProcessed s i) j).baseNormal = (item s j).baseNormal := by
  unfold item markProcessed
  simp only [List.getD_eq_getElem?_getD, List.getElem?_set]
  by_cases hij : i = j
  · subst hij
    by_cases hl : i < s.m_items.length
    · simp [hl, item]
    · simp [hl, List.getElem?_eq_none (not_lt.1 hl)]
  · simp [hij]

theorem angle_markProcessed (K : Vector3Kernel V R) (s : HoleWrapper V) (i j c : Nat) :
    angleOfBaseFaceAndPoint K (markProcessed s i) j c = angleOfBaseFaceAndPoint K s j c := by
  obtain ⟨h1, h2, h3⟩ := item_markProcessed s i j
  unfold angleOfBaseFaceAndPoint
  simp only [h1, h2, h3]
  rfl

theorem eligible_markProcessed (K : Vector3Kernel V R) (s : HoleWrapper V) (i j a b c : Nat) :
    Eligible K (markProcessed s i) j a b c ↔ Eligible K s j a b c := by
  unfold Eligible
  rw [angle_markProcessed]
  rfl

theorem generateBody_cases (K : Vector3Kernel V R) (s : HoleWrapper V) (i : Nat) :
    (isEdgeClosed s (item s i).p1 (item s i).p2 = true ∧
      generateBody K s i = markProcessed s i) ∨
    (isEdgeClosed s (item s i).p1 (item s i).p2 = false ∧
      generateBody K s i = prune (markProcessed s i)) ∨
    (isEdgeClosed s (item s i).p1 (item s i).p2 = false ∧
      ∃ p3, p3 ∈ s.m_candidates ∧ Eligible K s i (item s i).p1 (item s i).p2 p3 ∧
        generateBody K s i =
          emitFace K (prune (markProcessed s i)) i (item s i).p1 (item s i).p2 p3) := by
  obtain ⟨h1, h2, _⟩ := item_markProcessed s i i
  obtain ⟨hs, hr⟩ := findBest_spec K (markProcessed s i) i
  have hc : isEdgeClosed (markProcessed s i) (item s i).p1 (item s i).p2 =
      isEdgeClosed s (item s i).p1 (item s i).p2 := rfl
  unfold generateBody
  simp only [h1, h2, hc]
  by_cases hcl : isEdgeClosed s (item s i).p1 (item s i).p2 = true
  · left
    simp [hcl]
  · right
    have hcl2 : isEdgeClosed s (item s i).p1 (item s i).p2 = false := by simpa using hcl
    simp only [hcl2, Bool.false_eq_true, if_false]
    by_cases hf : (findBestVertexOnTheLeft K (markProcessed s i) i).2.2 = true
    · right
      refine ⟨trivial, (findBestVertexOnTheLeft K (markProcessed s i) i).2.1, ?_, ?_, ?_⟩
      · exact (hr hf).1
      · have := (hr hf).2
        rw [h1, h2] at this
        exact (eligible_markProcessed K s i i _ _ _).1 this
      · rw [if_pos hf, hs]
        rfl
    · left
      refine ⟨trivial, ?_⟩
      rw [if_neg hf, hs]
      rfl

@[simp] theorem markProcessed_sourceVertices (s : HoleWrapper V) (i : Nat) :
    (markProcessed s i).m_sourceVertices = s.m_sourceVertices := rfl

@[simp] theorem markProcessed_candidates (s : HoleWrapper V) (i : Nat) :
    (markProcessed s i).m_candidates = s.m_candidates := rfl

@[simp] theorem markProcessed_ledger (s : HoleWrapper V) (i : Nat) :
    (markProcessed s i).m_generatedFaceEdgesMap = s.m_generatedFaceEdgesMap := rfl

@[simp] theorem markProcessed_adjacency (s : HoleWrapper V) (i : Nat) :
    (markProcessed s i).m_generatedVertexEdgesMap = s.m_generatedVertexEdgesMap := rfl

@[simp] theorem markProcessed_faces (s : HoleWrapper V) (i : Nat) :
    (markProcessed s i).m_generatedFaces = s.m_generatedFaces := rfl

@[simp] theorem markProcessed_itemsList (s : HoleWrapper V) (i : Nat) :
    (markProcessed s i).m_itemsList = s.m_itemsList := rfl

@[simp] theorem markProcessed_itemsMap (s : HoleWrapper V) (i : Nat) :
    (markProcessed s i).m_itemsMap = s.m_itemsMap := rfl

@[simp] theorem markProcessed_newly (s : HoleWrapper V) (i : Nat) :
    (markProcessed s i).m_newlyGeneratedfaces = s.m_newlyGeneratedfaces := rfl

@[simp] theorem markProcessed_finalizeFinished (s : HoleWrapper V) (i : Nat) :
    (markProcessed s i).m_finalizeFinished = s.m_finalizeFinished := rfl

@[simp] theorem prune_sourceVertices (s : HoleWrapper V) :
    (prune s).m_sourceVertices = s.m_sourceVertices := rfl

@[simp] theorem prune_items (s : HoleWrapper V) : (prune s).m_items = s.m_items := rfl

@[simp] theorem prune_itemsList (s : HoleWrapper V) :
    (prune s).m_itemsList = s.m_itemsList := rfl

@[simp] theorem prune_itemsMap (s : HoleWrapper V) : (prune s).m_itemsMap = s.m_itemsMap := rfl

@[simp] theorem prune_ledger (s : HoleWrapper V) :
    (prune s).m_generatedFaceEdgesMap = s.m_generatedFaceEdgesMap := rfl

@[simp] theorem prune_adjacency (s : HoleWrapper V) :
    (prune s).m_generatedVertexEdgesMap = s.m_generatedVertexEdgesMap := rfl

@[simp] theorem prune_faces (s : HoleWrapper V) :
    (prune s).m_generatedFaces = s.m_generatedFaces := rfl

@[simp] theorem prune_newly (s : HoleWrapper V) :
    (prune s).m_newlyGeneratedfaces = s.m_newlyGeneratedfaces := rfl

@[simp] theorem prune_finalizeFinished (s : HoleWrapper V) :
    (prune s).m_finalizeFinished = s.m_finalizeFinished := rfl

theorem prune_candidates (s : HoleWrapper V) :
    (prune s).m_candidates = s.m_candidates.filter (fun c => !isVertexClosed s c) := rfl

@[simp] theorem emitFace_sourceVertices (K : Vector3Kernel V R) (s : HoleWrapper V)
    (i p1 p2 p3 : Nat) : (emitFace K s i p1 p2 p3).m_sourceVertices = s.m_sourceVertices := by
  simp [emitFace]

@[simp] theorem emitFace_candidates (K : Vector3Kernel V R) (s : HoleWrapper V)
    (i p1 p2 p3 : Nat) : (emitFace K s i p1 p2 p3).m_candidates = s.m_candidates := by
  simp [emitFace]

@[simp] theorem emitFace_newly (K : Vector3Kernel V R) (s : HoleWrapper V)
    (i p1 p2 p3 : Nat) :
    (emitFace K s i p1 p2 p3).m_newlyGeneratedfaces = s.m_newlyGeneratedfaces := by
  simp [emitFace]

@[simp] theorem emitFace_finalizeFinished (K : Vector3Kernel V R) (s : HoleWrapper V)
    (i p1 p2 p3 : Nat) :
    (emitFace K s i p1 p2 p3).m_finalizeFinished = s.m_finalizeFinished := by
  simp [emitFace]

theorem emitFace_faces (K : Vector3Kernel V R) (s : HoleWrapper V) (i p1 p2 p3 : Nat) :
    (emitFace K s i p1 p2 p3).m_generatedFaces = s.m_generatedFaces ++
      [{ p1 := p1, p2 := p2, p3 := p3,
         normal := K.normal (sourceVertex s p1).position (sourceVertex s p2).position
           (sourceVertex s p3).position,
         index := s.m_generatedFaces.length }] := by
  simp [emitFace, sourceVertex]

theorem emitFace_ledger (K : Vector3Kernel V R) (s : HoleWrapper V) (i p1 p2 p3 : Nat) :
    (emitFace K s i p1 p2 p3).m_generatedFaceEdgesMap =
      mapInsert (mapInsert (mapInsert s.m_generatedFaceEdgesMap
        (p1, p2) (s.m_generatedFaces.length, true)) (p2, p3) (s.m_generatedFaces.length, true))
        (p3, p1) (s.m_generatedFaces.length, true) := by
  simp [emitFace]

theorem emitFace_adjacency (K : Vector3Kernel V R) (s : HoleWrapper V) (i p1 p2 p3 : Nat) :
    (emitFace K s i p1 p2 p3).m_generatedVertexEdgesMap =
      mapPushBack (mapPushBack (mapPushBack (mapPushBack (mapPushBack (mapPushBack
        s.m_generatedVertexEdgesMap p1 p2) p1 p3) p2 p3) p2 p1) p3 p1) p3 p2 := by
  simp [emitFace]

/-! ## Well-formedness of the front is kept by every operation -/

theorem FrontOk.congr {s t : HoleWrapper V} (h : FrontOk s)
    (h1 : t.m_candidates = s.m_candidates) (h2 : t.m_sourceVertices = s.m_sourceVertices)
    (h3 : itemKeys t = itemKeys s) (h4 : t.m_itemsMap = s.m_itemsMap)
    (h5 : t.m_itemsList = s.m_itemsList) (h6 : t.m_items.length = s.m_items.length) :
    FrontOk t := by
  refine ⟨?_, ?_, ?_, ?_, ?_⟩
  · rw [h1, h2]; exact h.cand_lt
  · rw [h2, h3]; exact h.item_lt
  · rw [h3]; exact h.keys_nodup
  · rw [h3, h4]; exact h.key_mapped
  · rw [h5, h6]; exact h.list_lt

theorem itemKeys_markProcessed (s : HoleWrapper V) (i : Nat) :
    itemKeys (markProcessed s i) = itemKeys s := by
  unfold itemKeys markProcessed
  exact map_key_set _ _ _ rfl rfl

theorem markProcessed_frontOk (s : HoleWrapper V) (i : Nat) (h : FrontOk s) :
    FrontOk (markProcessed s i) :=
  h.congr rfl rfl (itemKeys_markProcessed s i) rfl rfl (by simp [markProcessed])

theorem prune_frontOk (s : HoleWrapper V) (h : FrontOk s) : FrontOk (prune s) := by
  refine ⟨?_, h.item_lt, h.keys_nodup, h.key_mapped, h.list_lt⟩
  intro c hc
  exact h.cand_lt c (List.mem_filter.1 hc).1

theorem emitFace_frontOk (K : Vector3Kernel V R) (s : HoleWrapper V) (i p1 p2 p3 : Nat)
    (h : FrontOk s) (h1 : p1 < s.m_sourceVertices.length) (h2 : p2 < s.m_sourceVertices.length)
    (h3 : p3 < s.m_sourceVertices.length) : FrontOk (emitFace K s i p1 p2 p3) := by
  unfold emitFace
  simp only
  refine FrontOk.congr (s := addItem (addItem _ p3 p2 _) p1 p3 _) ?_ rfl rfl rfl rfl rfl rfl
  refine addItem_frontOk _ _ _ _ (addItem_frontOk _ _ _ _ ?_ ?_ ?_) ?_ ?_
  · refine h.congr rfl rfl ?_ rfl rfl (by simp)
    unfold itemKeys
    exact map_key_set _ _ _ rfl rfl
  · exact h3
  · exact h2
  · simpa using h1
  · simpa using h3

theorem generateBody_sourceVertices (K : Vector3Kernel V R) (s : HoleWrapper V) (i : Nat) :
    (generateBody K s i).m_sourceVertices = s.m_sourceVertices := by
  rcases generateBody_cases K s i with ⟨_, e⟩ | ⟨_, e⟩ | ⟨_, p3, _, _, e⟩ <;> rw [e] <;> simp

theorem generateBody_newly (K : Vector3Kernel V R) (s : HoleWrapper V) (i : Nat) :
    (generateBody K s i).m_newlyGeneratedfaces = s.m_newlyGeneratedfaces := by
  rcases generateBody_cases K s i with ⟨_, e⟩ | ⟨_, e⟩ | ⟨_, p3, _, _, e⟩ <;> rw [e] <;> simp

theorem generateBody_finalizeFinished (K : Vector3Kernel V R) (s : HoleWrapper V) (i : Nat) :
    (generateBody K s i).m_finalizeFinished = s.m_finalizeFinished := by
  rcases generateBody_cases K s i with ⟨_, e⟩ | ⟨_, e⟩ | ⟨_, p3, _, _, e⟩ <;> rw [e] <;> simp

theorem peekItem_spec (s : HoleWrapper V) (h : (peekItem s).2 = true) :
    (peekItem s).1 ∈ s.m_itemsList ∧ (item s (peekItem s).1).processed = false := by
  unfold peekItem at h ⊢
  cases hf : s.m_itemsList.find? (fun itemIndex => !(item s itemIndex).processed) with
  | none => rw [hf] at h; exact Bool.noConfusion h
  | some j =>
    simp only
    refine ⟨List.mem_of_find?_eq_some hf, ?_⟩
    simpa using List.find?_some hf

theorem item_mem_keys (s : HoleWrapper V) (i : Nat) (hi : i < s.m_items.length) :
    ((item s i).p1, (item s i).p2) ∈ itemKeys s := by
  unfold itemKeys item
  refine List.mem_map.2 ⟨s.m_items[i], List.getElem_mem _, ?_⟩
  simp [List.getD_eq_getElem?_getD, List.getElem?_eq_getElem hi]

theorem generateBody_frontOk (K : Vector3Kernel V R) (s : HoleWrapper V) (h : FrontOk s)
    (hp : (peekItem s).2 = true) : FrontOk (generateBody K s (peekItem s).1) := by
  have hi := h.list_lt _ (peekItem_spec s hp).1
  have hk := h.item_lt _ (item_mem_keys s _ hi)
  rcases generateBody_cases K s (peekItem s).1 with ⟨_, e⟩ | ⟨_, e⟩ | ⟨_, p3, hp3, _, e⟩
  · rw [e]; exact markProcessed_frontOk s _ h
  · rw [e]; exact prune_frontOk _ (markProcessed_frontOk s _ h)
  · rw [e]
    exact emitFace_frontOk K _ _ _ _ _ (prune_frontOk _ (markProcessed_frontOk s _ h))
      hk.1 hk.2 (h.cand_lt p3 hp3)

/-- An invariant of the loop body is an invariant of the whole loop. -/
theorem generateFuel_induction (K : Vector3Kernel V R) (P : HoleWrapper V → Prop)
    (step : ∀ s, P s → (peekItem s).2 = true → P (generateBody K s (peekItem s).1)) :
    ∀ (fuel : Nat) (s : HoleWrapper V), P s → P (generateFuel K fuel s) := by
  intro fuel
  induction fuel with
  | zero => intro s hs; exact hs
  | succ n ih =>
    intro s hs
    simp only [generateFuel]
    split_ifs with hp
    · exact ih _ (step s hs hp)
    · exact hs

theorem generate_frontOk (K : Vector3Kernel V R) (s : HoleWrapper V) (h : FrontOk s) :
    FrontOk (generate K s) :=
  generateFuel_induction K FrontOk (fun s hs hp => generateBody_frontOk K s hs hp) _ s h

/-! ## The triangulator exhausts the front -/

theorem countP_set_processed (l : List (WrapItem V)) (i : Nat) (w : WrapItem V)
    (hi : i < l.length) (h0 : (l.getD i default).processed = false)
    (hw : w.processed = true) :
    (l.set i w).countP (fun it => it.processed) = l.countP (fun it => it.processed) + 1 := by
  induction l generalizing i with
  | nil => simp at hi
  | cons a rest ih =>
    cases i with
    | zero =>
      simp only [List.getD_cons_zero] at h0
      simp [List.countP_cons, hw, h0]
    | succ j =>
      simp only [List.getD_cons_succ] at h0
      simp only [List.set_cons_succ, List.countP_cons]
      rw [ih j (by simpa using hi) h0]
      omega

theorem countP_set_same (l : List (WrapItem V)) (i : Nat) (w : WrapItem V)
    (hw : w.processed = (l.getD i default).processed) :
    (l.set i w).countP (fun it => it.processed) = l.countP (fun it => it.processed) := by
  induction l generalizing i with
  | nil => simp
  | cons a rest ih =>
    cases i with
    | zero =>
      simp only [List.getD_cons_zero] at hw
      simp [List.countP_cons, hw]
    | succ j =>
      simp only [List.getD_cons_succ] at hw
      simp only [List.set_cons_succ, List.countP_cons]
      rw [ih j hw]

theorem processedCount_addItem (s : HoleWrapper V) (p1 p2 : Nat) (n : V) :
    processedCount (addItem s p1 p2 n) = processedCount s := by
  rcases addItem_cases s p1 p2 n with e | ⟨_, _, _, e⟩
  · rw [e]
  · rw [e]; simp [processedCount]

theorem processedCount_emitFace (K : Vector3Kernel V R) (s : HoleWrapper V)
    (i p1 p2 p3 : Nat) : processedCount (emitFace K s i p1 p2 p3) = processedCount s := by
  unfold emitFace
  simp only
  show processedCount (addItem (addItem _ p3 p2 _) p1 p3 _) = _
  rw [processedCount_addItem, processedCount_addItem]
  unfold processedCount
  exact countP_set_same _ _ _ rfl

theorem processedCount_markProcessed (s : HoleWrapper V) (i : Nat) (hi : i < s.m_items.length)
    (h0 : (item s i).processed = false) :
    processedCount (markProcessed s i) = processedCount s + 1 := by
  unfold processedCount markProcessed
  exact countP_set_processed _ _ _ hi h0 rfl

theorem processedCount_generateBody (K : Vector3Kernel V R) (s : HoleWrapper V)
    (h : FrontOk s) (hp : (peekItem s).2 = true) :
    processedCount (generateBody K s (peekItem s).1) = processedCount s + 1 := by
  have hi := h.list_lt _ (peekItem_spec s hp).1
  have h0 := (peekItem_spec s hp).2
  have hm := processedCount_markProcessed s _ hi h0
  rcases generateBody_cases K s (peekItem s).1 with ⟨_, e⟩ | ⟨_, e⟩ | ⟨_, p3, _, _, e⟩
  · rw [e, hm]
  · rw [e]; exact hm
  · rw [e, processedCount_emitFace]; exact hm

theorem items_length_le (s : HoleWrapper V) (h : FrontOk s) :
    s.m_items.length ≤ s.m_sourceVertices.length * s.m_sourceVertices.length := by
  have h1 : (itemKeys s).length = s.m_items.length := by simp [itemKeys]
  rw [← h1, ← List.toFinset_card_of_nodup h.keys_nodup]
  have hsub : (itemKeys s).toFinset ⊆
      Finset.range s.m_sourceVertices.length ×ˢ Finset.range s.m_sourceVertices.length := by
    intro k hk
    have := h.item_lt k (List.mem_toFinset.1 hk)
    simp [Finset.mem_product, this.1, this.2]
  calc (itemKeys s).toFinset.card
      ≤ (Finset.range s.m_sourceVertices.length ×ˢ
          Finset.range s.m_sourceVertices.length).card := Finset.card_le_card hsub
    _ = s.m_sourceVertices.length * s.m_sourceVertices.length := by
      simp [Finset.card_product]

theorem processedCount_le (s : HoleWrapper V) : processedCount s ≤ s.m_items.length :=
  List.countP_le_length _

theorem processedCount_lt_of_peek (s : HoleWrapper V) (h : FrontOk s)
    (hp : (peekItem s).2 = true) : processedCount s < s.m_items.length := by
  have hi := h.list_lt _ (peekItem_spec s hp).1
  have h0 := (peekItem_spec s hp).2
  have := processedCount_le (markProcessed s (peekItem s).1)
  rw [processedCount_markProcessed s _ hi h0] at this
  simpa [markProcessed] using this

/-- With at least as much fuel as there are directed pairs of vertices not
yet processed, the loop stops because `peekItem` finds nothing. -/
theorem generateFuel_exhausts (K : Vector3Kernel V R) :
    ∀ (fuel : Nat) (s : HoleWrapper V), FrontOk s →
      s.m_sourceVertices.length * s.m_sourceVertices.length - processedCount s ≤ fuel →
      (peekItem (generateFuel K fuel s)).2 = false := by
  intro fuel
  induction fuel with
  | zero =>
    intro s h hf
    simp only [generateFuel]
    by_contra hp
    have hp : (peekItem s).2 = true := by simpa using hp
    have h1 := processedCount_lt_of_peek s h hp
    have h2 := items_length_le s h
    omega
  | succ n ih =>
    intro s h hf
    simp only [generateFuel]
    split_ifs with hp
    · apply ih _ (generateBody_frontOk K s h hp)
      rw [generateBody_sourceVertices, processedCount_generateBody K s h hp]
      omega
    · simpa using hp

/-- `generate` returns only when the front holds no unprocessed item. -/
theorem generate_exhausts_front (K : Vector3Kernel V R) (s : HoleWrapper V) (h : FrontOk s) :
    (peekItem (generate K s)).2 = false :=
  generateFuel_exhausts K _ s h (Nat.sub_le _ _)

/-- More fuel than `generate` supplies changes nothing. -/
theorem generateFuel_stable (K : Vector3Kernel V R) :
    ∀ (fuel extra : Nat) (s : HoleWrapper V),
      (peekItem (generateFuel K fuel s)).2 = false →
      generateFuel K (fuel + extra) s = generateFuel K fuel s := by
  intro fuel
  induction fuel with
  | zero =>
    intro extra s h
    simp only [generateFuel] at h
    cases extra with
    | zero => rfl
    | succ e => simp [generateFuel, h]
  | succ n ih =>
    intro extra s h
    rw [Nat.add_right_comm]
    simp only [generateFuel] at h ⊢
    split_ifs with hp
    · rw [if_pos hp] at h
      exact ih extra _ h
    · rfl

/-! ## The vertex registry -/

theorem addSourceVertex_fst (s : HoleWrapper V) (pos : V) (p t : Nat) :
    (addSourceVertex s pos p t).1 =
      { s with
        m_sourceVertices := s.m_sourceVertices ++
          [{ position := pos, sourcePlane := p, tag := t, index := s.m_sourceVertices.length }]
        m_candidates := s.m_candidates ++ [s.m_sourceVertices.length] } := rfl

theorem addSourceVertex_snd (s : HoleWrapper V) (pos : V) (p t : Nat) :
    (addSourceVertex s pos p t).2 = s.m_sourceVertices.length := rfl

/-- The first loop of `addCandidateVertices` appends one block of source
vertices, all of plane `p` and with pairwise distinct tags taken from the
loop, appends their indices to the pool, leaves everything else alone, and
ends with every tag of the loop mapped to its vertex. -/
theorem registerVertices_spec (p : Nat) (vs : List Nat) (s : HoleWrapper V)
    (m : Nat → Option Nat) :
    ∃ block : List (SourceVertex V),
      (registerVertices p vs (s, m)).1 =
        { s with
          m_sourceVertices := s.m_sourceVertices ++ block
          m_candidates := s.m_candidates ++
            List.range' s.m_sourceVertices.length block.length } ∧
      (∀ sv ∈ block, sv.sourcePlane = p ∧ sv.tag ∈ vs ∧ m sv.tag = none) ∧
      (block.map (fun sv => sv.tag)).Nodup ∧
      (∀ t, (registerVertices p vs (s, m)).2 t = m t ∨
        (m t = none ∧ ∃ j, ∃ hj : j < block.length, (block.get ⟨j, hj⟩).tag = t ∧
          (registerVertices p vs (s, m)).2 t = some (s.m_sourceVertices.length + j))) ∧
      (∀ t ∈ vs, ((registerVertices p vs (s, m)).2 t).isSome = true) := by
  induction vs generalizing s m with
  | nil =>
    refine ⟨[], ?_, ?_, ?_, ?_, ?_⟩
    · simp [registerVertices]
    · simp
    · simp
    · intro t; left; rfl
    · simp
  | cons t rest ih =>
    cases hm : m t with
    | some idx =>
      have e : registerVertices p (t :: rest) (s, m) = registerVertices p rest (s, m) := by
        simp only [registerVertices, hm]
      obtain ⟨block, h1, h2, h3, h4, h5⟩ := ih s m
      refine ⟨block, ?_, ?_, h3, ?_, ?_⟩
      · rw [e]; exact h1
      · intro sv hsv
        exact ⟨(h2 sv hsv).1, List.mem_cons_of_mem _ (h2 sv hsv).2.1, (h2 sv hsv).2.2⟩
      · rw [e]; exact h4
      · rw [e]
        intro t' ht'
        rcases List.mem_cons.1 ht' with rfl | ht'
        · rcases h4 t' with h | ⟨h, _⟩
          · rw [h, hm]; rfl
          · rw [hm] at h; exact Option.noConfusion h
        · exact h5 t' ht'
    | none =>
      have e : registerVertices p (t :: rest) (s, m) =
          registerVertices p rest
            ((addSourceVertex s (s.m_positions.getD t default) p t).1,
              mapInsert m t s.m_sourceVertices.length) := by
        simp only [registerVertices, hm, addSourceVertex_snd]
      obtain ⟨block, h1, h2, h3, h4, h5⟩ :=
        ih (addSourceVertex s (s.m_positions.getD t default) p t).1
          (mapInsert m t s.m_sourceVertices.length)
      have hm1 : mapInsert m t s.m_sourceVertices.length t = some s.m_sourceVertices.length :=
        mapInsert_of_none m t _ hm
      refine ⟨{ position := s.m_positions.getD t default, sourcePlane := p, tag := t,
                index := s.m_sourceVertices.length } :: block, ?_, ?_, ?_, ?_, ?_⟩
      · rw [e, h1, addSourceVertex_fst]
        simp [List.range'_succ]
      · intro sv hsv
        rcases List.mem_cons.1 hsv with rfl | hsv
        · exact ⟨rfl, List.mem_cons_self _ _, hm⟩
        · obtain ⟨ha, hb, hc⟩ := h2 sv hsv
          refine ⟨ha, List.mem_cons_of_mem _ hb, ?_⟩
          by_cases ht : sv.tag = t
          · rw [ht, hm1] at hc; exact Option.noConfusion hc
          · rw [mapInsert_of_ne _ _ _ _ ht] at hc; exact hc
      · simp only [List.map_cons, List.nodup_cons]
        refine ⟨?_, h3⟩
        intro hmem
        obtain ⟨sv, hsv, htag⟩ := List.mem_map.1 hmem
        have := (h2 sv hsv).2.2
        rw [htag, hm1] at this
        exact Option.noConfusion this
      · rw [e]
        intro t'
        rcases h4 t' with h | ⟨hn, j, hj, hjt, hje⟩
        · by_cases ht : t' = t
          · right
            subst ht
            refine ⟨hm, 0, by simp, rfl, ?_⟩
            rw [h, hm1]; rfl
          · left
            rw [h, mapInsert_of_ne _ _ _ _ ht]
        · right
          have ht : t' ≠ t := by
            intro ht; rw [ht, hm1] at hn; exact Option.noConfusion hn
          rw [mapInsert_of_ne _ _ _ _ ht] at hn
          refine ⟨hn, j + 1, by simpa using hj, ?_, ?_⟩
          · simpa using hjt
          · rw [hje, addSourceVertex_fst]
            simp [Nat.add_assoc, Nat.add_comm]
      · rw [e]
        intro t' ht'
        rcases List.mem_cons.1 ht' with rfl | ht'
        · rcases h4 t' with h | ⟨h, _⟩
          · rw [h, hm1]; rfl
          · rw [hm1] at h; exact Option.noConfusion h
        · exact h5 t' ht'

/-! ## Seeding the ledger and the front -/

theorem addStartup_of_items (s : HoleWrapper V) (p1 p2 : Nat) (n : V)
    (h : s.m_items ≠ []) :
    addStartup s p1 p2 n =
      { s with m_generatedFaceEdgesMap :=
          mapInsert s.m_generatedFaceEdgesMap (p2, p1) (0, false) } := by
  unfold addStartup
  have : s.m_items.isEmpty = false := by
    cases hs : s.m_items with
    | nil => exact absurd hs h
    | cons a l => rfl
  simp [this]

theorem addStartup_of_empty (s : HoleWrapper V) (p1 p2 : Nat) (n : V)
    (h : s.m_items = []) (hm : ∀ k, s.m_itemsMap k = none)
    (hl : ∀ k, s.m_generatedFaceEdgesMap k = none) :
    addStartup s p1 p2 n =
      { s with
        m_items := [{ baseNormal := n, p1 := p1, p2 := p2, p3 := 0, processed := false }]
        m_itemsMap := mapInsert s.m_itemsMap (p1, p2) 0
        m_itemsList := 0 :: s.m_itemsList
        m_generatedFaceEdgesMap := mapInsert s.m_generatedFaceEdgesMap (p2, p1) (0, false) } := by
  unfold addStartup addItem
  simp [h, findItem, hm, isEdgeGenerated, hl]

@[simp] theorem addStartup_sourceVertices (s : HoleWrapper V) (p1 p2 : Nat) (n : V) :
    (addStartup s p1 p2 n).m_sourceVertices = s.m_sourceVertices := by
  unfold addStartup; split_ifs <;> simp

@[simp] theorem addStartup_candidates (s : HoleWrapper V) (p1 p2 : Nat) (n : V) :
    (addStartup s p1 p2 n).m_candidates = s.m_candidates := by
  unfold addStartup; split_ifs <;> simp

@[simp] theorem addStartup_positions (s : HoleWrapper V) (p1 p2 : Nat) (n : V) :
    (addStartup s p1 p2 n).m_positions = s.m_positions := by
  unfold addStartup; split_ifs <;> simp

@[simp] theorem addStartup_adjacency (s : HoleWrapper V) (p1 p2 : Nat) (n : V) :
    (addStartup s p1 p2 n).m_generatedVertexEdgesMap = s.m_generatedVertexEdgesMap := by
  unfold addStartup; split_ifs <;> simp

@[simp] theorem addStartup_faces (s : HoleWrapper V) (p1 p2 : Nat) (n : V) :
    (addStartup s p1 p2 n).m_generatedFaces = s.m_generatedFaces := by
  unfold addStartup; split_ifs <;> simp

@[simp] theorem addStartup_newly (s : HoleWrapper V) (p1 p2 : Nat) (n : V) :
    (addStartup s p1 p2 n).m_newlyGeneratedfaces = s.m_newlyGeneratedfaces := by
  unfold addStartup; split_ifs <;> simp

@[simp] theorem addStartup_finalizeFinished (s : HoleWrapper V) (p1 p2 : Nat) (n : V) :
    (addStartup s p1 p2 n).m_finalizeFinished = s.m_finalizeFinished := by
  unfold addStartup; split_ifs <;> simp

theorem addStartup_ledger (s : HoleWrapper V) (p1 p2 : Nat) (n : V) :
    (addStartup s p1 p2 n).m_generatedFaceEdgesMap =
      mapInsert s.m_generatedFaceEdgesMap (p2, p1) (0, false) := by
  unfold addStartup; split_ifs <;> simp

theorem seedEdges_cons (vertices : List Nat) (m : Nat → Option Nat) (n : V) (i : Nat)
    (rest : List Nat) (s : HoleWrapper V) :
    seedEdges vertices m n (i :: rest) s =
      seedEdges vertices m n rest
        (addStartup s (seedKey vertices m i).2 (seedKey vertices m i).1 n) := rfl

@[simp] theorem seedEdges_sourceVertices (vertices : List Nat) (m : Nat → Option Nat) (n : V)
    (is : List Nat) (s : HoleWrapper V) :
    (seedEdges vertices m n is s).m_sourceVertices = s.m_sourceVertices := by
  induction is generalizing s with
  | nil => rfl
  | cons i rest ih => rw [seedEdges_cons, ih]; simp

@[simp] theorem seedEdges_candidates (vertices : List Nat) (m : Nat → Option Nat) (n : V)
    (is : List Nat) (s : HoleWrapper V) :
    (seedEdges vertices m n is s).m_candidates = s.m_candidates := by
  induction is generalizing s with
  | nil => rfl
  | cons i rest ih => rw [seedEdges_cons, ih]; simp

@[simp] theorem seedEdges_positions (vertices : List Nat) (m : Nat → Option Nat) (n : V)
    (is : List Nat) (s : HoleWrapper V) :
    (seedEdges vertices m n is s).m_positions = s.m_positions := by
  induction is generalizing s with
  | nil => rfl
  | cons i rest ih => rw [seedEdges_cons, ih]; simp

@[simp] theorem seedEdges_adjacency (vertices : List Nat) (m : Nat → Option Nat) (n : V)
    (is : List Nat) (s : HoleWrapper V) :
    (seedEdges vertices m n is s).m_generatedVertexEdgesMap = s.m_generatedVertexEdgesMap := by
  induction is generalizing s with
  | nil => rfl
  | cons i rest ih => rw [seedEdges_cons, ih]; simp

@[simp] theorem seedEdges_faces (vertices : List Nat) (m : Nat → Option Nat) (n : V)
    (is : List Nat) (s : HoleWrapper V) :
    (seedEdges vertices m n is s).m_generatedFaces = s.m_generatedFaces := by
  induction is generalizing s with
  | nil => rfl
  | cons i rest ih => rw [seedEdges_cons, ih]; simp

@[simp] theorem seedEdges_newly (vertices : List Nat) (m : Nat → Option Nat) (n : V)
    (is : List Nat) (s : HoleWrapper V) :
    (seedEdges vertices m n is s).m_newlyGeneratedfaces = s.m_newlyGeneratedfaces := by
  induction is generalizing s with
  | nil => rfl
  | cons i rest ih => rw [seedEdges_cons, ih]; simp

@[simp] theorem seedEdges_finalizeFinished (vertices : List Nat) (m : Nat → Option Nat) (n : V)
    (is : List Nat) (s : HoleWrapper V) :
    (seedEdges vertices m n is s).m_finalizeFinished = s.m_finalizeFinished := by
  induction is generalizing s with
  | nil => rfl
  | cons i rest ih => rw [seedEdges_cons, ih]; simp

theorem seedEdges_ledger_isSome (vertices : List Nat) (m : Nat → Option Nat) (n : V)
    (is : List Nat) (s : HoleWrapper V) (k : WrapItemKey) :
    ((seedEdges vertices m n is s).m_generatedFaceEdgesMap k).isSome = true ↔
      (s.m_generatedFaceEdgesMap k).isSome = true ∨ ∃ i ∈ is, k = seedKey vertices m i := by
  induction is generalizing s with
  | nil => simp [seedEdges]
  | cons i rest ih =>
    rw [seedEdges_cons, ih, addStartup_ledger, mapInsert_isSome]
    simp only [List.mem_cons, exists_eq_or_imp, Prod.mk.eta]
    tauto

theorem seedEdges_ledger_val (vertices : List Nat) (m : Nat → Option Nat) (n : V)
    (is : List Nat) (s : HoleWrapper V)
    (h : ∀ k v, s.m_generatedFaceEdgesMap k = some v → v = (0, false)) :
    ∀ k v, (seedEdges vertices m n is s).m_generatedFaceEdgesMap k = some v → v = (0, false) := by
  induction is generalizing s with
  | nil => exact h
  | cons i rest ih =>
    rw [seedEdges_cons]
    apply ih
    intro k v hk
    rw [addStartup_ledger, mapInsert_eq_some] at hk
    rcases hk with hk | ⟨_, _, hk⟩
    · exact h k v hk
    · exact hk

theorem seedEdges_of_items (vertices : List Nat) (m : Nat → Option Nat) (n : V)
    (is : List Nat) (s : HoleWrapper V) (h : s.m_items ≠ []) :
    (seedEdges vertices m n is s).m_items = s.m_items ∧
    (seedEdges vertices m n is s).m_itemsMap = s.m_itemsMap ∧
    (seedEdges vertices m n is s).m_itemsList = s.m_itemsList := by
  induction is generalizing s with
  | nil => exact ⟨rfl, rfl, rfl⟩
  | cons i rest ih =>
    rw [seedEdges_cons]
    have e := addStartup_of_items s (seedKey vertices m i).2 (seedKey vertices m i).1 n h
    have h2 : (addStartup s (seedKey vertices m i).2 (seedKey vertices m i).1 n).m_items ≠ [] := by
      rw [e]; exact h
    obtain ⟨a, b, c⟩ := ih _ h2
    rw [a, b, c, e]
    exact ⟨rfl, rfl, rfl⟩

theorem seedEdges_of_empty (vertices : List Nat) (m : Nat → Option Nat) (n : V)
    (i : Nat) (rest : List Nat) (s : HoleWrapper V)
    (h : s.m_items = []) (hm : ∀ k, s.m_itemsMap k = none)
    (hl : ∀ k, s.m_generatedFaceEdgesMap k = none) :
    (seedEdges vertices m n (i :: rest) s).m_items =
      [{ baseNormal := n, p1 := (seedKey vertices m i).2, p2 := (seedKey vertices m i).1,
         p3 := 0, processed := false }] ∧
    (seedEdges vertices m n (i :: rest) s).m_itemsMap =
      mapInsert s.m_itemsMap ((seedKey vertices m i).2, (seedKey vertices m i).1) 0 ∧
    (seedEdges vertices m n (i :: rest) s).m_itemsList = 0 :: s.m_itemsList := by
  rw [seedEdges_cons]
  have e := addStartup_of_empty s (seedKey vertices m i).2 (seedKey vertices m i).1 n h hm hl
  have h2 : (addStartup s (seedKey vertices m i).2 (seedKey vertices m i).1 n).m_items ≠ [] := by
    rw [e]; simp
  obtain ⟨a, b, c⟩ := seedEdges_of_items vertices m n rest _ h2
  rw [a, b, c, e]
  exact ⟨rfl, rfl, rfl⟩

/-! ## Registering one loop -/

theorem sourceVertex_append_left (s t : HoleWrapper V) (block : List (SourceVertex V))
    (h : t.m_sourceVertices = s.m_sourceVertices ++ block) (a : Nat)
    (ha : a < s.m_sourceVertices.length) : sourceVertex t a = sourceVertex s a := by
  unfold sourceVertex
  rw [h, List.getD_append _ _ _ _ ha]

theorem sourceVertex_append_right (s t : HoleWrapper V) (block : List (SourceVertex V))
    (h : t.m_sourceVertices = s.m_sourceVertices ++ block) (j : Nat) (hj : j < block.length) :
    sourceVertex t (s.m_sourceVertices.length + j) = block.get ⟨j, hj⟩ := by
  unfold sourceVertex
  rw [h, List.getD_append_right _ _ _ _ (Nat.le_add_right _ _)]
  simp [List.getD_eq_getElem?_getD, List.getElem?_eq_getElem hj]

theorem sourceVertex_mem (s : HoleWrapper V) (a : Nat) (ha : a < s.m_sourceVertices.length) :
    sourceVertex s a ∈ s.m_sourceVertices := by
  unfold sourceVertex
  rw [List.getD_eq_getElem _ _ ha]
  exact List.getElem_mem _

theorem Registered.mono {s t : HoleWrapper V} (block : List (SourceVertex V))
    (h : t.m_sourceVertices = s.m_sourceVertices ++ block) {a p q : Nat}
    (hr : Registered s a p q) : Registered t a p q := by
  obtain ⟨h1, h2, h3⟩ := hr
  refine ⟨?_, ?_, ?_⟩
  · rw [h, List.length_append]; omega
  · rw [sourceVertex_append_left s t block h a h1]; exact h2
  · rw [sourceVertex_append_left s t block h a h1]; exact h3

/-- What `addCandidateVertices` does to the registry: the block of the loop is
appended, and every tag of the loop has exactly one vertex of plane `p`. -/
theorem addCandidateVertices_registry (s : HoleWrapper V) (tags : List Nat) (n : V) (p : Nat) :
    ∃ block : List (SourceVertex V),
      (addCandidateVertices s tags n p).m_sourceVertices = s.m_sourceVertices ++ block ∧
      (addCandidateVertices s tags n p).m_candidates =
        s.m_candidates ++ List.range' s.m_sourceVertices.length block.length ∧
      (∀ sv ∈ block, sv.sourcePlane = p ∧ sv.tag ∈ tags) ∧
      (block.map (fun sv => sv.tag)).Nodup ∧
      (tags = [] → block = []) ∧
      (∀ t ∈ tags, Registered (addCandidateVertices s tags n p)
        (((registerVertices p tags (s, fun _ => none)).2 t).getD 0) p t) := by
  obtain ⟨block, h1, h2, h3, h4, h5⟩ := registerVertices_spec p tags s (fun _ => none)
  have hsv : (addCandidateVertices s tags n p).m_sourceVertices = s.m_sourceVertices ++ block := by
    unfold addCandidateVertices
    simp only [seedEdges_sourceVertices, h1]
  refine ⟨block, hsv, ?_, ?_, h3, ?_, ?_⟩
  · unfold addCandidateVertices
    simp only [seedEdges_candidates, h1]
  · intro sv hsv'
    exact ⟨(h2 sv hsv').1, (h2 sv hsv').2.1⟩
  · intro ht
    cases block with
    | nil => rfl
    | cons sv rest =>
      have := (h2 sv (List.mem_cons_self _ _)).2.1
      rw [ht] at this
      simp at this
  · intro t ht
    rcases h4 t with h | ⟨_, j, hj, hjt, hje⟩
    · have := h5 t ht
      rw [h] at this
      simp at this
    · rw [hje, Option.getD_some]
      refine ⟨?_, ?_, ?_⟩
      · rw [hsv, List.length_append]; omega
      · rw [sourceVertex_append_right s _ block hsv j hj]
        exact (h2 _ (List.get_mem _ _ _)).1
      · rw [sourceVertex_append_right s _ block hsv j hj]
        exact hjt

theorem registered_unique_append (s t : HoleWrapper V) (block : List (SourceVertex V))
    (p : Nat) (h : t.m_sourceVertices = s.m_sourceVertices ++ block)
    (hu : ∀ a b q r, Registered s a q r → Registered s b q r → a = b)
    (hp : ∀ sv ∈ s.m_sourceVertices, sv.sourcePlane < p)
    (hb : ∀ sv ∈ block, sv.sourcePlane = p)
    (hn : (block.map (fun sv => sv.tag)).Nodup) :
    ∀ a b q r, Registered t a q r → Registered t b q r → a = b := by
  have key : ∀ a q r, Registered t a q r →
      (a < s.m_sourceVertices.length ∧ Registered s a q r ∧ q < p) ∨
      (∃ j, ∃ hj : j < block.length, a = s.m_sourceVertices.length + j ∧ q = p ∧
        (block.get ⟨j, hj⟩).tag = r) := by
    intro a q r ⟨h1, h2, h3⟩
    by_cases ha : a < s.m_sourceVertices.length
    · left
      rw [sourceVertex_append_left s t block h a ha] at h2 h3
      refine ⟨ha, ⟨ha, h2, h3⟩, ?_⟩
      rw [← h2]
      exact hp _ (sourceVertex_mem s a ha)
    · right
      rw [h, List.length_append] at h1
      have hj : a - s.m_sourceVertices.length < block.length := by omega
      have ea : a = s.m_sourceVertices.length + (a - s.m_sourceVertices.length) := by omega
      refine ⟨a - s.m_sourceVertices.length, hj, ea, ?_, ?_⟩
      · rw [ea, sourceVertex_append_right s t block h _ hj] at h2
        rw [← h2]
        exact hb _ (List.get_mem _ _ _)
      · rw [ea, sourceVertex_append_right s t block h _ hj] at h3
        exact h3
  intro a b q r ha hb'
  rcases key a q r ha with ⟨_, ha1, ha2⟩ | ⟨j, hj, eja, eq1, ht1⟩
  · rcases key b q r hb' with ⟨_, hb1, _⟩ | ⟨j, hj, _, eq2, _⟩
    · exact hu a b q r ha1 hb1
    · omega
  · rcases key b q r hb' with ⟨_, _, hb2⟩ | ⟨j2, hj2, ejb, _, ht2⟩
    · omega
    · have : j = j2 := by
        have hinj := List.nodup_iff_injective_get.1 hn
        have e1 : (block.map (fun sv => sv.tag)).get ⟨j, by simpa using hj⟩ =
            (block.map (fun sv => sv.tag)).get ⟨j2, by simpa using hj2⟩ := by
          simp only [List.get_eq_getElem, List.getElem_map]
          simp only [List.get_eq_getElem] at ht1 ht2
          rw [ht1, ht2]
        have := hinj e1
        simpa using this
      omega

theorem addCandidateVertices_eq (s : HoleWrapper V) (tags : List Nat) (n : V) (p : Nat) :
    addCandidateVertices s tags n p =
      seedEdges tags (registerVertices p tags (s, fun _ => none)).2 n (List.range tags.length)
        (registerVertices p tags (s, fun _ => none)).1 := rfl

theorem addCandidateVertices_nil (s : HoleWrapper V) (n : V) (p : Nat) :
    addCandidateVertices s [] n p = s := rfl

theorem registerVertices_front (p : Nat) (tags : List Nat) (s : HoleWrapper V)
    (m : Nat → Option Nat) :
    (registerVertices p tags (s, m)).1.m_items = s.m_items ∧
    (registerVertices p tags (s, m)).1.m_itemsMap = s.m_itemsMap ∧
    (registerVertices p tags (s, m)).1.m_itemsList = s.m_itemsList ∧
    (registerVertices p tags (s, m)).1.m_generatedFaceEdgesMap = s.m_generatedFaceEdgesMap ∧
    (registerVertices p tags (s, m)).1.m_generatedVertexEdgesMap = s.m_generatedVertexEdgesMap ∧
    (registerVertices p tags (s, m)).1.m_generatedFaces = s.m_generatedFaces ∧
    (registerVertices p tags (s, m)).1.m_newlyGeneratedfaces = s.m_newlyGeneratedfaces ∧
    (registerVertices p tags (s, m)).1.m_finalizeFinished = s.m_finalizeFinished ∧
    (registerVertices p tags (s, m)).1.m_positions = s.m_positions := by
  obtain ⟨block, h1, _⟩ := registerVertices_spec p tags s m
  rw [h1]
  exact ⟨rfl, rfl, rfl, rfl, rfl, rfl, rfl, rfl, rfl⟩

/-- The front after one loop has been registered: untouched when it already
held an item, and otherwise seeded with the first edge of the loop. -/
theorem addCandidateVertices_items (s : HoleWrapper V) (tags : List Nat) (n : V) (p : Nat) :
    (s.m_items ≠ [] →
      (addCandidateVertices s tags n p).m_items = s.m_items ∧
      (addCandidateVertices s tags n p).m_itemsMap = s.m_itemsMap ∧
      (addCandidateVertices s tags n p).m_itemsList = s.m_itemsList) ∧
    (s.m_items = [] → (∀ k, s.m_itemsMap k = none) →
      (∀ k, s.m_generatedFaceEdgesMap k = none) → tags ≠ [] →
      (addCandidateVertices s tags n p).m_items =
        [{ baseNormal := n,
           p1 := (seedKey tags (registerVertices p tags (s, fun _ => none)).2 0).2,
           p2 := (seedKey tags (registerVertices p tags (s, fun _ => none)).2 0).1,
           p3 := 0, processed := false }] ∧
      (addCandidateVertices s tags n p).m_itemsMap =
        mapInsert s.m_itemsMap
          ((seedKey tags (registerVertices p tags (s, fun _ => none)).2 0).2,
            (seedKey tags (registerVertices p tags (s, fun _ => none)).2 0).1) 0 ∧
      (addCandidateVertices s tags n p).m_itemsList = 0 :: s.m_itemsList) := by
  obtain ⟨f1, f2, f3, f4, _⟩ := registerVertices_front p tags s (fun _ => none)
  refine ⟨?_, ?_⟩
  · intro h
    rw [addCandidateVertices_eq]
    obtain ⟨a, b, c⟩ := seedEdges_of_items tags (registerVertices p tags (s, fun _ => none)).2 n
      (List.range tags.length) (registerVertices p tags (s, fun _ => none)).1 (by rw [f1]; exact h)
    rw [a, b, c, f1, f2, f3]
    exact ⟨rfl, rfl, rfl⟩
  · intro h hm hl ht
    rw [addCandidateVertices_eq]
    have hr : List.range tags.length = 0 :: (List.range (tags.length - 1)).map Nat.succ := by
      cases tags with
      | nil => exact absurd rfl ht
      | cons a l => simp [List.range_succ_eq_map]
    rw [hr]
    obtain ⟨a, b, c⟩ := seedEdges_of_empty tags (registerVertices p tags (s, fun _ => none)).2 n
      0 ((List.range (tags.length - 1)).map Nat.succ)
      (registerVertices p tags (s, fun _ => none)).1 (by rw [f1]; exact h)
      (by rw [f2]; exact hm) (by rw [f4]; exact hl)
    rw [a, b, c, f2, f3]
    exact ⟨rfl, rfl, rfl⟩

theorem addCandidateVertices_ledger (s : HoleWrapper V) (tags : List Nat) (n : V) (p : Nat)
    (k : WrapItemKey) :
    ((addCandidateVertices s tags n p).m_generatedFaceEdgesMap k).isSome = true ↔
      (s.m_generatedFaceEdgesMap k).isSome = true ∨
      ∃ i, i < tags.length ∧
        k = seedKey tags (registerVertices p tags (s, fun _ => none)).2 i := by
  obtain ⟨_, _, _, f4, _⟩ := registerVertices_front p tags s (fun _ => none)
  rw [addCandidateVertices_eq, seedEdges_ledger_isSome, f4]
  simp only [List.mem_range]

theorem seedKey_registered (s : HoleWrapper V) (tags : List Nat) (n : V) (p i : Nat)
    (hi : i < tags.length) :
    Registered (addCandidateVertices s tags n p)
      (seedKey tags (registerVertices p tags (s, fun _ => none)).2 i).1 p (tags.getD i 0) ∧
    Registered (addCandidateVertices s tags n p)
      (seedKey tags (registerVertices p tags (s, fun _ => none)).2 i).2 p
      (tags.getD ((i + 1) % tags.length) 0) := by
  obtain ⟨block, _, _, _, _, _, h6⟩ := addCandidateVertices_registry s tags n p
  have hpos : 0 < tags.length := by omega
  have h2 : (i + 1) % tags.length < tags.length := Nat.mod_lt _ hpos
  refine ⟨h6 _ ?_, h6 _ ?_⟩
  · rw [List.getD_eq_getElem _ _ hi]; exact List.getElem_mem _
  · rw [List.getD_eq_getElem _ _ h2]; exact List.getElem_mem _

theorem mapLedger_isSome_mono {κ α : Type} [DecidableEq κ] (m : κ → Option α) (k q : κ)
    (v : α) (h : (m q).isSome = true) : (mapInsert m k v q).isSome = true :=
  (mapInsert_isSome m k q v).2 (Or.inr h)

theorem range_append_range' (a b : Nat) :
    List.range a ++ List.range' a b = List.range (a + b) := by
  rw [List.range_eq_range', List.range_eq_range']
  have := List.range'_append 0 a b 1
  simpa [Nat.add_comm] using this

theorem addCandidateVertices_regOk (s : HoleWrapper V) (tags : List Nat) (n : V) (p : Nat)
    (hp : 1 ≤ p) (h : RegOk p s) : RegOk (p + 1) (addCandidateVertices s tags n p) := by
  obtain ⟨block, hsv, hcand, hblock, hnodup, hnil, hreg⟩ :=
    addCandidateVertices_registry s tags n p
  obtain ⟨hitems1, hitems2⟩ := addCandidateVertices_items s tags n p
  have hlen : (addCandidateVertices s tags n p).m_sourceVertices.length =
      s.m_sourceVertices.length + block.length := by rw [hsv, List.length_append]
  have hfaces : (addCandidateVertices s tags n p).m_generatedFaces = s.m_generatedFaces := by
    rw [addCandidateVertices_eq, seedEdges_faces]
    exact (registerVertices_front p tags s _).2.2.2.2.2.1
  have hadj : (addCandidateVertices s tags n p).m_generatedVertexEdgesMap =
      s.m_generatedVertexEdgesMap := by
    rw [addCandidateVertices_eq, seedEdges_adjacency]
    exact (registerVertices_front p tags s _).2.2.2.2.1
  have hcl : ∀ c ∈ (addCandidateVertices s tags n p).m_candidates,
      c < (addCandidateVertices s tags n p).m_sourceVertices.length := by
    intro c hc
    rw [hcand] at hc
    rw [hlen]
    rcases List.mem_append.1 hc with hc | hc
    · have := h.front.cand_lt c hc; omega
    · have := (List.mem_range'_1.1 hc).2; omega
  by_cases hi : s.m_items = []
  · by_cases ht : tags = []
    · subst ht
      rw [addCandidateVertices_nil]
      exact { h with planes := fun sv hsv' => ⟨(h.planes sv hsv').1, by
        have := (h.planes sv hsv').2; omega⟩ }
    · obtain ⟨e1, e2, e3⟩ := hitems2 hi (h.empty_items hi).1 (h.empty_items hi).2 ht
      have hpos : 0 < tags.length := List.length_pos.2 ht
      obtain ⟨r1, r2⟩ := seedKey_registered s tags n p 0 hpos
      have hkeys : itemKeys (addCandidateVertices s tags n p) =
          [((seedKey tags (registerVertices p tags (s, fun _ => none)).2 0).2,
            (seedKey tags (registerVertices p tags (s, fun _ => none)).2 0).1)] := by
        simp [itemKeys, e1]
      have hlist : s.m_itemsList = [] := by
        cases hl : s.m_itemsList with
        | nil => rfl
        | cons a l =>
          have := h.front.list_lt a (by rw [hl]; exact List.mem_cons_self _ _)
          rw [hi] at this
          simp at this
      refine ⟨⟨hcl, ?_, ?_, ?_, ?_⟩, ?_, ?_, ?_, ?_, ?_, ?_, ?_, ?_, ?_, ?_⟩
      · intro k hk
        rw [hkeys, List.mem_singleton] at hk
        subst hk
        exact ⟨r2.1, r1.1⟩
      · rw [hkeys]; exact List.nodup_singleton _
      · intro k hk
        rw [hkeys, List.mem_singleton] at hk
        subst hk
        rw [e2]
        exact mapInsert_self_isSome _ _ _
      · intro i hi'
        rw [e3, hlist, List.mem_singleton] at hi'
        rw [e1, hi']
        simp
      · intro sv hsv'
        rw [hsv] at hsv'
        rcases List.mem_append.1 hsv' with hsv' | hsv'
        · have := h.planes sv hsv'; omega
        · have := (hblock sv hsv').1; omega
      · exact registered_unique_append s _ block p hsv h.unique
          (fun sv hsv' => (h.planes sv hsv').2) (fun sv hsv' => (hblock sv hsv').1) hnodup
      · rw [hcand, hlen, h.cands, range_append_range']
      · rw [hfaces]; exact h.noFaces
      · rw [hadj]; exact h.noAdj
      · rw [addCandidateVertices_eq]
        apply seedEdges_ledger_val
        rw [(registerVertices_front p tags s _).2.2.2.1]
        exact h.ledger_val
      · rw [e1]; simp
      · intro he
        rw [e1] at he
        simp at he
      · intro k hk
        rw [hkeys, List.mem_singleton] at hk
        subst hk
        rw [addCandidateVertices_ledger]
        right
        exact ⟨0, hpos, rfl⟩
      · intro it hit
        rw [e1, List.mem_singleton] at hit
        rw [hit]
  · obtain ⟨e1, e2, e3⟩ := hitems1 hi
    have hkeys : itemKeys (addCandidateVertices s tags n p) = itemKeys s := by
      simp [itemKeys, e1]
    refine ⟨⟨hcl, ?_, ?_, ?_, ?_⟩, ?_, ?_, ?_, ?_, ?_, ?_, ?_, ?_, ?_, ?_⟩
    · intro k hk
      rw [hkeys] at hk
      have := h.front.item_lt k hk
      rw [hlen]; omega
    · rw [hkeys]; exact h.front.keys_nodup
    · intro k hk
      rw [hkeys] at hk
      rw [e2]; exact h.front.key_mapped k hk
    · rw [e3, e1]; exact h.front.list_lt
    · intro sv hsv'
      rw [hsv] at hsv'
      rcases List.mem_append.1 hsv' with hsv' | hsv'
      · have := h.planes sv hsv'; omega
      · have := (hblock sv hsv').1; omega
    · exact registered_unique_append s _ block p hsv h.unique
        (fun sv hsv' => (h.planes sv hsv').2) (fun sv hsv' => (hblock sv hsv').1) hnodup
    · rw [hcand, hlen, h.cands, range_append_range']
    · rw [hfaces]; exact h.noFaces
    · rw [hadj]; exact h.noAdj
    · rw [addCandidateVertices_eq]
      apply seedEdges_ledger_val
      rw [(registerVertices_front p tags s _).2.2.2.1]
      exact h.ledger_val
    · rw [e1]; exact h.items_le
    · intro he
      rw [e1] at he
      exact absurd he hi
    · intro k hk
      rw [hkeys] at hk
      rw [addCandidateVertices_ledger]
      left
      exact h.seed_rev k hk
    · rw [e1]; exact h.unprocessed

/-! ## Registering all loops -/

theorem registerLoops_cons (l : List Nat × V) (rest : List (List Nat × V)) (next : Nat)
    (s : HoleWrapper V) :
    registerLoops (l :: rest) next s =
      registerLoops rest (next + 1) (addCandidateVertices s l.1 l.2 next) := rfl

theorem registerLoops_regOk (loops : List (List Nat × V)) (next : Nat) (s : HoleWrapper V)
    (hn : 1 ≤ next) (h : RegOk next s) :
    RegOk (next + loops.length) (registerLoops loops next s) := by
  induction loops generalizing next s with
  | nil => simpa [registerLoops] using h
  | cons l rest ih =>
    rw [registerLoops_cons]
    have := ih (next + 1) _ (by omega) (addCandidateVertices_regOk s l.1 l.2 next hn h)
    simpa [Nat.add_assoc, Nat.add_comm 1] using this

theorem fresh_regOk (positions : List V) : RegOk 1 (setVertices (fresh : HoleWrapper V) positions) := by
  refine ⟨⟨?_, ?_, ?_, ?_, ?_⟩, ?_, ?_, ?_, ?_, ?_, ?_, ?_, ?_, ?_, ?_⟩ <;>
    simp [setVertices, fresh, itemKeys, Registered]

/-- The registry after all loops: the vertices appended come from the loops,
each with the plane id of its loop. -/
theorem registerLoops_sourceVertices (loops : List (List Nat × V)) (next : Nat)
    (s : HoleWrapper V) :
    ∃ block : List (SourceVertex V),
      (registerLoops loops next s).m_sourceVertices = s.m_sourceVertices ++ block ∧
      ∀ sv ∈ block, ∃ k tags normal, loops[k]? = some (tags, normal) ∧
        sv.sourcePlane = next + k ∧ sv.tag ∈ tags := by
  induction loops generalizing next s with
  | nil => exact ⟨[], by simp [registerLoops], by simp⟩
  | cons l rest ih =>
    rw [registerLoops_cons]
    obtain ⟨b1, h1, _, h3, _⟩ := addCandidateVertices_registry s l.1 l.2 next
    obtain ⟨b2, h2, h4⟩ := ih (next + 1) (addCandidateVertices s l.1 l.2 next)
    refine ⟨b1 ++ b2, by rw [h2, h1, List.append_assoc], ?_⟩
    intro sv hsv
    rcases List.mem_append.1 hsv with hsv | hsv
    · exact ⟨0, l.1, l.2, by simp, by simpa using (h3 sv hsv).1, (h3 sv hsv).2⟩
    · obtain ⟨k, tags, normal, e1, e2, e3⟩ := h4 sv hsv
      exact ⟨k + 1, tags, normal, by simpa using e1, by omega, e3⟩

theorem registerLoops_keeps_items (loops : List (List Nat × V)) (next : Nat)
    (s : HoleWrapper V) (h : s.m_items ≠ []) :
    (registerLoops loops next s).m_items = s.m_items ∧
    (registerLoops loops next s).m_itemsMap = s.m_itemsMap ∧
    (registerLoops loops next s).m_itemsList = s.m_itemsList := by
  induction loops generalizing next s with
  | nil => exact ⟨rfl, rfl, rfl⟩
  | cons l rest ih =>
    rw [registerLoops_cons]
    obtain ⟨e1, e2, e3⟩ := (addCandidateVertices_items s l.1 l.2 next).1 h
    obtain ⟨a, b, c⟩ := ih (next + 1) (addCandidateVertices s l.1 l.2 next) (by rw [e1]; exact h)
    rw [a, b, c, e1, e2, e3]
    exact ⟨rfl, rfl, rfl⟩

theorem registerLoops_append_registry (loops : List (List Nat × V)) (next : Nat)
    (s : HoleWrapper V) {a p t : Nat} (h : Registered s a p t) :
    Registered (registerLoops loops next s) a p t := by
  obtain ⟨block, hb, _⟩ := registerLoops_sourceVertices loops next s
  exact h.mono block hb

theorem registerLoops_ledger_mono (loops : List (List Nat × V)) (next : Nat)
    (s : HoleWrapper V) (k : WrapItemKey) (h : (s.m_generatedFaceEdgesMap k).isSome = true) :
    ((registerLoops loops next s).m_generatedFaceEdgesMap k).isSome = true := by
  induction loops generalizing next s with
  | nil => exact h
  | cons l rest ih =>
    rw [registerLoops_cons]
    apply ih
    rw [addCandidateVertices_ledger]
    left; exact h

/-! ## The whole of `wrap` -/

theorem run_eq (K : Vector3Kernel V R) (positions : List V) (loops : List (List Nat × V)) :
    run K positions loops = finalize K (generate K (registered positions loops)) := rfl

@[simp] theorem finalize_finalizeFinished (K : Vector3Kernel V R) (s : HoleWrapper V) :
    (finalize K s).m_finalizeFinished = true := rfl

@[simp] theorem finalize_candidates (K : Vector3Kernel V R) (s : HoleWrapper V) :
    (finalize K s).m_candidates = s.m_candidates := rfl

@[simp] theorem finalize_sourceVertices (K : Vector3Kernel V R) (s : HoleWrapper V) :
    (finalize K s).m_sourceVertices = s.m_sourceVertices := rfl

@[simp] theorem finalize_ledger (K : Vector3Kernel V R) (s : HoleWrapper V) :
    (finalize K s).m_generatedFaceEdgesMap = s.m_generatedFaceEdgesMap := rfl

@[simp] theorem finalize_adjacency (K : Vector3Kernel V R) (s : HoleWrapper V) :
    (finalize K s).m_generatedVertexEdgesMap = s.m_generatedVertexEdgesMap := rfl

@[simp] theorem finalize_faces (K : Vector3Kernel V R) (s : HoleWrapper V) :
    (finalize K s).m_generatedFaces = s.m_generatedFaces := rfl

@[simp] theorem finalize_items (K : Vector3Kernel V R) (s : HoleWrapper V) :
    (finalize K s).m_items = s.m_items := rfl

theorem generate_sourceVertices (K : Vector3Kernel V R) (s : HoleWrapper V) :
    (generate K s).m_sourceVertices = s.m_sourceVertices :=
  generateFuel_induction K (fun t => t.m_sourceVertices = s.m_sourceVertices)
    (fun t ht _ => (generateBody_sourceVertices K t _).trans ht) _ s rfl

theorem generate_newly (K : Vector3Kernel V R) (s : HoleWrapper V) :
    (generate K s).m_newlyGeneratedfaces = s.m_newlyGeneratedfaces :=
  generateFuel_induction K (fun t => t.m_newlyGeneratedfaces = s.m_newlyGeneratedfaces)
    (fun t ht _ => (generateBody_newly K t _).trans ht) _ s rfl

theorem registered_regOk (positions : List V) (loops : List (List Nat × V)) :
    RegOk (1 + loops.length) (registered positions loops) :=
  registerLoops_regOk loops 1 _ (Nat.le_refl 1) (fresh_regOk positions)

theorem run_sourceVertices (K : Vector3Kernel V R) (positions : List V)
    (loops : List (List Nat × V)) :
    (run K positions loops).m_sourceVertices = (registered positions loops).m_sourceVertices := by
  rw [run_eq, finalize_sourceVertices, generate_sourceVertices]

theorem run_frontOk (K : Vector3Kernel V R) (positions : List V)
    (loops : List (List Nat × V)) : FrontOk (run K positions loops) :=
  (generate_frontOk K _ (registered_regOk positions loops).front).congr rfl rfl rfl rfl rfl rfl

/-- Every registered vertex comes from exactly the loop named by its plane id. -/
theorem fromLoop_iff (K : Vector3Kernel V R) (positions : List V)
    (loops : List (List Nat × V)) (v k : Nat)
    (hv : v < (run K positions loops).m_sourceVertices.length) :
    FromLoop loops (run K positions loops) v k ↔
      (sourceVertex (run K positions loops) v).sourcePlane = k + 1 := by
  constructor
  · rintro ⟨_, _, _, _, _, hr⟩
    exact hr.2.1
  · intro hpl
    obtain ⟨block, hb, hspec⟩ := registerLoops_sourceVertices loops 1
      (setVertices (fresh : HoleWrapper V) positions)
    have hsvs : (run K positions loops).m_sourceVertices = block := by
      rw [run_sourceVertices]
      unfold registered
      rw [hb]
      simp [setVertices, fresh]
    have hmem : sourceVertex (run K positions loops) v ∈ block := by
      rw [← hsvs]; exact sourceVertex_mem _ v hv
    obtain ⟨k', tags, normal, e1, e2, e3⟩ := hspec _ hmem
    have hk : k' = k := by omega
    subst hk
    exact ⟨tags, normal, _, e1, e3, hv, hpl, rfl⟩

/-- C1. After `wrap`, `finished()` returns true exactly when
`getFailedEdgeLoops`, called with an empty vector, yields an empty list. -/
theorem finished_iff_no_failed_loop (K : Vector3Kernel V R) (positions : List V)
    (loops : List (List Nat × V)) :
    finished (run K positions loops) = true ↔
      getFailedEdgeLoops (run K positions loops) [] = [] :=
  finished_iff_failed_nil _ (by rw [run_eq]; rfl)

/-- C2. After `wrap` on `n` loops, `getFailedEdgeLoops` (called with an empty
vector) yields a strictly ascending list of indices below `n`, and `k` is in
the list exactly when some vertex of the candidate pool that was registered
from the loop at position `k` is not closed. -/
theorem failed_loops_ascending_and_exact (K : Vector3Kernel V R) (positions : List V)
    (loops : List (List Nat × V)) :
    (getFailedEdgeLoops (run K positions loops) []).Sorted (· < ·) ∧
    (∀ k ∈ getFailedEdgeLoops (run K positions loops) [], k < loops.length) ∧
    ∀ k, k ∈ getFailedEdgeLoops (run K positions loops) [] ↔
      ∃ v ∈ (run K positions loops).m_candidates,
        FromLoop loops (run K positions loops) v k ∧
        isVertexClosed (run K positions loops) v = false := by
  have hmem : ∀ k, k ∈ getFailedEdgeLoops (run K positions loops) [] ↔
      ∃ v ∈ (run K positions loops).m_candidates,
        FromLoop loops (run K positions loops) v k ∧
        isVertexClosed (run K positions loops) v = false := by
    intro k
    unfold getFailedEdgeLoops
    rw [List.nil_append, mem_collectFailed]
    simp only [List.not_mem_nil, false_or]
    constructor
    · rintro ⟨v, hv, hc, hk⟩
      have hlt := (run_frontOk K positions loops).cand_lt v hv
      have hpl := (registered_regOk positions loops).planes _
        (by rw [← run_sourceVertices K]; exact sourceVertex_mem _ v hlt)
      exact ⟨v, hv, (fromLoop_iff K positions loops v k hlt).2 (by omega), hc⟩
    · rintro ⟨v, hv, hf, hc⟩
      have hlt := (run_frontOk K positions loops).cand_lt v hv
      exact ⟨v, hv, hc, by rw [(fromLoop_iff K positions loops v k hlt).1 hf]; rfl⟩
  refine ⟨?_, ?_, hmem⟩
  · unfold getFailedEdgeLoops
    rw [List.nil_append]
    exact sorted_collectFailed _ _ _ List.sorted_nil
  · intro k hk
    obtain ⟨v, _, ⟨tags, normal, t, hget, _, _⟩, _⟩ := (hmem k).1 hk
    exact (List.getElem?_eq_some_iff.1 hget).1

/-! ## A single loop generates nothing -/

theorem isVertexClosed_of_noAdj (s : HoleWrapper V)
    (h : ∀ v, s.m_generatedVertexEdgesMap v = none) (v : Nat) : isVertexClosed s v = false := by
  simp [isVertexClosed, h]

theorem prune_of_noAdj (s : HoleWrapper V) (h : ∀ v, s.m_generatedVertexEdgesMap v = none) :
    (prune s).m_candidates = s.m_candidates := by
  rw [prune_candidates]
  apply List.filter_eq_self.2
  intro c _
  simp [isVertexClosed_of_noAdj s h]

theorem generateBody_flat (K : Vector3Kernel V R) (p : Nat) (s : HoleWrapper V)
    (h : Flat p s) (hp : (peekItem s).2 = true) :
    Flat p (generateBody K s (peekItem s).1) := by
  have hfront := generateBody_frontOk K s h.front hp
  have hi := h.front.list_lt _ (peekItem_spec s hp).1
  have hk := h.front.item_lt _ (item_mem_keys s _ hi)
  rcases generateBody_cases K s (peekItem s).1 with ⟨_, e⟩ | ⟨_, e⟩ | ⟨_, p3, hp3, hel, e⟩
  · rw [e] at hfront ⊢
    exact ⟨hfront, h.planes, h.cands, h.noFaces, h.noAdj⟩
  · rw [e] at hfront ⊢
    refine ⟨hfront, h.planes, ?_, h.noFaces, h.noAdj⟩
    rw [prune_of_noAdj (markProcessed s (peekItem s).1) (fun v => h.noAdj v)]
    exact h.cands
  · exfalso
    have h3 := h.front.cand_lt p3 hp3
    apply (Eligible.ne K s _ p3 hel).2.2
    rw [h.planes _ (sourceVertex_mem s _ hk.1), h.planes _ (sourceVertex_mem s _ hk.2),
      h.planes _ (sourceVertex_mem s _ h3)]
    exact ⟨rfl, rfl⟩

theorem generate_flat (K : Vector3Kernel V R) (p : Nat) (s : HoleWrapper V) (h : Flat p s) :
    Flat p (generate K s) :=
  generateFuel_induction K (Flat p) (fun t ht hp => generateBody_flat K p t ht hp) _ s h

theorem registerLoops_newly (loops : List (List Nat × V)) (next : Nat) (s : HoleWrapper V) :
    (registerLoops loops next s).m_newlyGeneratedfaces = s.m_newlyGeneratedfaces := by
  induction loops generalizing next s with
  | nil => rfl
  | cons l rest ih =>
    rw [registerLoops_cons, ih, addCandidateVertices_eq, seedEdges_newly]
    exact (registerVertices_front next l.1 s _).2.2.2.2.2.2.1

theorem registered_newly (positions : List V) (loops : List (List Nat × V)) :
    (registered positions loops).m_newlyGeneratedfaces = [] := by
  unfold registered
  rw [registerLoops_newly]
  rfl

theorem finalize_of_noFaces (K : Vector3Kernel V R) (s : HoleWrapper V)
    (h : s.m_generatedFaces = []) :
    (finalize K s).m_newlyGeneratedfaces = s.m_newlyGeneratedfaces := by
  unfold finalize
  simp [h, finalizeLoop]

theorem collectFailed_flat (s : HoleWrapper V) (p : Nat) (cands : List Nat)
    (hopen : ∀ c ∈ cands, isVertexClosed s c = false)
    (hplane : ∀ c ∈ cands, (sourceVertex s c).sourcePlane = p) :
    collectFailed s cands [p - 1] = [p - 1] := by
  induction cands with
  | nil => rfl
  | cons c rest ih =>
    simp only [collectFailed]
    rw [if_neg (by simp [hopen c (List.mem_cons_self _ _)]),
      hplane c (List.mem_cons_self _ _)]
    have : setInsert (p - 1) [p - 1] = [p - 1] := by simp [setInsert]
    rw [this]
    exact ih (fun c hc => hopen c (List.mem_cons_of_mem _ hc))
      (fun c hc => hplane c (List.mem_cons_of_mem _ hc))

theorem registered_single_flat (positions : List V) (tags : List Nat) (n : V) :
    Flat 1 (registered positions [(tags, n)]) := by
  have h := registered_regOk positions [(tags, n)]
  refine ⟨h.front, ?_, h.cands, h.noFaces, h.noAdj⟩
  intro sv hsv
  have := h.planes sv hsv
  simp only [List.length_singleton] at this
  omega

theorem registered_single_nonempty (positions : List V) (tags : List Nat) (n : V)
    (ht : tags ≠ []) : 0 < (registered positions [(tags, n)]).m_sourceVertices.length := by
  obtain ⟨block, _, _, _, _, _, h6⟩ :=
    addCandidateVertices_registry (setVertices (fresh : HoleWrapper V) positions) tags n 1
  obtain ⟨t, ht'⟩ := List.exists_mem_of_ne_nil tags ht
  have := (h6 t ht').1
  exact Nat.lt_of_le_of_lt (Nat.zero_le _) this

/-- A single non-empty loop: `wrap` generates no face, reports the loop as
failed and is not finished. -/
theorem single_loop_generates_nothing (K : Vector3Kernel V R) (positions : List V)
    (tags : List Nat) (n : V) (ht : tags ≠ []) :
    newlyGeneratedFaces (run K positions [(tags, n)]) = [] ∧
    finished (run K positions [(tags, n)]) = false ∧
    getFailedEdgeLoops (run K positions [(tags, n)]) [] = [0] := by
  have hflat := generate_flat K 1 _ (registered_single_flat positions tags n)
  have hpos := registered_single_nonempty positions tags n ht
  rw [← generate_sourceVertices K] at hpos
  have hopen : ∀ v, isVertexClosed (run K positions [(tags, n)]) v = false := by
    intro v
    rw [run_eq, isVertexClosed_congr (finalize_ledger K _) (finalize_adjacency K _)]
    exact isVertexClosed_of_noAdj _ hflat.noAdj v
  have hc : (run K positions [(tags, n)]).m_candidates =
      0 :: (List.range ((generate K (registered positions [(tags, n)])).m_sourceVertices.length
        - 1)).map Nat.succ := by
    rw [run_eq, finalize_candidates, hflat.cands]
    obtain ⟨m, hm⟩ := Nat.exists_eq_succ_of_ne_zero (Nat.pos_iff_ne_zero.1 hpos)
    rw [hm, List.range_succ_eq_map]
    rfl
  refine ⟨?_, ?_, ?_⟩
  · unfold newlyGeneratedFaces
    rw [run_eq, finalize_of_noFaces K _ hflat.noFaces, generate_newly, registered_newly]
  · cases hfin : finished (run K positions [(tags, n)]) with
    | false => rfl
    | true =>
      have := (finished_iff _ (by rw [run_eq]; rfl)).1 hfin 0 (by rw [hc]; simp)
      rw [hopen] at this
      exact Bool.noConfusion this
  · unfold getFailedEdgeLoops
    rw [List.nil_append, hc]
    simp only [collectFailed]
    rw [if_neg (by simp [hopen])]
    have hpl : ∀ c ∈ (run K positions [(tags, n)]).m_candidates,
        (sourceVertex (run K positions [(tags, n)]) c).sourcePlane = 1 := by
      intro c hcm
      have hlt := (run_frontOk K positions [(tags, n)]).cand_lt c hcm
      have := sourceVertex_mem _ c hlt
      rw [run_eq, finalize_sourceVertices] at this
      rw [run_eq, sourceVertex_congr (finalize_sourceVertices K _)]
      exact hflat.planes _ this
    rw [hc] at hpl
    rw [hpl 0 (List.mem_cons_self _ _)]
    exact collectFailed_flat _ 1 _ (fun c _ => hopen c)
      (fun c hcm => hpl c (List.mem_cons_of_mem _ hcm))

/-- C3, as stated, fails: for the single loop `[0, 1, 2]` over a right
triangle, `newlyGeneratedFaces()` is not a single triangle on the tags
`0, 1, 2`; it is empty. -/
theorem single_triangle_loop_counterexample :
    ¬ ∃ f, newlyGeneratedFaces
        (run exactKernel trianglePositions [([0, 1, 2], ⟨0, 0, 1⟩)]) = [f] ∧
      f.Perm [0, 1, 2] := by
  have h : newlyGeneratedFaces
      (run exactKernel trianglePositions [([0, 1, 2], ⟨0, 0, 1⟩)]) = [] := by decide
  rw [h]
  simp

/-- C3, amended. For a single loop of exactly three distinct vertex tags
`[a, b, c]`, whatever the positions and the loop normal, `wrap` produces no
face: every candidate shares the source plane of the seed edge and gets the
angle zero. -/
theorem single_triangle_loop_no_face (K : Vector3Kernel V R) (positions : List V)
    (a b c : Nat) (n : V) (_hab : a ≠ b) (_hbc : b ≠ c) (_hac : a ≠ c) :
    newlyGeneratedFaces (run K positions [([a, b, c], n)]) = [] :=
  (single_loop_generates_nothing K positions [a, b, c] n (by simp)).1

/-- The amended C3 at the right triangle with tags `0, 1, 2`. -/
theorem single_triangle_loop_no_face_witness :
    ((0 : Nat) ≠ 1 ∧ (1 : Nat) ≠ 2 ∧ (0 : Nat) ≠ 2) ∧
    newlyGeneratedFaces (run exactKernel trianglePositions [([0, 1, 2], ⟨0, 0, 1⟩)]) = [] :=
  ⟨by decide, single_triangle_loop_no_face exactKernel trianglePositions 0 1 2 ⟨0, 0, 1⟩
    (by decide) (by decide) (by decide)⟩

/-- C4, as stated, fails: for the unit square as the only loop, `finished()`
is false, the loop is reported as failed and no face is generated. -/
theorem single_convex_loop_counterexample :
    finished (run exactKernel squarePositions [([0, 1, 2, 3], ⟨0, 0, 1⟩)]) = false ∧
    getFailedEdgeLoops (run exactKernel squarePositions [([0, 1, 2, 3], ⟨0, 0, 1⟩)]) [] = [0] ∧
    newlyGeneratedFaces (run exactKernel squarePositions [([0, 1, 2, 3], ⟨0, 0, 1⟩)]) = [] := by
  decide

/-- C4, amended. For a single loop of `N ≥ 3` distinct vertex tags, convex
and planar or not, after `wrap`: `finished()` is false, `getFailedEdgeLoops`
yields `[0]`, and no face is generated. -/
theorem single_loop_stays_open (K : Vector3Kernel V R) (positions : List V)
    (tags : List Nat) (n : V) (h3 : 3 ≤ tags.length) (_hd : tags.Nodup) :
    finished (run K positions [(tags, n)]) = false ∧
    getFailedEdgeLoops (run K positions [(tags, n)]) [] = [0] ∧
    newlyGeneratedFaces (run K positions [(tags, n)]) = [] := by
  have ht : tags ≠ [] := by
    intro e; rw [e] at h3; simp at h3
  obtain ⟨a, b, c⟩ := single_loop_generates_nothing K positions tags n ht
  exact ⟨b, c, a⟩

/-- The amended C4 at the unit square with tags `0, 1, 2, 3`. -/
theorem single_loop_stays_open_witness :
    (3 ≤ [0, 1, 2, 3].length ∧ [0, 1, 2, 3].Nodup) ∧
    (finished (run exactKernel squarePositions [([0, 1, 2, 3], ⟨0, 0, 1⟩)]) = false ∧
      getFailedEdgeLoops (run exactKernel squarePositions [([0, 1, 2, 3], ⟨0, 0, 1⟩)]) [] = [0] ∧
      newlyGeneratedFaces (run exactKernel squarePositions [([0, 1, 2, 3], ⟨0, 0, 1⟩)]) = []) :=
  ⟨by decide, single_loop_stays_open exactKernel squarePositions [0, 1, 2, 3] ⟨0, 0, 1⟩
    (by decide) (by decide)⟩

/-! ## The ledger and the front before the triangulator runs -/

theorem registerLoops_ledger (loops : List (List Nat × V)) (next : Nat) (s : HoleWrapper V)
    (hn : 1 ≤ next) (h : RegOk next s) (a b : Nat) :
    ((registerLoops loops next s).m_generatedFaceEdgesMap (a, b)).isSome = true ↔
      (s.m_generatedFaceEdgesMap (a, b)).isSome = true ∨
      ∃ k tags normal i, loops[k]? = some (tags, normal) ∧ i < tags.length ∧
        Registered (registerLoops loops next s) a (next + k) (tags.getD i 0) ∧
        Registered (registerLoops loops next s) b (next + k)
          (tags.getD ((i + 1) % tags.length) 0) := by
  induction loops generalizing next s with
  | nil => simp [registerLoops]
  | cons l rest ih =>
    have h1 := addCandidateVertices_regOk s l.1 l.2 next hn h
    have hfin := registerLoops_regOk rest (next + 1) _ (by omega) h1
    rw [registerLoops_cons, ih (next + 1) _ (by omega) h1, addCandidateVertices_ledger]
    constructor
    · rintro ((hs | ⟨i, hi, hk⟩) | ⟨k, tags, normal, i, e1, e2, e3, e4⟩)
      · left; exact hs
      · right
        obtain ⟨r1, r2⟩ := seedKey_registered s l.1 l.2 next i hi
        have ea : a = (seedKey l.1 (registerVertices next l.1 (s, fun _ => none)).2 i).1 :=
          congrArg Prod.fst hk
        have eb : b = (seedKey l.1 (registerVertices next l.1 (s, fun _ => none)).2 i).2 :=
          congrArg Prod.snd hk
        refine ⟨0, l.1, l.2, i, by simp, hi, ?_, ?_⟩
        · rw [ea]; exact registerLoops_append_registry rest (next + 1) _ r1
        · rw [eb]; exact registerLoops_append_registry rest (next + 1) _ r2
      · right
        refine ⟨k + 1, tags, normal, i, by simpa using e1, e2, ?_, ?_⟩
        · have : next + (k + 1) = next + 1 + k := by omega
          rw [this]; exact e3
        · have : next + (k + 1) = next + 1 + k := by omega
          rw [this]; exact e4
    · rintro (hs | ⟨k, tags, normal, i, e1, e2, e3, e4⟩)
      · left; left; exact hs
      · cases k with
        | zero =>
          left; right
          simp only [List.getElem?_cons_zero, Option.some.injEq] at e1
          have e1a : l.1 = tags := by rw [e1]
          subst e1a
          obtain ⟨r1, r2⟩ := seedKey_registered s l.1 l.2 next i e2
          have r1' := registerLoops_append_registry rest (next + 1) _ r1
          have r2' := registerLoops_append_registry rest (next + 1) _ r2
          refine ⟨i, e2, ?_⟩
          have ea := hfin.unique _ _ _ _ e3 r1'
          have eb := hfin.unique _ _ _ _ e4 r2'
          exact Prod.ext ea eb
        | succ k =>
          right
          refine ⟨k, tags, normal, i, by simpa using e1, e2, ?_, ?_⟩
          · have : next + 1 + k = next + (k + 1) := by omega
            rw [this]; exact e3
          · have : next + 1 + k = next + (k + 1) := by omega
            rw [this]; exact e4

theorem registerLoops_seed (pre : List (List Nat × V)) (tags : List Nat) (normal : V)
    (rest : List (List Nat × V)) (next : Nat) (s : HoleWrapper V) (hn : 1 ≤ next)
    (h : RegOk next s) (hi : s.m_items = []) (hpre : ∀ l ∈ pre, l.1 = []) (ht : tags ≠ []) :
    ∃ it : WrapItem V,
      (registerLoops (pre ++ (tags, normal) :: rest) next s).m_items = [it] ∧
      (registerLoops (pre ++ (tags, normal) :: rest) next s).m_itemsList = s.m_itemsList ++ [0]
        ∧
      (∀ k, (registerLoops (pre ++ (tags, normal) :: rest) next s).m_itemsMap k =
        if k = (it.p1, it.p2) then some 0 else none) ∧
      Registered (registerLoops (pre ++ (tags, normal) :: rest) next s) it.p2
        (next + pre.length) (tags.getD 0 0) ∧
      Registered (registerLoops (pre ++ (tags, normal) :: rest) next s) it.p1
        (next + pre.length) (tags.getD (1 % tags.length) 0) ∧
      it.baseNormal = normal ∧ it.processed = false ∧ it.p3 = 0 := by
  have hlist : s.m_itemsList = [] := by
    cases hl : s.m_itemsList with
    | nil => rfl
    | cons a l =>
      have := h.front.list_lt a (by rw [hl]; exact List.mem_cons_self _ _)
      rw [hi] at this
      simp at this
  induction pre generalizing next s with
  | nil =>
    simp only [List.nil_append, registerLoops_cons, List.length_nil, Nat.add_zero]
    obtain ⟨e1, e2, e3⟩ := (addCandidateVertices_items s tags normal next).2 hi
      (h.empty_items hi).1 (h.empty_items hi).2 ht
    obtain ⟨a, b, c⟩ := registerLoops_keeps_items rest (next + 1)
      (addCandidateVertices s tags normal next) (by rw [e1]; simp)
    have hpos : 0 < tags.length := List.length_pos.2 ht
    obtain ⟨r1, r2⟩ := seedKey_registered s tags normal next 0 hpos
    refine ⟨_, by rw [a, e1], by rw [c, e3, hlist]; rfl, ?_, ?_, ?_, rfl, rfl, rfl⟩
    · intro k
      rw [b, e2]
      unfold mapInsert
      simp only [(h.empty_items hi).1]
    · exact registerLoops_append_registry rest (next + 1) _ r1
    · have := registerLoops_append_registry rest (next + 1) _ r2
      simpa using this
  | cons l pre ih =>
    have hl : l.1 = [] := hpre l (List.mem_cons_self _ _)
    have h1 := addCandidateVertices_regOk s l.1 l.2 next hn h
    rw [hl, addCandidateVertices_nil] at h1
    simp only [List.cons_append, registerLoops_cons, hl, addCandidateVertices_nil,
      List.length_cons]
    have := ih (next + 1) s (by omega) h1 hi
      (fun l' hl' => hpre l' (List.mem_cons_of_mem _ hl')) hlist
    have e : next + (pre.length + 1) = next + 1 + pre.length := by omega
    rw [e]
    exact this

/-- C9, as stated, fails: after the loop `[0, 1, 2]` is registered, the local
vertices `0` and `1` are those of the consecutive tags `0` and `1`, and the
ledger holds the key `(0, 1)` but not the reversed key `(1, 0)`. -/
theorem boundary_key_counterexample :
    (sourceVertex (registered trianglePositions [([0, 1, 2], ⟨0, 0, 1⟩)]) 0).tag = 0 ∧
    (sourceVertex (registered trianglePositions [([0, 1, 2], ⟨0, 0, 1⟩)]) 1).tag = 1 ∧
    (registered trianglePositions [([0, 1, 2], ⟨0, 0, 1⟩)]).m_generatedFaceEdgesMap (1, 0)
      = none ∧
    (registered trianglePositions [([0, 1, 2], ⟨0, 0, 1⟩)]).m_generatedFaceEdgesMap (0, 1)
      = some (0, false) := by
  decide

/-- C9, amended. After all loops are registered and before the triangulator
runs, the ledger contains the key `(a, b)` exactly when `a` and `b` are the
local vertices of a cyclically consecutive pair `(v, nextV)` of tags of some
input loop, in this order (the key is `(v, nextV)`, the reverse of the front
item `addStartup` is called with), and every entry is `(0, false)`. -/
theorem ledger_holds_boundary_keys (positions : List V) (loops : List (List Nat × V)) :
    (∀ a b, ((registered positions loops).m_generatedFaceEdgesMap (a, b)).isSome = true ↔
      ∃ k tags normal i, loops[k]? = some (tags, normal) ∧ i < tags.length ∧
        Registered (registered positions loops) a (k + 1) (tags.getD i 0) ∧
        Registered (registered positions loops) b (k + 1)
          (tags.getD ((i + 1) % tags.length) 0)) ∧
    ∀ key v, (registered positions loops).m_generatedFaceEdgesMap key = some v →
      v = (0, false) := by
  refine ⟨?_, (registered_regOk positions loops).ledger_val⟩
  intro a b
  unfold registered
  rw [registerLoops_ledger loops 1 _ (Nat.le_refl 1) (fresh_regOk positions) a b]
  simp only [Nat.add_comm 1]
  constructor
  · rintro (h | h)
    · simp [setVertices, fresh] at h
    · exact h
  · intro h; right; exact h

/-- C10. When the input has a non-empty loop, then after all loops are
registered the front holds exactly one item: it joins the vertices of the
first two tags of the first non-empty loop (the second taken cyclically),
it is unprocessed and carries that loop's normal; `m_itemsList` and
`m_itemsMap` know no other item. -/
theorem front_holds_one_seed (positions : List V) (pre : List (List Nat × V))
    (tags : List Nat) (normal : V) (rest : List (List Nat × V))
    (hpre : ∀ l ∈ pre, l.1 = []) (ht : tags ≠ []) :
    ∃ it : WrapItem V,
      (registered positions (pre ++ (tags, normal) :: rest)).m_items = [it] ∧
      (registered positions (pre ++ (tags, normal) :: rest)).m_itemsList = [0] ∧
      (∀ k, (registered positions (pre ++ (tags, normal) :: rest)).m_itemsMap k =
        if k = (it.p1, it.p2) then some 0 else none) ∧
      Registered (registered positions (pre ++ (tags, normal) :: rest)) it.p2
        (pre.length + 1) (tags.getD 0 0) ∧
      Registered (registered positions (pre ++ (tags, normal) :: rest)) it.p1
        (pre.length + 1) (tags.getD (1 % tags.length) 0) ∧
      it.baseNormal = normal ∧ it.processed = false := by
  obtain ⟨it, h1, h2, h3, h4, h5, h6, h7, _⟩ :=
    registerLoops_seed pre tags normal rest 1 (setVertices (fresh : HoleWrapper V) positions)
      (Nat.le_refl 1) (fresh_regOk positions) rfl hpre ht
  refine ⟨it, h1, h2, h3, ?_, ?_, h6, h7⟩
  · rw [Nat.add_comm]; exact h4
  · rw [Nat.add_comm]; exact h5

/-- C10 at an input whose first loop is empty: the seed comes from the loop
`[0, 1, 2]` that follows it. -/
theorem front_holds_one_seed_witness :
    ((∀ l ∈ [(([] : List Nat), (⟨0, 0, 1⟩ : QVec))], l.1 = []) ∧ [0, 1, 2] ≠ []) ∧
    ∃ it : WrapItem QVec,
      (registered conePositions
        ([([], ⟨0, 0, 1⟩)] ++ ([0, 1, 2], ⟨0, 0, -1⟩) :: [([3], ⟨0, 0, 1⟩)])).m_items = [it] ∧
      (registered conePositions
        ([([], ⟨0, 0, 1⟩)] ++ ([0, 1, 2], ⟨0, 0, -1⟩) :: [([3], ⟨0, 0, 1⟩)])).m_itemsList = [0] ∧
      (∀ k, (registered conePositions
        ([([], ⟨0, 0, 1⟩)] ++ ([0, 1, 2], ⟨0, 0, -1⟩) :: [([3], ⟨0, 0, 1⟩)])).m_itemsMap k =
        if k = (it.p1, it.p2) then some 0 else none) ∧
      Registered (registered conePositions
        ([([], ⟨0, 0, 1⟩)] ++ ([0, 1, 2], ⟨0, 0, -1⟩) :: [([3], ⟨0, 0, 1⟩)])) it.p2
        ([(([] : List Nat), (⟨0, 0, 1⟩ : QVec))].length + 1) ([0, 1, 2].getD 0 0) ∧
      Registered (registered conePositions
        ([([], ⟨0, 0, 1⟩)] ++ ([0, 1, 2], ⟨0, 0, -1⟩) :: [([3], ⟨0, 0, 1⟩)])) it.p1
        ([(([] : List Nat), (⟨0, 0, 1⟩ : QVec))].length + 1)
        ([0, 1, 2].getD (1 % [0, 1, 2].length) 0) ∧
      it.baseNormal = ⟨0, 0, -1⟩ ∧ it.processed = false :=
  ⟨⟨by simp, by simp⟩,
    front_holds_one_seed conePositions [([], ⟨0, 0, 1⟩)] [0, 1, 2] ⟨0, 0, -1⟩
      [([3], ⟨0, 0, 1⟩)] (by simp) (by simp)⟩

/-! ## Effect of a new triangle on the ledger and the adjacency lists -/

theorem mapPushBack_of_ne (m : Nat → Option (List Nat)) (k x q : Nat) (h : q ≠ k) :
    mapPushBack m k x q = m q := by
  simp [mapPushBack, h]

theorem mapPushBack_isSome (m : Nat → Option (List Nat)) (k x q : Nat) :
    (mapPushBack m k x q).isSome = true ↔ q = k ∨ (m q).isSome = true := by
  unfold mapPushBack
  by_cases h : q = k <;> simp [h]

theorem mem_mapPushBack (m : Nat → Option (List Nat)) (k x q y : Nat) :
    y ∈ (mapPushBack m k x q).getD [] ↔ y ∈ (m q).getD [] ∨ (q = k ∧ y = x) := by
  unfold mapPushBack
  by_cases h : q = k
  · subst h; simp
  · simp [h]

theorem emitFace_adj_isSome (K : Vector3Kernel V R) (s : HoleWrapper V) (i p1 p2 p3 v : Nat) :
    ((emitFace K s i p1 p2 p3).m_generatedVertexEdgesMap v).isSome = true ↔
      (v = p1 ∨ v = p2 ∨ v = p3) ∨ (s.m_generatedVertexEdgesMap v).isSome = true := by
  rw [emitFace_adjacency]
  simp only [mapPushBack_isSome]
  tauto

theorem emitFace_adjList (K : Vector3Kernel V R) (s : HoleWrapper V) (i p1 p2 p3 v y : Nat) :
    y ∈ adjList (emitFace K s i p1 p2 p3) v ↔
      y ∈ adjList s v ∨ (v = p1 ∧ (y = p2 ∨ y = p3)) ∨ (v = p2 ∧ (y = p3 ∨ y = p1)) ∨
        (v = p3 ∧ (y = p1 ∨ y = p2)) := by
  unfold adjList
  rw [emitFace_adjacency]
  simp only [mem_mapPushBack]
  tauto

theorem emitFace_adj_of_ne (K : Vector3Kernel V R) (s : HoleWrapper V) (i p1 p2 p3 v : Nat)
    (h1 : v ≠ p1) (h2 : v ≠ p2) (h3 : v ≠ p3) :
    (emitFace K s i p1 p2 p3).m_generatedVertexEdgesMap v = s.m_generatedVertexEdgesMap v := by
  rw [emitFace_adjacency]
  simp [mapPushBack_of_ne, h1, h2, h3]

theorem emitFace_ledger_isSome (K : Vector3Kernel V R) (s : HoleWrapper V) (i p1 p2 p3 : Nat)
    (k : WrapItemKey) :
    ((emitFace K s i p1 p2 p3).m_generatedFaceEdgesMap k).isSome = true ↔
      (k = (p1, p2) ∨ k = (p2, p3) ∨ k = (p3, p1)) ∨
        (s.m_generatedFaceEdgesMap k).isSome = true := by
  rw [emitFace_ledger]
  simp only [mapInsert_isSome]
  tauto

theorem emitFace_ledger_of_some (K : Vector3Kernel V R) (s : HoleWrapper V) (i p1 p2 p3 : Nat)
    (k : WrapItemKey) (w : Nat × Bool) (h : s.m_generatedFaceEdgesMap k = some w) :
    (emitFace K s i p1 p2 p3).m_generatedFaceEdgesMap k = some w := by
  rw [emitFace_ledger]
  exact mapInsert_of_some _ _ _ _ _ (mapInsert_of_some _ _ _ _ _ (mapInsert_of_some _ _ _ _ _ h))

theorem emitFace_ledger_eq_some (K : Vector3Kernel V R) (s : HoleWrapper V) (i p1 p2 p3 : Nat)
    (k : WrapItemKey) (w : Nat × Bool)
    (h : (emitFace K s i p1 p2 p3).m_generatedFaceEdgesMap k = some w) :
    s.m_generatedFaceEdgesMap k = some w ∨
      (s.m_generatedFaceEdgesMap k = none ∧ (k = (p1, p2) ∨ k = (p2, p3) ∨ k = (p3, p1)) ∧
        w = (s.m_generatedFaces.length, true)) := by
  rw [emitFace_ledger] at h
  cases hk : s.m_generatedFaceEdgesMap k with
  | some w' =>
    left
    have := mapInsert_of_some _ (p3, p1) k (s.m_generatedFaces.length, true) w'
      (mapInsert_of_some _ (p2, p3) k (s.m_generatedFaces.length, true) w'
        (mapInsert_of_some _ (p1, p2) k (s.m_generatedFaces.length, true) w' hk))
    rw [this] at h
    exact h
  | none =>
    right
    refine ⟨rfl, ?_⟩
    rw [mapInsert_eq_some, mapInsert_eq_some, mapInsert_eq_some] at h
    rcases h with ((h | ⟨h1, _, h3⟩) | ⟨h1, _, h3⟩) | ⟨h1, _, h3⟩
    · rw [hk] at h; exact Option.noConfusion h
    · exact ⟨Or.inl h1, h3⟩
    · exact ⟨Or.inr (Or.inl h1), h3⟩
    · exact ⟨Or.inr (Or.inr h1), h3⟩

theorem emitFace_ledger_of_none (K : Vector3Kernel V R) (s : HoleWrapper V) (i p1 p2 p3 : Nat)
    (k : WrapItemKey) (h : s.m_generatedFaceEdgesMap k = none)
    (hk : k = (p1, p2) ∨ k = (p2, p3) ∨ k = (p3, p1)) :
    (emitFace K s i p1 p2 p3).m_generatedFaceEdgesMap k =
      some (s.m_generatedFaces.length, true) := by
  have hs : ((emitFace K s i p1 p2 p3).m_generatedFaceEdgesMap k).isSome = true :=
    (emitFace_ledger_isSome K s i p1 p2 p3 k).2 (Or.inl hk)
  obtain ⟨w, hw⟩ := Option.isSome_iff_exists.1 hs
  rcases emitFace_ledger_eq_some K s i p1 p2 p3 k w hw with h' | ⟨_, _, h'⟩
  · rw [h] at h'; exact Option.noConfusion h'
  · rw [hw, h']

theorem emitFace_isEdgeClosed_mono (K : Vector3Kernel V R) (s : HoleWrapper V)
    (i p1 p2 p3 a b : Nat) (h : isEdgeClosed s a b = true) :
    isEdgeClosed (emitFace K s i p1 p2 p3) a b = true := by
  rw [isEdgeClosed_iff] at h ⊢
  exact ⟨(emitFace_ledger_isSome K s i p1 p2 p3 _).2 (Or.inr h.1),
    (emitFace_ledger_isSome K s i p1 p2 p3 _).2 (Or.inr h.2)⟩

/-! ## The invariant of the triangulator -/

theorem RegOk.genOk {next : Nat} {s : HoleWrapper V} (h : RegOk next s) : GenOk s := by
  refine ⟨h.front, h.seed_rev, ?_, fun _ => h.items_le, fun _ _ _ => Or.inl h.noFaces, ?_, ?_,
    ?_, ?_, ?_⟩
  · intro v
    simp [h.noAdj v, h.noFaces]
  · intro v hv
    left
    rw [h.cands]
    exact List.mem_range.2 hv
  · intro i hi
    rw [h.noFaces] at hi
    simp at hi
  · intro k fi hk
    have := h.ledger_val k _ hk
    simp at this
  · intro f hf
    rw [h.noFaces] at hf
    simp at hf
  · intro i j _ hj
    rw [h.noFaces] at hj
    simp at hj

theorem addItem_items (s : HoleWrapper V) (a b : Nat) (n : V) :
    ∃ extra, (addItem s a b n).m_items = s.m_items ++ extra ∧
      ∀ it ∈ extra, it = { baseNormal := n, p1 := a, p2 := b, p3 := 0, processed := false } := by
  rcases addItem_cases s a b n with e | ⟨_, _, _, e⟩
  · exact ⟨[], by rw [e]; simp, by simp⟩
  · exact ⟨[_], by rw [e], by simp⟩

theorem emitFace_items (K : Vector3Kernel V R) (s : HoleWrapper V) (i p1 p2 p3 : Nat) :
    ∃ extra, (emitFace K s i p1 p2 p3).m_items =
        s.m_items.set i { item s i with p3 := p3 } ++ extra ∧
      ∀ it ∈ extra, ((it.p1 = p3 ∧ it.p2 = p2) ∨ (it.p1 = p1 ∧ it.p2 = p3)) ∧
        it.processed = false := by
  unfold emitFace
  simp only
  obtain ⟨x1, h1, g1⟩ := addItem_items
    ({ s with
        m_items := s.m_items.set i { item s i with p3 := p3 }
        m_generatedFaces := s.m_generatedFaces ++
          [{ p1 := p1, p2 := p2, p3 := p3,
             normal := K.normal (sourceVertex s p1).position (sourceVertex s p2).position
               (sourceVertex s p3).position,
             index := s.m_generatedFaces.length }] } : HoleWrapper V) p3 p2
    (K.normal (sourceVertex s p1).position (sourceVertex s p2).position
      (sourceVertex s p3).position)
  obtain ⟨x2, h2, g2⟩ := addItem_items (addItem
    ({ s with
        m_items := s.m_items.set i { item s i with p3 := p3 }
        m_generatedFaces := s.m_generatedFaces ++
          [{ p1 := p1, p2 := p2, p3 := p3,
             normal := K.normal (sourceVertex s p1).position (sourceVertex s p2).position
               (sourceVertex s p3).position,
             index := s.m_generatedFaces.length }] } : HoleWrapper V) p3 p2
    (K.normal (sourceVertex s p1).position (sourceVertex s p2).position
      (sourceVertex s p3).position)) p1 p3
    (K.normal (sourceVertex s p1).position (sourceVertex s p2).position
      (sourceVertex s p3).position)
  refine ⟨x1 ++ x2, ?_, ?_⟩
  · show (addItem (addItem _ p3 p2 _) p1 p3 _).m_items = _
    rw [← List.append_assoc]
    exact h2.trans (by rw [h1])
  · intro it hit
    rcases List.mem_append.1 hit with hit | hit
    · rw [g1 it hit]; exact ⟨Or.inl ⟨rfl, rfl⟩, rfl⟩
    · rw [g2 it hit]; exact ⟨Or.inr ⟨rfl, rfl⟩, rfl⟩

theorem emitFace_closed_mono (K : Vector3Kernel V R) (s : HoleWrapper V) (i p1 p2 p3 v : Nat)
    (hv : isVertexClosed s v = true) (h1 : v ≠ p1) (h2 : v ≠ p2) (h3 : v ≠ p3) :
    isVertexClosed (emitFace K s i p1 p2 p3) v = true := by
  rw [isVertexClosed_iff] at hv ⊢
  obtain ⟨others, ho, hall⟩ := hv
  refine ⟨others, ?_, ?_⟩
  · rw [emitFace_adj_of_ne K s i p1 p2 p3 v h1 h2 h3]; exact ho
  · intro o hoo
    exact emitFace_isEdgeClosed_mono K s i p1 p2 p3 v o (hall o hoo)

theorem item_mem (s : HoleWrapper V) (i : Nat) (hi : i < s.m_items.length) :
    item s i ∈ s.m_items := by
  unfold item
  rw [List.getD_eq_getElem _ _ hi]
  exact List.getElem_mem _

theorem mem_adjList_of_closed (s : HoleWrapper V) (v o : Nat)
    (hv : isVertexClosed s v = true) (ho : o ∈ adjList s v) : isEdgeClosed s v o = true := by
  rw [isVertexClosed_iff] at hv
  obtain ⟨others, h1, h2⟩ := hv
  unfold adjList at ho
  rw [h1] at ho
  exact h2 o ho

/-- The end points of the item that `peekItem` returns are not closed when
the edge between them is not closed. -/
theorem open_endpoints (s : HoleWrapper V) (h : GenOk s) (hp : (peekItem s).2 = true)
    (hcl : isEdgeClosed s (item s (peekItem s).1).p1 (item s (peekItem s).1).p2 = false) :
    isVertexClosed s (item s (peekItem s).1).p1 = false ∧
    isVertexClosed s (item s (peekItem s).1).p2 = false := by
  have hi := h.front.list_lt _ (peekItem_spec s hp).1
  have h0 := (peekItem_spec s hp).2
  have key : ∀ v, v = (item s (peekItem s).1).p1 ∨ v = (item s (peekItem s).1).p2 →
      isVertexClosed s v = false := by
    intro v hv
    cases hc : isVertexClosed s v with
    | false => rfl
    | true =>
      exfalso
      have hsome : (s.m_generatedVertexEdgesMap v).isSome = true := by
        obtain ⟨others, ho, _⟩ := (isVertexClosed_iff s v).1 hc
        rw [ho]; rfl
      obtain ⟨f, hf, _⟩ := (h.adj_face v).1 hsome
      have hne : s.m_generatedFaces ≠ [] := List.ne_nil_of_mem hf
      rcases h.item_adj _ (item_mem s _ hi) h0 with he | ⟨ha, hb⟩
      · exact hne he
      · rcases hv with hv | hv
        · subst hv
          rw [mem_adjList_of_closed s _ _ hc ha] at hcl
          exact Bool.noConfusion hcl
        · subst hv
          rw [isEdgeClosed_comm, mem_adjList_of_closed s _ _ hc hb] at hcl
          exact Bool.noConfusion hcl
  exact ⟨key _ (Or.inl rfl), key _ (Or.inr rfl)⟩

theorem isVertexClosed_prune_mark (s : HoleWrapper V) (i v : Nat) :
    isVertexClosed (prune (markProcessed s i)) v = isVertexClosed s v :=
  isVertexClosed_congr rfl rfl v

theorem isEdgeClosed_prune_mark (s : HoleWrapper V) (i a b : Nat) :
    isEdgeClosed (prune (markProcessed s i)) a b = isEdgeClosed s a b :=
  isEdgeClosed_congr rfl a b

/-- Once a vertex is closed it stays closed through every pass of the loop. -/
theorem generateBody_closed_mono (K : Vector3Kernel V R) (s : HoleWrapper V) (h : GenOk s)
    (hp : (peekItem s).2 = true) (v : Nat) (hv : isVertexClosed s v = true) :
    isVertexClosed (generateBody K s (peekItem s).1) v = true := by
  rcases generateBody_cases K s (peekItem s).1 with ⟨_, e⟩ | ⟨_, e⟩ | ⟨hcl, p3, _, hel, e⟩
  · rw [e]; exact hv
  · rw [e]; exact hv
  · rw [e]
    obtain ⟨o1, o2⟩ := open_endpoints s h hp hcl
    apply emitFace_closed_mono K _ _ _ _ _ v
      ((isVertexClosed_prune_mark s _ v).trans hv)
    · intro e1; rw [e1, o1] at hv; exact Bool.noConfusion hv
    · intro e2; rw [e2, o2] at hv; exact Bool.noConfusion hv
    · intro e3; rw [e3, hel.1] at hv; exact Bool.noConfusion hv

theorem adjList_congr {s t : HoleWrapper V}
    (h : t.m_generatedVertexEdgesMap = s.m_generatedVertexEdgesMap) (v : Nat) :
    adjList t v = adjList s v := by
  simp [adjList, h]

/-- The invariant survives a change that touches neither the ledger, the
adjacency lists, the triangles nor the registry, keeps the edges of the
items, and turns no item back to unprocessed. -/
theorem GenOk.transfer {s t : HoleWrapper V} (h : GenOk s) (hfront : FrontOk t)
    (hl : t.m_generatedFaceEdgesMap = s.m_generatedFaceEdgesMap)
    (ha : t.m_generatedVertexEdgesMap = s.m_generatedVertexEdgesMap)
    (hf : t.m_generatedFaces = s.m_generatedFaces)
    (hs : t.m_sourceVertices = s.m_sourceVertices)
    (hk : itemKeys t = itemKeys s)
    (hlen : t.m_items.length = s.m_items.length)
    (hitems : ∀ it ∈ t.m_items, it.processed = false → it ∈ s.m_items)
    (hc : ∀ v, v ∈ s.m_candidates → v ∈ t.m_candidates ∨ isVertexClosed s v = true) :
    GenOk t := by
  have hvc : ∀ v, isVertexClosed t v = isVertexClosed s v := isVertexClosed_congr hl ha
  refine ⟨hfront, ?_, ?_, ?_, ?_, ?_, ?_, ?_, ?_, ?_⟩
  · rw [hk, hl]; exact h.item_rev
  · rw [ha, hf]; exact h.adj_face
  · rw [hf, hlen]; exact h.seed_only
  · intro it hit hp
    rw [hf, adjList_congr ha, adjList_congr ha]
    exact h.item_adj it (hitems it hit hp) hp
  · intro v hv
    rw [hs] at hv
    rw [hvc]
    rcases h.pool v hv with h1 | h1
    · exact hc v h1
    · right; exact h1
  · rw [hf]; exact h.face_index
  · rw [hl, hf]; exact h.flag_lt
  · rw [hl, hf]; exact h.face_edges
  · rw [hl, hf]; exact h.face_later

theorem markProcessed_items_mem (s : HoleWrapper V) (i : Nat) (it : WrapItem V)
    (hit : it ∈ (markProcessed s i).m_items) (hp : it.processed = false) : it ∈ s.m_items := by
  unfold markProcessed at hit
  rcases List.mem_or_eq_of_mem_set hit with h | h
  · exact h
  · rw [h] at hp
    exact Bool.noConfusion hp

theorem markProcessed_genOk (s : HoleWrapper V) (i : Nat) (h : GenOk s) :
    GenOk (markProcessed s i) :=
  h.transfer (markProcessed_frontOk s i h.front) rfl rfl rfl rfl (itemKeys_markProcessed s i)
    (by simp [markProcessed]) (markProcessed_items_mem s i) (fun _ hv => Or.inl hv)

theorem prune_genOk (s : HoleWrapper V) (h : GenOk s) : GenOk (prune s) := by
  refine h.transfer (prune_frontOk s h.front) rfl rfl rfl rfl rfl rfl (fun _ hit _ => hit) ?_
  intro v hv
  cases hc : isVertexClosed s v with
  | true => right; rfl
  | false =>
    left
    rw [prune_candidates]
    exact List.mem_filter.2 ⟨hv, by simp [hc]⟩

theorem getD_append_last {α : Type} (l : List α) (a d : α) :
    (l ++ [a]).getD l.length d = a := by
  rw [List.getD_append_right _ _ _ _ (Nat.le_refl _)]
  simp

theorem only_item (s : HoleWrapper V) (i : Nat) (hi : i < s.m_items.length)
    (hle : s.m_items.length ≤ 1) (it : WrapItem V) (hit : it ∈ s.m_items) :
    it = item s i := by
  have h0 : i = 0 := by omega
  subst h0
  unfold item
  cases hitems : s.m_items with
  | nil => rw [hitems] at hi; simp at hi
  | cons x rest =>
    rw [hitems] at hle hit
    have : rest = [] := by
      cases rest with
      | nil => rfl
      | cons y r => simp at hle
    subst this
    simpa using hit

/-- The invariant survives the emission of a triangle on an item that is
marked processed, towards a vertex that leaves no edge of the triangle closed
beforehand and with all three vertices open. -/
theorem emitFace_genOk (K : Vector3Kernel V R) (s : HoleWrapper V) (i p1 p2 p3 : Nat)
    (h : GenOk s) (hi : i < s.m_items.length) (hproc : (item s i).processed = true)
    (h1 : p1 < s.m_sourceVertices.length) (h2 : p2 < s.m_sourceVertices.length)
    (h3 : p3 < s.m_sourceVertices.length)
    (c12 : isEdgeClosed s p1 p2 = false) (c13 : isEdgeClosed s p1 p3 = false)
    (c23 : isEdgeClosed s p2 p3 = false)
    (o1 : isVertexClosed s p1 = false) (o2 : isVertexClosed s p2 = false)
    (o3 : isVertexClosed s p3 = false) :
    GenOk (emitFace K s i p1 p2 p3) := by
  obtain ⟨extra, hitems, hextra⟩ := emitFace_items K s i p1 p2 p3
  have hfaces := emitFace_faces K s i p1 p2 p3
  have hmono : ∀ k, (s.m_generatedFaceEdgesMap k).isSome = true →
      ((emitFace K s i p1 p2 p3).m_generatedFaceEdgesMap k).isSome = true :=
    fun k hk => (emitFace_ledger_isSome K s i p1 p2 p3 k).2 (Or.inr hk)
  have hnotboth : ∀ a b, isEdgeClosed s a b = false →
      (s.m_generatedFaceEdgesMap (b, a)).isSome = true →
      s.m_generatedFaceEdgesMap (a, b) = none := by
    intro a b hc hb
    cases hab : s.m_generatedFaceEdgesMap (a, b) with
    | none => rfl
    | some w =>
      have : isEdgeClosed s a b = true := by
        rw [isEdgeClosed_iff, hab]; exact ⟨rfl, hb⟩
      rw [this] at hc
      exact Bool.noConfusion hc
  refine ⟨emitFace_frontOk K s i p1 p2 p3 h.front h1 h2 h3, ?_, ?_, ?_, ?_, ?_, ?_, ?_, ?_, ?_⟩
  · -- item_rev
    intro k hk
    unfold itemKeys at hk
    rw [hitems, List.map_append, List.mem_append] at hk
    rcases hk with hk | hk
    · rw [map_key_set s.m_items i { item s i with p3 := p3 } rfl rfl] at hk
      exact hmono _ (h.item_rev k hk)
    · obtain ⟨it, hit, hkey⟩ := List.mem_map.1 hk
      rw [← hkey]
      rcases (hextra it hit).1 with ⟨e1, e2⟩ | ⟨e1, e2⟩
      · rw [e1, e2]
        exact (emitFace_ledger_isSome K s i p1 p2 p3 _).2 (Or.inl (Or.inr (Or.inl rfl)))
      · rw [e1, e2]
        exact (emitFace_ledger_isSome K s i p1 p2 p3 _).2 (Or.inl (Or.inr (Or.inr rfl)))
  · -- adj_face
    intro v
    rw [emitFace_adj_isSome, hfaces, h.adj_face v]
    simp only [List.mem_append, List.mem_singleton, faceVertices, List.mem_cons,
      List.not_mem_nil, or_false]
    constructor
    · rintro (hv | ⟨f, hf, hv⟩)
      · exact ⟨_, Or.inr rfl, hv⟩
      · exact ⟨f, Or.inl hf, hv⟩
    · rintro ⟨f, hf | hf, hv⟩
      · right; exact ⟨f, hf, hv⟩
      · left; rw [hf] at hv; exact hv
  · -- seed_only
    intro he
    rw [hfaces] at he
    simp at he
  · -- item_adj
    intro it hit hp
    right
    rw [hitems, List.mem_append] at hit
    rcases hit with hit | hit
    · rcases List.mem_or_eq_of_mem_set hit with hold | hw
      · rcases h.item_adj it hold hp with he | ⟨ha, hb⟩
        · exfalso
          have := only_item s i hi (h.seed_only he) it hold
          rw [this, hproc] at hp
          exact Bool.noConfusion hp
        · exact ⟨(emitFace_adjList K s i p1 p2 p3 _ _).2 (Or.inl ha),
            (emitFace_adjList K s i p1 p2 p3 _ _).2 (Or.inl hb)⟩
      · exfalso
        rw [hw] at hp
        simp only at hp
        rw [hproc] at hp
        exact Bool.noConfusion hp
    · rcases (hextra it hit).1 with ⟨e1, e2⟩ | ⟨e1, e2⟩
      · rw [e1, e2]
        exact ⟨(emitFace_adjList K s i p1 p2 p3 _ _).2
            (Or.inr (Or.inr (Or.inr ⟨rfl, Or.inr rfl⟩))),
          (emitFace_adjList K s i p1 p2 p3 _ _).2
            (Or.inr (Or.inr (Or.inl ⟨rfl, Or.inl rfl⟩)))⟩
      · rw [e1, e2]
        exact ⟨(emitFace_adjList K s i p1 p2 p3 _ _).2
            (Or.inr (Or.inl ⟨rfl, Or.inr rfl⟩)),
          (emitFace_adjList K s i p1 p2 p3 _ _).2
            (Or.inr (Or.inr (Or.inr ⟨rfl, Or.inl rfl⟩)))⟩
  · -- pool
    intro v hv
    rw [emitFace_sourceVertices] at hv
    rw [emitFace_candidates]
    rcases h.pool v hv with hc | hc
    · left; exact hc
    · right
      apply emitFace_closed_mono K s i p1 p2 p3 v hc
      · intro e; rw [e, o1] at hc; exact Bool.noConfusion hc
      · intro e; rw [e, o2] at hc; exact Bool.noConfusion hc
      · intro e; rw [e, o3] at hc; exact Bool.noConfusion hc
  · -- face_index
    intro j hj
    rw [hfaces] at hj ⊢
    rw [List.length_append, List.length_singleton] at hj
    by_cases hjl : j < s.m_generatedFaces.length
    · rw [List.getD_append _ _ _ _ hjl]
      exact h.face_index j hjl
    · have : j = s.m_generatedFaces.length := by omega
      rw [this, getD_append_last]
  · -- flag_lt
    intro k fi hk
    rw [hfaces, List.length_append, List.length_singleton]
    rcases emitFace_ledger_eq_some K s i p1 p2 p3 k _ hk with hk' | ⟨_, _, hk'⟩
    · have := h.flag_lt k fi hk'
      omega
    · have : fi = s.m_generatedFaces.length := congrArg Prod.fst hk'
      omega
  · -- face_edges
    intro f hf e he
    rw [hfaces, List.mem_append, List.mem_singleton] at hf
    rcases hf with hf | hf
    · exact hmono _ (h.face_edges f hf e he)
    · rw [hf] at he
      simp only [faceEdges, List.mem_cons, List.not_mem_nil, or_false] at he
      exact (emitFace_ledger_isSome K s i p1 p2 p3 e).2 (Or.inl he)
  · -- face_later
    intro a b hab hb e he hrev
    rw [hfaces] at hb he hrev
    rw [List.length_append, List.length_singleton] at hb
    by_cases hbl : b < s.m_generatedFaces.length
    · rw [List.getD_append _ _ _ _ hbl] at he
      rw [List.getD_append _ _ _ _ (by omega)] at hrev
      exact emitFace_ledger_of_some K s i p1 p2 p3 e _ (h.face_later a b hab hbl e he hrev)
    · have hbe : b = s.m_generatedFaces.length := by omega
      rw [hbe] at he ⊢
      rw [getD_append_last] at he
      rw [List.getD_append _ _ _ _ (by omega)] at hrev
      have hrevSome : (s.m_generatedFaceEdgesMap (e.2, e.1)).isSome = true :=
        h.face_edges _ (by
          rw [List.getD_eq_getElem _ _ (by omega : a < s.m_generatedFaces.length)]
          exact List.getElem_mem _) _ hrev
      simp only [faceEdges, List.mem_cons, List.not_mem_nil, or_false] at he
      have hnone : s.m_generatedFaceEdgesMap e = none := by
        rcases he with he | he | he
        · rw [he] at hrevSome ⊢
          exact hnotboth p1 p2 c12 hrevSome
        · rw [he] at hrevSome ⊢
          exact hnotboth p2 p3 c23 hrevSome
        · rw [he] at hrevSome ⊢
          exact hnotboth p3 p1 (by rw [isEdgeClosed_comm]; exact c13) hrevSome
      exact emitFace_ledger_of_none K s i p1 p2 p3 e hnone he

theorem item_markProcessed_processed (s : HoleWrapper V) (i : Nat) (hi : i < s.m_items.length) :
    (item (prune (markProcessed s i)) i).processed = true := by
  unfold item prune markProcessed
  simp [List.getD_eq_getElem?_getD, List.getElem?_set, hi]

theorem generateBody_genOk (K : Vector3Kernel V R) (s : HoleWrapper V) (h : GenOk s)
    (hp : (peekItem s).2 = true) : GenOk (generateBody K s (peekItem s).1) := by
  have hi := h.front.list_lt _ (peekItem_spec s hp).1
  have hk := h.front.item_lt _ (item_mem_keys s _ hi)
  rcases generateBody_cases K s (peekItem s).1 with ⟨_, e⟩ | ⟨_, e⟩ | ⟨hcl, p3, hp3, hel, e⟩
  · rw [e]; exact markProcessed_genOk s _ h
  · rw [e]; exact prune_genOk _ (markProcessed_genOk s _ h)
  · rw [e]
    obtain ⟨o1, o2⟩ := open_endpoints s h hp hcl
    exact emitFace_genOk K _ _ _ _ _ (prune_genOk _ (markProcessed_genOk s _ h))
      (by simpa [markProcessed] using hi) (item_markProcessed_processed s _ hi)
      hk.1 hk.2 (h.front.cand_lt p3 hp3)
      ((isEdgeClosed_prune_mark s _ _ _).trans hcl)
      ((isEdgeClosed_prune_mark s _ _ _).trans hel.2.1)
      ((isEdgeClosed_prune_mark s _ _ _).trans hel.2.2.1)
      ((isVertexClosed_prune_mark s _ _).trans o1)
      ((isVertexClosed_prune_mark s _ _).trans o2)
      ((isVertexClosed_prune_mark s _ _).trans hel.1)

theorem generateFuel_genOk (K : Vector3Kernel V R) (fuel : Nat) (s : HoleWrapper V)
    (h : GenOk s) : GenOk (generateFuel K fuel s) :=
  generateFuel_induction K GenOk (fun t ht hp => generateBody_genOk K t ht hp) fuel s h

theorem generate_genOk (K : Vector3Kernel V R) (s : HoleWrapper V) (h : GenOk s) :
    GenOk (generate K s) :=
  generateFuel_genOk K _ s h

theorem generateFuel_of_no_item (K : Vector3Kernel V R) (fuel : Nat) (s : HoleWrapper V)
    (h : (peekItem s).2 = false) : generateFuel K fuel s = s := by
  cases fuel with
  | zero => rfl
  | succ n => simp [generateFuel, h]

theorem generateFuel_add (K : Vector3Kernel V R) (n m : Nat) (s : HoleWrapper V) :
    generateFuel K (n + m) s = generateFuel K m (generateFuel K n s) := by
  induction n generalizing s with
  | zero => simp [generateFuel]
  | succ n ih =>
    rw [Nat.add_right_comm]
    simp only [generateFuel]
    split_ifs with hp
    · exact ih _
    · rw [generateFuel_of_no_item K m s (by simpa using hp)]

/-- A vertex that is closed at some point of the loop is closed at every
later point. -/
theorem generateFuel_closed_mono (K : Vector3Kernel V R) (fuel : Nat) (s : HoleWrapper V)
    (h : GenOk s) (v : Nat) (hv : isVertexClosed s v = true) :
    isVertexClosed (generateFuel K fuel s) v = true := by
  induction fuel generalizing s with
  | zero => exact hv
  | succ n ih =>
    simp only [generateFuel]
    split_ifs with hp
    · exact ih _ (generateBody_genOk K s h hp) (generateBody_closed_mono K s h hp v hv)
    · exact hv

theorem run_genOk_fields (K : Vector3Kernel V R) (positions : List V)
    (loops : List (List Nat × V)) :
    GenOk (generate K (registered positions loops)) :=
  generate_genOk K _ (registered_regOk positions loops).genOk

theorem isVertexClosed_run (K : Vector3Kernel V R) (positions : List V)
    (loops : List (List Nat × V)) (v : Nat) :
    isVertexClosed (run K positions loops) v =
      isVertexClosed (generate K (registered positions loops)) v :=
  isVertexClosed_congr rfl rfl v

/-- C5. If `finished()` is true after `wrap`, every registered vertex, pruned
from the pool or not, is closed: it is a vertex of a generated triangle, and
for every neighbour in its adjacency list both directed keys of the edge are
in the ledger.  The reason is the second part: a vertex that is closed at
some pass of `generate` is closed at every later pass. -/
theorem finished_means_all_closed (K : Vector3Kernel V R) (positions : List V)
    (loops : List (List Nat × V)) (hfin : finished (run K positions loops) = true) :
    (∀ v, v < (run K positions loops).m_sourceVertices.length →
      (∃ f ∈ (run K positions loops).m_generatedFaces, v ∈ faceVertices f) ∧
      ∃ others, (run K positions loops).m_generatedVertexEdgesMap v = some others ∧
        ∀ o ∈ others,
          ((run K positions loops).m_generatedFaceEdgesMap (v, o)).isSome = true ∧
          ((run K positions loops).m_generatedFaceEdgesMap (o, v)).isSome = true) ∧
    (∀ n m v, isVertexClosed (generateFuel K n (registered positions loops)) v = true →
      isVertexClosed (generateFuel K (n + m) (registered positions loops)) v = true) := by
  have hg := run_genOk_fields K positions loops
  refine ⟨?_, ?_⟩
  · intro v hv
    have hclosed : isVertexClosed (run K positions loops) v = true := by
      rw [isVertexClosed_run]
      rcases hg.pool v hv with hc | hc
      · rw [← isVertexClosed_run]
        exact (finished_iff _ (by rw [run_eq]; rfl)).1 hfin v hc
      · exact hc
    obtain ⟨others, ho, hall⟩ := (isVertexClosed_iff _ v).1 hclosed
    refine ⟨?_, others, ho, fun o hoo => (isEdgeClosed_iff _ v o).1 (hall o hoo)⟩
    exact (hg.adj_face v).1 (by
      have : (generate K (registered positions loops)).m_generatedVertexEdgesMap v =
          some others := ho
      rw [this]; rfl)
  · intro n m v hv
    rw [generateFuel_add]
    exact generateFuel_closed_mono K m _
      (generateFuel_genOk K n _ (registered_regOk positions loops).genOk) v hv

/-- C5 on the prism: the run finishes, so all six vertices are closed. -/
theorem finished_means_all_closed_witness :
    finished (run exactKernel prismPositions prismLoops) = true ∧
    ((∀ v, v < (run exactKernel prismPositions prismLoops).m_sourceVertices.length →
      (∃ f ∈ (run exactKernel prismPositions prismLoops).m_generatedFaces,
        v ∈ faceVertices f) ∧
      ∃ others, (run exactKernel prismPositions prismLoops).m_generatedVertexEdgesMap v =
          some others ∧
        ∀ o ∈ others,
          ((run exactKernel prismPositions prismLoops).m_generatedFaceEdgesMap (v, o)).isSome
            = true ∧
          ((run exactKernel prismPositions prismLoops).m_generatedFaceEdgesMap (o, v)).isSome
            = true) ∧
    (∀ n m v,
      isVertexClosed (generateFuel exactKernel n (registered prismPositions prismLoops)) v
        = true →
      isVertexClosed (generateFuel exactKernel (n + m) (registered prismPositions prismLoops)) v
        = true)) :=
  ⟨by decide!, finished_means_all_closed exactKernel prismPositions prismLoops (by decide!)⟩

/-- C6. If after `wrap` a vertex registered from the loop at position `k` is
a vertex of no generated triangle, then `finished()` is false and `k` is in
the list produced by `getFailedEdgeLoops`. -/
theorem unreached_vertex_reported (K : Vector3Kernel V R) (positions : List V)
    (loops : List (List Nat × V)) (k v : Nat)
    (hv : FromLoop loops (run K positions loops) v k)
    (hno : ∀ f ∈ (run K positions loops).m_generatedFaces, v ∉ faceVertices f) :
    finished (run K positions loops) = false ∧
    k ∈ getFailedEdgeLoops (run K positions loops) [] := by
  have hg := run_genOk_fields K positions loops
  obtain ⟨_, _, _, _, _, hlt, hplane, _⟩ := hv
  have hopen : isVertexClosed (run K positions loops) v = false := by
    cases hc : isVertexClosed (run K positions loops) v with
    | false => rfl
    | true =>
      exfalso
      obtain ⟨others, ho, _⟩ := (isVertexClosed_iff _ v).1 hc
      have hs : ((generate K (registered positions loops)).m_generatedVertexEdgesMap v).isSome
          = true := by
        have : (generate K (registered positions loops)).m_generatedVertexEdgesMap v =
            some others := ho
        rw [this]; rfl
      obtain ⟨f, hf, hvf⟩ := (hg.adj_face v).1 hs
      exact hno f hf hvf
  have hmem : v ∈ (run K positions loops).m_candidates := by
    rcases hg.pool v hlt with hc | hc
    · exact hc
    · rw [← isVertexClosed_run, hopen] at hc
      exact Bool.noConfusion hc
  refine ⟨?_, ?_⟩
  · cases hfin : finished (run K positions loops) with
    | false => rfl
    | true =>
      have := (finished_iff _ (by rw [run_eq]; rfl)).1 hfin v hmem
      rw [hopen] at this
      exact Bool.noConfusion this
  · unfold getFailedEdgeLoops
    rw [List.nil_append, mem_collectFailed]
    right
    exact ⟨v, hmem, hopen, by rw [hplane]; rfl⟩

/-- C6 on a single triangle loop: its vertex `0` is in no triangle, so the
loop `0` is reported and the run is not finished. -/
theorem unreached_vertex_reported_witness :
    (FromLoop [([0, 1, 2], (⟨0, 0, 1⟩ : QVec))]
        (run exactKernel trianglePositions [([0, 1, 2], ⟨0, 0, 1⟩)]) 0 0 ∧
      ∀ f ∈ (run exactKernel trianglePositions [([0, 1, 2], ⟨0, 0, 1⟩)]).m_generatedFaces,
        0 ∉ faceVertices f) ∧
    (finished (run exactKernel trianglePositions [([0, 1, 2], ⟨0, 0, 1⟩)]) = false ∧
      0 ∈ getFailedEdgeLoops (run exactKernel trianglePositions [([0, 1, 2], ⟨0, 0, 1⟩)]) []) :=
  have h1 : FromLoop [([0, 1, 2], (⟨0, 0, 1⟩ : QVec))]
      (run exactKernel trianglePositions [([0, 1, 2], ⟨0, 0, 1⟩)]) 0 0 :=
    ⟨[0, 1, 2], ⟨0, 0, 1⟩, 0, rfl, by simp, by decide, by decide, by decide⟩
  have h2 : ∀ f ∈ (run exactKernel trianglePositions
      [([0, 1, 2], ⟨0, 0, 1⟩)]).m_generatedFaces, 0 ∉ faceVertices f := by
    have e : ((run exactKernel trianglePositions
        [([0, 1, 2], ⟨0, 0, 1⟩)]).m_generatedFaces.all
          (fun f => decide (0 ∉ faceVertices f))) = true := by decide
    intro f hf
    exact of_decide_eq_true (List.all_eq_true.1 e f hf)
  ⟨⟨h1, h2⟩, unreached_vertex_reported exactKernel trianglePositions
    [([0, 1, 2], ⟨0, 0, 1⟩)] 0 0 h1 h2⟩

/-! ## The quad merger -/

theorem findPairLoop_acc (K : Vector3Kernel V R) (s : HoleWrapper V) (f : Face3 V)
    (used : Nat → Option Bool) (q : List Face4) (is : List Nat) :
    findPairLoop K s f used q is =
      ((findPairLoop K s f used [] is).1, q ++ (findPairLoop K s f used [] is).2) := by
  induction is with
  | nil => simp [findPairLoop]
  | cons i rest ih =>
    simp only [findPairLoop]
    split
    · split_ifs
      · exact ih
      · exact ih
      · simp
    · exact ih

/-- What `findPairFace3` returns: either a partner that is unused, is named
with the flag set by the ledger under the reverse of an edge of `f` and has
an almost equal normal, together with exactly one quad; or nothing, and then
no edge of `f` has such a partner. -/
theorem findPairLoop_spec (K : Vector3Kernel V R) (s : HoleWrapper V) (f : Face3 V)
    (used : Nat → Option Bool) (is : List Nat) :
    ((findPairLoop K s f used [] is).1.2 = true ∧
      (used (findPairLoop K s f used [] is).1.1).isSome = false ∧
      (∃ key, s.m_generatedFaceEdgesMap key =
        some ((findPairLoop K s f used [] is).1.1, true)) ∧
      ∃ quad, (findPairLoop K s f used [] is).2 = [quad]) ∨
    ((findPairLoop K s f used [] is).1.2 = false ∧
      (findPairLoop K s f used [] is).2 = [] ∧
      ∀ i ∈ is, ∀ pid,
        s.m_generatedFaceEdgesMap
          ([f.p1, f.p2, f.p3].getD ((i + 1) % 3) 0, [f.p1, f.p2, f.p3].getD i 0) =
            some (pid, true) →
        (used pid).isSome = true ∨
          almostEqual K (s.m_generatedFaces.getD pid default).normal f.normal = false) := by
  induction is with
  | nil => right; simp [findPairLoop]
  | cons i rest ih =>
    simp only [findPairLoop, List.length_cons, List.length_nil, Nat.zero_add,
      Nat.reduceAdd]
    cases hl : s.m_generatedFaceEdgesMap
        ([f.p1, f.p2, f.p3].getD ((i + 1) % 3) 0, [f.p1, f.p2, f.p3].getD i 0) with
    | none =>
      simp only
      rcases ih with h | ⟨h1, h2, h3⟩
      · left; exact h
      · right
        refine ⟨h1, h2, ?_⟩
        intro i' hi' pid hp
        rcases List.mem_cons.1 hi' with rfl | hi'
        · rw [hl] at hp; exact Option.noConfusion hp
        · exact h3 i' hi' pid hp
    | some v =>
      obtain ⟨pid, flag⟩ := v
      cases flag with
      | false =>
        simp only
        rcases ih with h | ⟨h1, h2, h3⟩
        · left; exact h
        · right
          refine ⟨h1, h2, ?_⟩
          intro i' hi' pid' hp
          rcases List.mem_cons.1 hi' with rfl | hi'
          · rw [hl] at hp
            simp at hp
          · exact h3 i' hi' pid' hp
      | true =>
        simp only
        by_cases hu : (used pid).isSome = true
        · rw [if_pos hu]
          rcases ih with h | ⟨h1, h2, h3⟩
          · left; exact h
          · right
            refine ⟨h1, h2, ?_⟩
            intro i' hi' pid' hp
            rcases List.mem_cons.1 hi' with rfl | hi'
            · rw [hl] at hp
              simp only [Option.some.injEq, Prod.mk.injEq, and_true] at hp
              rw [← hp]; left; exact hu
            · exact h3 i' hi' pid' hp
        · rw [if_neg hu]
          by_cases ha : almostEqual K (s.m_generatedFaces.getD pid default).normal f.normal
              = false
          · rw [if_pos ha]
            rcases ih with h | ⟨h1, h2, h3⟩
            · left; exact h
            · right
              refine ⟨h1, h2, ?_⟩
              intro i' hi' pid' hp
              rcases List.mem_cons.1 hi' with rfl | hi'
              · rw [hl] at hp
                simp only [Option.some.injEq, Prod.mk.injEq, and_true] at hp
                rw [← hp]; right; exact ha
              · exact h3 i' hi' pid' hp
          · rw [if_neg ha]
            left
            exact ⟨rfl, by simpa using hu, ⟨_, hl⟩, ⟨_, List.nil_append _⟩⟩

theorem findPairFace3_acc (K : Vector3Kernel V R) (s : HoleWrapper V) (f : Face3 V)
    (used : Nat → Option Bool) (q : List Face4) :
    findPairFace3 K s f used q =
      ((findPairFace3 K s f used []).1, q ++ (findPairFace3 K s f used []).2) :=
  findPairLoop_acc K s f used q (List.range 3)

theorem findPairFace3_spec (K : Vector3Kernel V R) (s : HoleWrapper V) (f : Face3 V)
    (used : Nat → Option Bool) :
    ((findPairFace3 K s f used []).1.2 = true ∧
      (used (findPairFace3 K s f used []).1.1).isSome = false ∧
      (∃ key, s.m_generatedFaceEdgesMap key = some ((findPairFace3 K s f used []).1.1, true)) ∧
      ∃ quad, (findPairFace3 K s f used []).2 = [quad]) ∨
    ((findPairFace3 K s f used []).1.2 = false ∧
      (findPairFace3 K s f used []).2 = [] ∧
      ∀ e ∈ faceEdges f, ∀ pid, s.m_generatedFaceEdgesMap (e.2, e.1) = some (pid, true) →
        (used pid).isSome = true ∨
          almostEqual K (s.m_generatedFaces.getD pid default).normal f.normal = false) := by
  rcases findPairLoop_spec K s f used (List.range 3) with h | ⟨h1, h2, h3⟩
  · left; exact h
  · right
    refine ⟨h1, h2, ?_⟩
    intro e he pid hp
    simp only [faceEdges, List.mem_cons, List.not_mem_nil, or_false] at he
    rcases he with he | he | he
    · exact h3 0 (by simp [List.range_succ]) pid (by rw [he] at hp; simpa using hp)
    · exact h3 1 (by simp [List.range_succ]) pid (by rw [he] at hp; simpa using hp)
    · exact h3 2 (by simp [List.range_succ]) pid (by rw [he] at hp; simpa using hp)

/-- The first loop of `finalize` writes one triangle for every unmerged entry
of its trace and one quad for every merged entry. -/
theorem finalizeLoop_trace (K : Vector3Kernel V R) (s : HoleWrapper V) (fs : List (Face3 V))
    (st : FinalizeState) :
    (finalizeLoop K s fs st).triangles =
      st.triangles ++ (singlesOf (mergeTrace K s fs st.usedIds)).map (triTags s) ∧
    ∃ qs : List Face4, (finalizeLoop K s fs st).quads = st.quads ++ qs ∧
      qs.length = (pairsOf (mergeTrace K s fs st.usedIds)).length := by
  induction fs generalizing st with
  | nil => exact ⟨by simp [finalizeLoop, mergeTrace, singlesOf], [], by simp [finalizeLoop],
      by simp [mergeTrace, pairsOf]⟩
  | cons f rest ih =>
    simp only [finalizeLoop, mergeTrace]
    by_cases hu : (st.usedIds f.index).isSome = true
    · rw [if_pos hu, if_pos hu]
      exact ih st
    · rw [if_neg hu, if_neg hu]
      rw [findPairFace3_acc K s f _ st.quads]
      simp only
      rcases findPairFace3_spec K s f (mapInsert st.usedIds f.index true) with
        ⟨h1, _, _, quad, h4⟩ | ⟨h1, h2, _⟩
      · rw [if_pos h1, if_pos h1]
        obtain ⟨a, qs, b, c⟩ := ih
          { quads := st.quads ++ (findPairFace3 K s f (mapInsert st.usedIds f.index true) []).2,
            usedIds := mapInsert (mapInsert st.usedIds f.index true)
              (findPairFace3 K s f (mapInsert st.usedIds f.index true) []).1.1 true,
            triangles := st.triangles }
        refine ⟨?_, quad :: qs, ?_, ?_⟩
        · rw [a]; simp [singlesOf]
        · rw [b, h4]; simp
        · simp only [List.length_cons, c, pairsOf, List.filterMap_cons, Option.map_some']
      · have h1' : ¬ (findPairFace3 K s f (mapInsert st.usedIds f.index true) []).1.2 = true := by
          rw [h1]; simp
        rw [if_neg h1', if_neg h1']
        obtain ⟨a, qs, b, c⟩ := ih
          { quads := st.quads ++ (findPairFace3 K s f (mapInsert st.usedIds f.index true) []).2,
            usedIds := mapInsert st.usedIds f.index true,
            triangles := st.triangles ++ [[(sourceVertex s f.p1).tag, (sourceVertex s f.p2).tag,
              (sourceVertex s f.p3).tag]] }
        refine ⟨?_, qs, ?_, ?_⟩
        · rw [a]; simp [singlesOf, triTags]
        · rw [b, h2]; simp
        · simp only [c, pairsOf, List.filterMap_cons, Option.map_none']

theorem filter_perm_cons (l : List Nat) (p : Nat → Bool) (j : Nat) (hn : l.Nodup)
    (hj : j ∈ l) (hp : p j = true) :
    (l.filter p).Perm (j :: l.filter (fun x => p x && !decide (x = j))) := by
  induction l with
  | nil => simp at hj
  | cons x xs ih =>
    have hn' := (List.nodup_cons.1 hn).2
    have hx := (List.nodup_cons.1 hn).1
    by_cases hxj : x = j
    · subst hxj
      have e : xs.filter (fun y => p y && !decide (y = x)) = xs.filter p := by
        apply List.filter_congr
        intro y hy
        have : y ≠ x := fun e => hx (e ▸ hy)
        simp [this]
      simp [List.filter_cons, hp, e]
    · have hj' : j ∈ xs := by
        rcases List.mem_cons.1 hj with h | h
        · exact absurd h.symm hxj
        · exact h
      have := ih hn' hj'
      by_cases hpx : p x = true
      · simp only [List.filter_cons, hpx, if_true, Bool.true_and, decide_eq_true_eq, hxj,
          not_false_eq_true]
        exact (List.Perm.cons x this).trans (List.Perm.swap j x _)
      · simp only [List.filter_cons, hpx, Bool.false_and, if_false]
        simpa using this

theorem mapInsert_isNone (m : Nat → Option Bool) (k x : Nat) :
    (mapInsert m k true x).isNone = ((m x).isNone && !decide (x = k)) := by
  by_cases h : x = k
  · subst h
    have := mapInsert_self_isSome m x true
    cases hh : mapInsert m x true x with
    | none => rw [hh] at this; exact Bool.noConfusion this
    | some w => simp
  · rw [mapInsert_of_ne _ _ _ _ h]
    simp [h]

/-- Every triangle that is unused when the loop starts on `fs` is accounted
for exactly once by the trace, as a visited triangle or as a partner. -/
theorem mergeTrace_accounts (K : Vector3Kernel V R) (s : HoleWrapper V) (fs : List (Face3 V))
    (used : Nat → Option Bool) (hn : (fs.map (fun f => f.index)).Nodup)
    (hahead : ∀ key j, s.m_generatedFaceEdgesMap key = some (j, true) →
      (used j).isSome = true ∨ j ∈ fs.map (fun f => f.index)) :
    (accounted (mergeTrace K s fs used)).Perm
      ((fs.map (fun f => f.index)).filter (fun i => (used i).isNone)) := by
  induction fs generalizing used with
  | nil => simp [mergeTrace, accounted]
  | cons f rest ih =>
    rw [List.map_cons] at hn
    have hn' := (List.nodup_cons.1 hn).2
    have hf : f.index ∉ rest.map (fun f => f.index) := (List.nodup_cons.1 hn).1
    simp only [mergeTrace, List.map_cons]
    by_cases hu : (used f.index).isSome = true
    · rw [if_pos hu]
      have hnone : (used f.index).isNone = false := by
        cases h : used f.index with
        | none => rw [h] at hu; exact Bool.noConfusion hu
        | some w => rfl
      simp only [List.filter_cons, hnone, Bool.false_eq_true, if_false]
      apply ih used hn'
      intro key j hk
      rcases hahead key j hk with h | h
      · left; exact h
      · rcases List.mem_cons.1 h with h | h
        · left; rw [h]; exact hu
        · right; exact h
    · rw [if_neg hu]
      have hnone : (used f.index).isNone = true := by
        cases h : used f.index with
        | none => rfl
        | some w => rw [h] at hu; exact absurd rfl hu
      simp only [List.filter_cons, hnone, if_true]
      have hrest1 : (rest.map (fun f => f.index)).filter
          (fun i => (mapInsert used f.index true i).isNone) =
          (rest.map (fun f => f.index)).filter (fun i => (used i).isNone) := by
        apply List.filter_congr
        intro y hy
        rw [mapInsert_isNone]
        have : y ≠ f.index := fun e => hf (e ▸ hy)
        simp [this]
      rcases findPairFace3_spec K s f (mapInsert used f.index true) with
        ⟨h1, h2, ⟨key, h3⟩, _⟩ | ⟨h1, _, _⟩
      · rw [if_pos h1]
        have hjne : (findPairFace3 K s f (mapInsert used f.index true) []).1.1 ≠ f.index := by
          intro e
          rw [e, mapInsert_self_isSome] at h2
          exact Bool.noConfusion h2
        have hjnone : (used (findPairFace3 K s f (mapInsert used f.index true) []).1.1).isNone
            = true := by
          have := mapInsert_isNone used f.index
            (findPairFace3 K s f (mapInsert used f.index true) []).1.1
          have h2' : (mapInsert used f.index true
              (findPairFace3 K s f (mapInsert used f.index true) []).1.1).isNone = true := by
            cases hh : mapInsert used f.index true
                (findPairFace3 K s f (mapInsert used f.index true) []).1.1 with
            | none => rfl
            | some w => rw [hh] at h2; exact Bool.noConfusion h2
          rw [h2'] at this
          simpa [hjne] using this.symm
        have hjmem : (findPairFace3 K s f (mapInsert used f.index true) []).1.1 ∈
            rest.map (fun f => f.index) := by
          rcases hahead key _ h3 with h | h
          · cases hh : used (findPairFace3 K s f (mapInsert used f.index true) []).1.1 with
            | none => rw [hh] at h; exact Bool.noConfusion h
            | some w => rw [hh] at hjnone; exact Bool.noConfusion hjnone
          · rcases List.mem_cons.1 h with h | h
            · exact absurd h hjne
            · exact h
        have hih := ih (mapInsert (mapInsert used f.index true)
          (findPairFace3 K s f (mapInsert used f.index true) []).1.1 true) hn' (by
            intro key' j hk
            rcases hahead key' j hk with h | h
            · left
              exact mapLedger_isSome_mono _ _ _ _ (mapLedger_isSome_mono _ _ _ _ h)
            · rcases List.mem_cons.1 h with h | h
              · left
                rw [h]
                exact mapLedger_isSome_mono _ _ _ _ (mapInsert_self_isSome _ _ _)
              · right; exact h)
        have hrest2 : (rest.map (fun f => f.index)).filter
            (fun i => (mapInsert (mapInsert used f.index true)
              (findPairFace3 K s f (mapInsert used f.index true) []).1.1 true i).isNone) =
            (rest.map (fun f => f.index)).filter (fun x => (used x).isNone &&
              !decide (x = (findPairFace3 K s f (mapInsert used f.index true) []).1.1)) := by
          apply List.filter_congr
          intro y hy
          rw [mapInsert_isNone, mapInsert_isNone]
          have : y ≠ f.index := fun e => hf (e ▸ hy)
          simp [this]
        rw [hrest2] at hih
        have hp := filter_perm_cons (rest.map (fun f => f.index)) (fun i => (used i).isNone)
          _ hn' hjmem hjnone
        unfold accounted
        simp only [List.map_cons, List.filterMap_cons, List.cons_append]
        refine List.Perm.cons _ ?_
        refine List.perm_middle.trans ?_
        exact (List.Perm.cons _ hih).trans hp.symm
      · have h1' : ¬ (findPairFace3 K s f (mapInsert used f.index true) []).1.2 = true := by
          rw [h1]; simp
        rw [if_neg h1']
        have hih := ih (mapInsert used f.index true) hn' (by
          intro key' j hk
          rcases hahead key' j hk with h | h
          · left; exact mapLedger_isSome_mono _ _ _ _ h
          · rcases List.mem_cons.1 h with h | h
            · left; rw [h]; exact mapInsert_self_isSome _ _ _
            · right; exact h)
        rw [hrest1] at hih
        unfold accounted
        simp only [List.map_cons, List.filterMap_cons, List.cons_append]
        exact List.Perm.cons _ hih

theorem trace_lengths (tr : List (Face3 V × Option Nat)) :
    tr.length = (singlesOf tr).length + (pairsOf tr).length ∧
    (tr.filterMap (fun e => e.2)).length = (pairsOf tr).length := by
  induction tr with
  | nil => simp [singlesOf, pairsOf]
  | cons e rest ih =>
    obtain ⟨f, o⟩ := e
    cases o with
    | none =>
      simp only [singlesOf, pairsOf, List.filter_cons, Option.isNone_none, if_true,
        List.map_cons, List.length_cons, List.filterMap_cons, Option.map_none'] at ih ⊢
      omega
    | some j =>
      simp only [singlesOf, pairsOf, List.filter_cons, Option.isNone_some, Bool.false_eq_true,
        if_false, List.length_cons, List.filterMap_cons, Option.map_some'] at ih ⊢
      omega

theorem faces_index_range (s : HoleWrapper V) (h : GenOk s) :
    s.m_generatedFaces.map (fun f => f.index) = List.range s.m_generatedFaces.length := by
  apply List.ext_getElem
  · simp
  · intro i h1 h2
    simp only [List.getElem_map, List.getElem_range]
    have := h.face_index i (by simpa using h1)
    rw [List.getD_eq_getElem _ _ (by simpa using h1)] at this
    exact this

theorem run_newly (K : Vector3Kernel V R) (positions : List V) (loops : List (List Nat × V)) :
    newlyGeneratedFaces (run K positions loops) =
      (finalizeLoop K (generated K positions loops) (generated K positions loops).m_generatedFaces
        { quads := [], usedIds := fun _ => none, triangles := [] }).triangles ++
      (finalizeLoop K (generated K positions loops) (generated K positions loops).m_generatedFaces
        { quads := [], usedIds := fun _ => none, triangles := [] }).quads.map
          (quadTags (generated K positions loops)) := by
  have h : (generated K positions loops).m_newlyGeneratedfaces = [] := by
    unfold generated
    rw [generate_newly, registered_newly]
  unfold newlyGeneratedFaces
  rw [run_eq]
  show (finalize K (generated K positions loops)).m_newlyGeneratedfaces = _
  unfold finalize
  simp only [h, List.nil_append]
  rfl

theorem countP_length_map_tri (s : HoleWrapper V) (l : List (Face3 V)) :
    ((l.map (triTags s)).countP (fun f => decide (f.length = 3))) = l.length ∧
    ((l.map (triTags s)).countP (fun f => decide (f.length = 4))) = 0 := by
  induction l with
  | nil => simp
  | cons f rest ih => simp [List.countP_cons, triTags, ih.1, ih.2]

theorem countP_length_map_quad (s : HoleWrapper V) (l : List Face4) :
    ((l.map (quadTags s)).countP (fun f => decide (f.length = 3))) = 0 ∧
    ((l.map (quadTags s)).countP (fun f => decide (f.length = 4))) = l.length := by
  induction l with
  | nil => simp
  | cons f rest ih => simp [List.countP_cons, quadTags, ih.1, ih.2]

/-- C7. `finalize` accounts for each generated triangle exactly once: the
indices of the triangles it emits unchanged together with the two indices of
every merged pair are a permutation of all triangle indices; the output is
one 3-tag face per unmerged triangle followed by one 4-tag face per merged
pair.  Hence every face has 3 or 4 entries and the number of 3-tag faces
plus twice the number of 4-tag faces is the number of generated triangles. -/
theorem finalize_accounts_each_triangle_once (K : Vector3Kernel V R) (positions : List V)
    (loops : List (List Nat × V)) :
    (accounted (mergeTrace K (generated K positions loops)
        (generated K positions loops).m_generatedFaces (fun _ => none))).Perm
      (List.range (generated K positions loops).m_generatedFaces.length) ∧
    (∃ quads : List (List Nat),
      newlyGeneratedFaces (run K positions loops) =
        (singlesOf (mergeTrace K (generated K positions loops)
          (generated K positions loops).m_generatedFaces (fun _ => none))).map
            (triTags (generated K positions loops)) ++ quads ∧
      quads.length = (pairsOf (mergeTrace K (generated K positions loops)
          (generated K positions loops).m_generatedFaces (fun _ => none))).length ∧
      ∀ q ∈ quads, q.length = 4) ∧
    (∀ f ∈ newlyGeneratedFaces (run K positions loops), f.length = 3 ∨ f.length = 4) ∧
    (newlyGeneratedFaces (run K positions loops)).countP (fun f => decide (f.length = 3)) +
      2 * (newlyGeneratedFaces (run K positions loops)).countP (fun f => decide (f.length = 4)) =
      (generated K positions loops).m_generatedFaces.length := by
  have hg : GenOk (generated K positions loops) := run_genOk_fields K positions loops
  obtain ⟨htri, qs, hq, hqlen⟩ := finalizeLoop_trace K (generated K positions loops)
    (generated K positions loops).m_generatedFaces
    { quads := [], usedIds := fun _ => none, triangles := [] }
  simp only [List.nil_append] at htri hq hqlen
  have hperm : (accounted (mergeTrace K (generated K positions loops)
        (generated K positions loops).m_generatedFaces (fun _ => none))).Perm
      (List.range (generated K positions loops).m_generatedFaces.length) := by
    have := mergeTrace_accounts K (generated K positions loops)
      (generated K positions loops).m_generatedFaces (fun _ => none)
      (by rw [faces_index_range _ hg]; exact List.nodup_range _)
      (by
        intro key j hk
        right
        rw [faces_index_range _ hg]
        exact List.mem_range.2 (hg.flag_lt key j hk))
    rw [faces_index_range _ hg] at this
    simpa using this
  have hnew := run_newly K positions loops
  rw [htri, hq] at hnew
  obtain ⟨hl1, hl2⟩ := trace_lengths (mergeTrace K (generated K positions loops)
    (generated K positions loops).m_generatedFaces (fun _ => none))
  have hlen := hperm.length_eq
  unfold accounted at hlen
  rw [List.length_append, List.length_map, List.length_range] at hlen
  refine ⟨hperm, ⟨qs.map (quadTags (generated K positions loops)), hnew, ?_, ?_⟩, ?_, ?_⟩
  · rw [List.length_map, hqlen]
  · intro q hqm
    obtain ⟨f4, _, e⟩ := List.mem_map.1 hqm
    rw [← e]; rfl
  · intro f hf
    rw [hnew, List.mem_append] at hf
    rcases hf with hf | hf
    · obtain ⟨f3, _, e⟩ := List.mem_map.1 hf
      left; rw [← e]; rfl
    · obtain ⟨f4, _, e⟩ := List.mem_map.1 hf
      right; rw [← e]; rfl
  · rw [hnew, List.countP_append, List.countP_append,
      (countP_length_map_tri _ _).1, (countP_length_map_tri _ _).2,
      (countP_length_map_quad _ _).1, (countP_length_map_quad _ _).2]
    omega

theorem mergeTrace_mem (K : Vector3Kernel V R) (s : HoleWrapper V) (fs : List (Face3 V))
    (used : Nat → Option Bool) (f : Face3 V) (o : Option Nat)
    (h : (f, o) ∈ mergeTrace K s fs used) : f ∈ fs ∧ (used f.index).isSome = false := by
  induction fs generalizing used with
  | nil => simp [mergeTrace] at h
  | cons x rest ih =>
    simp only [mergeTrace] at h
    by_cases hu : (used x.index).isSome = true
    · rw [if_pos hu] at h
      exact ⟨List.mem_cons_of_mem _ (ih used h).1, (ih used h).2⟩
    · rw [if_neg hu] at h
      have hux : (used x.index).isSome = false := by simpa using hu
      have key : ∀ used', (∀ i, (used i).isSome = true → (used' i).isSome = true) →
          (f, o) ∈ mergeTrace K s rest used' → f ∈ x :: rest ∧ (used f.index).isSome = false := by
        intro used' hsub hm
        refine ⟨List.mem_cons_of_mem _ (ih used' hm).1, ?_⟩
        cases hc : (used f.index).isSome with
        | false => rfl
        | true =>
          have := hsub _ hc
          rw [(ih used' hm).2] at this
          exact Bool.noConfusion this
      split_ifs at h with hp
      · rcases List.mem_cons.1 h with h | h
        · have : f = x := congrArg Prod.fst h
          rw [this]
          exact ⟨List.mem_cons_self _ _, hux⟩
        · exact key _ (fun i hi => mapLedger_isSome_mono _ _ _ _
            (mapLedger_isSome_mono _ _ _ _ hi)) h
      · rcases List.mem_cons.1 h with h | h
        · have : f = x := congrArg Prod.fst h
          rw [this]
          exact ⟨List.mem_cons_self _ _, hux⟩
        · exact key _ (fun i hi => mapLedger_isSome_mono _ _ _ _ hi) h

/-- Two triangles that the loop both emits unchanged are not mergeable: if
the ledger names the later one `g` under the reverse of an edge of the
earlier one `f`, their normals are not almost equal. -/
theorem mergeTrace_no_mergeable_singles (K : Vector3Kernel V R) (s : HoleWrapper V)
    (fs : List (Face3 V)) (used : Nat → Option Bool)
    (hsorted : (fs.map (fun f => f.index)).Sorted (· < ·))
    (f g : Face3 V) (hf : (f, none) ∈ mergeTrace K s fs used)
    (hg : (g, none) ∈ mergeTrace K s fs used) (hlt : f.index < g.index)
    (e : WrapItemKey) (he : e ∈ faceEdges f)
    (hledger : s.m_generatedFaceEdgesMap (e.2, e.1) = some (g.index, true))
    (hface : s.m_generatedFaces.getD g.index default = g)
    (hnorm : almostEqual K g.normal f.normal = true) : False := by
  induction fs generalizing used with
  | nil => simp [mergeTrace] at hf
  | cons x rest ih =>
    rw [List.map_cons] at hsorted
    have hs' := List.Sorted.of_cons hsorted
    have hx := List.rel_of_sorted_cons hsorted
    simp only [mergeTrace] at hf hg
    by_cases hu : (used x.index).isSome = true
    · rw [if_pos hu] at hf hg
      exact ih used hs' hf hg
    · rw [if_neg hu] at hf hg
      rcases findPairFace3_spec K s x (mapInsert used x.index true) with
        ⟨h1, _, _, _⟩ | ⟨h1, _, h3⟩
      · rw [if_pos h1] at hf hg
        rcases List.mem_cons.1 hf with hf | hf
        · have := congrArg Prod.snd hf
          simp at this
        · rcases List.mem_cons.1 hg with hg | hg
          · have := congrArg Prod.snd hg
            simp at this
          · exact ih _ hs' hf hg
      · have h1' : ¬ (findPairFace3 K s x (mapInsert used x.index true) []).1.2 = true := by
          rw [h1]; simp
        rw [if_neg h1'] at hf hg
        rcases List.mem_cons.1 hf with hf | hf
        · have hfx : f = x := congrArg Prod.fst hf
          rcases List.mem_cons.1 hg with hg | hg
          · have hgx : g = x := congrArg Prod.fst hg
            rw [hfx, hgx] at hlt
            exact Nat.lt_irrefl _ hlt
          · subst hfx
            rcases h3 e he g.index hledger with hused | ha
            · rw [(mergeTrace_mem K s rest _ g none hg).2] at hused
              exact Bool.noConfusion hused
            · rw [hface, hnorm] at ha
              exact Bool.noConfusion ha
        · rcases List.mem_cons.1 hg with hg | hg
          · have hgx : g = x := congrArg Prod.fst hg
            have hfm := (mergeTrace_mem K s rest _ f none hf).1
            have := hx f.index (List.mem_map.2 ⟨f, hfm, rfl⟩)
            rw [hgx] at hlt
            omega
          · exact ih _ hs' hf hg

theorem face_lookup (s : HoleWrapper V) (h : GenOk s) (f : Face3 V)
    (hf : f ∈ s.m_generatedFaces) :
    f.index < s.m_generatedFaces.length ∧ s.m_generatedFaces.getD f.index default = f := by
  obtain ⟨i, hi, e⟩ := List.getElem_of_mem hf
  have := h.face_index i hi
  rw [List.getD_eq_getElem _ _ hi, e] at this
  rw [this]
  exact ⟨hi, by rw [List.getD_eq_getElem _ _ hi, e]⟩

theorem mem_singlesOf (tr : List (Face3 V × Option Nat)) (f : Face3 V) :
    f ∈ singlesOf tr ↔ (f, none) ∈ tr := by
  unfold singlesOf
  simp only [List.mem_map, List.mem_filter]
  constructor
  · rintro ⟨⟨f', o⟩, ⟨hm, ho⟩, e⟩
    cases o with
    | none => simp only at e; rw [← e]; exact hm
    | some j => simp at ho
  · intro h
    exact ⟨(f, none), ⟨h, rfl⟩, rfl⟩

/-- A generated triangle is emitted unchanged or is one of a merged pair. -/
theorem single_or_merged (K : Vector3Kernel V R) (s : HoleWrapper V) (h : GenOk s)
    (f : Face3 V) (hf : f ∈ s.m_generatedFaces) :
    f ∈ singlesOf (mergeTrace K s s.m_generatedFaces (fun _ => none)) ∨
    f.index ∈ mergedIndices (mergeTrace K s s.m_generatedFaces (fun _ => none)) := by
  have hperm := mergeTrace_accounts K s s.m_generatedFaces (fun _ => none)
    (by rw [faces_index_range _ h]; exact List.nodup_range _)
    (by
      intro key j hk
      right
      rw [faces_index_range _ h]
      exact List.mem_range.2 (h.flag_lt key j hk))
  have hmem : f.index ∈ accounted (mergeTrace K s s.m_generatedFaces (fun _ => none)) := by
    rw [hperm.mem_iff]
    simp only [Option.isNone_none, List.filter_true]
    exact List.mem_map.2 ⟨f, hf, rfl⟩
  unfold accounted at hmem
  rcases List.mem_append.1 hmem with hm | hm
  · obtain ⟨⟨f', o⟩, he, hidx⟩ := List.mem_map.1 hm
    simp only at hidx
    have hf' := (mergeTrace_mem K s _ _ f' o he).1
    have e1 := (face_lookup s h f' hf').2
    have e2 := (face_lookup s h f hf).2
    rw [hidx, e2] at e1
    subst e1
    cases o with
    | none => left; exact (mem_singlesOf _ _).2 he
    | some j =>
      right
      unfold mergedIndices
      refine List.mem_append.2 (Or.inl (List.mem_map.2 ⟨(f.index, j), ?_, rfl⟩))
      unfold pairsOf
      exact List.mem_filterMap.2 ⟨(f, some j), he, rfl⟩
  · obtain ⟨⟨f', o⟩, he, ho⟩ := List.mem_filterMap.1 hm
    simp only at ho
    right
    unfold mergedIndices
    refine List.mem_append.2 (Or.inr (List.mem_map.2 ⟨(f'.index, f.index), ?_, rfl⟩))
    unfold pairsOf
    exact List.mem_filterMap.2 ⟨(f', o), he, by rw [ho]; rfl⟩

/-- Two different generated triangles `T1` and `T2` that share an edge in
opposite directions and pass the test `almostEqual` are never both left as
single triangles by the first loop of `finalize`: one of them is in a merged
pair. -/
theorem mergeable_pair_not_both_single (K : Vector3Kernel V R) (positions : List V)
    (loops : List (List Nat × V)) (T1 T2 : Face3 V) (a b : Nat)
    (h1 : T1 ∈ (generated K positions loops).m_generatedFaces)
    (h2 : T2 ∈ (generated K positions loops).m_generatedFaces)
    (hne : T1.index ≠ T2.index)
    (hab : (a, b) ∈ faceEdges T1) (hba : (b, a) ∈ faceEdges T2)
    (hn12 : almostEqual K T1.normal T2.normal = true)
    (hn21 : almostEqual K T2.normal T1.normal = true) :
    ¬ (T1 ∈ singlesOf (mergeTrace K (generated K positions loops)
          (generated K positions loops).m_generatedFaces (fun _ => none)) ∧
        T2 ∈ singlesOf (mergeTrace K (generated K positions loops)
          (generated K positions loops).m_generatedFaces (fun _ => none))) ∧
    (T1.index ∈ mergedIndices (mergeTrace K (generated K positions loops)
          (generated K positions loops).m_generatedFaces (fun _ => none)) ∨
      T2.index ∈ mergedIndices (mergeTrace K (generated K positions loops)
          (generated K positions loops).m_generatedFaces (fun _ => none))) := by
  have hg : GenOk (generated K positions loops) := run_genOk_fields K positions loops
  have hsorted : ((generated K positions loops).m_generatedFaces.map
      (fun f => f.index)).Sorted (· < ·) := by
    rw [faces_index_range _ hg]
    exact List.sorted_lt_range _
  obtain ⟨l1, e1⟩ := face_lookup _ hg T1 h1
  obtain ⟨l2, e2⟩ := face_lookup _ hg T2 h2
  have hnot : ¬ (T1 ∈ singlesOf (mergeTrace K (generated K positions loops)
          (generated K positions loops).m_generatedFaces (fun _ => none)) ∧
        T2 ∈ singlesOf (mergeTrace K (generated K positions loops)
          (generated K positions loops).m_generatedFaces (fun _ => none))) := by
    rintro ⟨s1, s2⟩
    rw [mem_singlesOf] at s1 s2
    rcases Nat.lt_or_gt_of_ne hne with hlt | hlt
    · have hl := hg.face_later T1.index T2.index hlt l2 (b, a) (by rw [e2]; exact hba)
        (by rw [e1]; exact hab)
      exact mergeTrace_no_mergeable_singles K _ _ _ hsorted T1 T2 s1 s2 hlt (a, b) hab hl e2 hn21
    · have hl := hg.face_later T2.index T1.index hlt l1 (a, b) (by rw [e1]; exact hab)
        (by rw [e2]; exact hba)
      exact mergeTrace_no_mergeable_singles K _ _ _ hsorted T2 T1 s2 s1 hlt (b, a) hba hl e1 hn12
  refine ⟨hnot, ?_⟩
  rcases single_or_merged K _ hg T1 h1 with s1 | m1
  · rcases single_or_merged K _ hg T2 h2 with s2 | m2
    · exact absurd ⟨s1, s2⟩ hnot
    · right; exact m2
  · left; exact m1

/-! ## The order in which the front is scanned -/

theorem emitFace_front (K : Vector3Kernel V R) (s : HoleWrapper V) (i p1 p2 p3 : Nat) :
    (emitFace K s i p1 p2 p3).m_items = (emitFront K s i p1 p2 p3).m_items ∧
    (emitFace K s i p1 p2 p3).m_itemsMap = (emitFront K s i p1 p2 p3).m_itemsMap ∧
    (emitFace K s i p1 p2 p3).m_itemsList = (emitFront K s i p1 p2 p3).m_itemsList :=
  ⟨rfl, rfl, rfl⟩

theorem addItem_listOk (s : HoleWrapper V) (a b : Nat) (n : V) (h : ListOk s) :
    ListOk (addItem s a b n) := by
  rcases addItem_cases s a b n with e | ⟨_, _, _, e⟩
  · rw [e]; exact h
  · rw [e]
    unfold ListOk at h ⊢
    simp only [List.length_append, List.length_singleton, List.range_succ, List.reverse_append,
      List.reverse_cons, List.reverse_nil, List.nil_append, List.singleton_append, h]

theorem ListOk.carry {s t : HoleWrapper V} (h : ListOk s) (h1 : t.m_itemsList = s.m_itemsList)
    (h2 : t.m_items.length = s.m_items.length) : ListOk t := by
  unfold ListOk at h ⊢
  rw [h1, h2, h]

theorem emitFace_listOk (K : Vector3Kernel V R) (s : HoleWrapper V) (i p1 p2 p3 : Nat)
    (h : ListOk s) : ListOk (emitFace K s i p1 p2 p3) := by
  refine ListOk.carry (s := emitFront K s i p1 p2 p3) ?_ rfl rfl
  unfold emitFront
  exact addItem_listOk _ _ _ _ (addItem_listOk _ _ _ _
    (h.carry rfl (by simp)))

theorem generateBody_listOk (K : Vector3Kernel V R) (s : HoleWrapper V) (i : Nat)
    (h : ListOk s) : ListOk (generateBody K s i) := by
  have hm : ListOk (markProcessed s i) := h.carry rfl (by simp [markProcessed])
  have hp : ListOk (prune (markProcessed s i)) := hm.carry rfl rfl
  rcases generateBody_cases K s i with ⟨_, e⟩ | ⟨_, e⟩ | ⟨_, p3, _, _, e⟩
  · rw [e]; exact hm
  · rw [e]; exact hp
  · rw [e]; exact emitFace_listOk K _ _ _ _ _ hp

theorem loops_split (loops : List (List Nat × V)) :
    (∀ l ∈ loops, l.1 = []) ∨
    ∃ pre tags normal rest, loops = pre ++ (tags, normal) :: rest ∧
      (∀ l ∈ pre, l.1 = []) ∧ tags ≠ [] := by
  induction loops with
  | nil => left; simp
  | cons l rest ih =>
    by_cases hl : l.1 = []
    · rcases ih with h | ⟨pre, tags, normal, rest', e, hpre, ht⟩
      · left
        intro x hx
        rcases List.mem_cons.1 hx with rfl | hx
        · exact hl
        · exact h x hx
      · right
        refine ⟨l :: pre, tags, normal, rest', by rw [e]; rfl, ?_, ht⟩
        intro x hx
        rcases List.mem_cons.1 hx with rfl | hx
        · exact hl
        · exact hpre x hx
    · right
      exact ⟨[], l.1, l.2, rest, rfl, by simp, hl⟩

theorem registerLoops_all_empty (loops : List (List Nat × V)) (next : Nat) (s : HoleWrapper V)
    (h : ∀ l ∈ loops, l.1 = []) : registerLoops loops next s = s := by
  induction loops generalizing next with
  | nil => rfl
  | cons l rest ih =>
    rw [registerLoops_cons, h l (List.mem_cons_self _ _), addCandidateVertices_nil]
    exact ih (next + 1) (fun x hx => h x (List.mem_cons_of_mem _ hx))

theorem registered_listOk (positions : List V) (loops : List (List Nat × V)) :
    ListOk (registered positions loops) := by
  unfold ListOk
  rcases loops_split loops with h | ⟨pre, tags, normal, rest, e, hpre, ht⟩
  · unfold registered
    rw [registerLoops_all_empty loops 1 _ h]
    rfl
  · obtain ⟨it, h1, h2, _⟩ := registerLoops_seed pre tags normal rest 1
      (setVertices (fresh : HoleWrapper V) positions) (Nat.le_refl 1) (fresh_regOk positions)
      rfl hpre ht
    unfold registered
    rw [e, h1, h2]
    rfl

theorem generateFuel_listOk (K : Vector3Kernel V R) (fuel : Nat) (positions : List V)
    (loops : List (List Nat × V)) : ListOk (generateFuel K fuel (registered positions loops)) :=
  generateFuel_induction K ListOk (fun t ht _ => generateBody_listOk K t _ ht) fuel _
    (registered_listOk positions loops)

theorem find_reverse_range (p : Nat → Bool) (n i : Nat)
    (h : (List.range n).reverse.find? p = some i) :
    p i = true ∧ i < n ∧ ∀ j, i < j → j < n → p j = false := by
  induction n with
  | zero => simp at h
  | succ m ih =>
    rw [List.range_succ, List.reverse_append, List.reverse_singleton, List.singleton_append,
      List.find?_cons] at h
    cases hp : p m with
    | true =>
      rw [hp] at h
      simp only [Option.some.injEq] at h
      subst h
      exact ⟨hp, Nat.lt_succ_self _, fun j h1 h2 => by omega⟩
    | false =>
      rw [hp] at h
      obtain ⟨a, b, c⟩ := ih h
      refine ⟨a, by omega, ?_⟩
      intro j h1 h2
      by_cases hj : j = m
      · rw [hj]; exact hp
      · exact c j h1 (by omega)

/-- With the front list in push order, `peekItem` returns the unprocessed
item with the largest index, the one added last. -/
theorem peekItem_newest (s : HoleWrapper V) (h : ListOk s) (hp : (peekItem s).2 = true) :
    (item s (peekItem s).1).processed = false ∧ (peekItem s).1 < s.m_items.length ∧
    ∀ j, j < s.m_items.length → (item s j).processed = false → j ≤ (peekItem s).1 := by
  unfold peekItem at hp ⊢
  unfold ListOk at h
  cases hf : s.m_itemsList.find? (fun itemIndex => !(item s itemIndex).processed) with
  | none => rw [hf] at hp; exact Bool.noConfusion hp
  | some i =>
    simp only
    rw [h] at hf
    obtain ⟨a, b, c⟩ := find_reverse_range _ _ _ hf
    refine ⟨by simpa using a, b, ?_⟩
    intro j hj hu
    by_contra hlt
    have := c j (by omega) hj
    simp [hu] at this

/-- C11, as stated, fails: on the cone, after the first pass of `generate`
the items `1` and `2` are both unprocessed, and `peekItem` selects item `2`,
the one added last, not the oldest. -/
theorem peekItem_oldest_counterexample :
    peekItem (generateFuel exactKernel 1 (registered conePositions coneLoops)) = (2, true) ∧
    (item (generateFuel exactKernel 1 (registered conePositions coneLoops)) 1).processed = false ∧
    1 < (generateFuel exactKernel 1 (registered conePositions coneLoops)).m_items.length := by
  decide!

/-- C11, amended. In every iteration of `generate`, the item that `peekItem`
selects is the newest unprocessed item: among all items with
`processed = false` the one with the largest item index (`addItem` pushes to
the front of `m_itemsList` and `peekItem` scans from the front). -/
theorem peekItem_selects_newest (K : Vector3Kernel V R) (positions : List V)
    (loops : List (List Nat × V)) (fuel : Nat)
    (hp : (peekItem (generateFuel K fuel (registered positions loops))).2 = true) :
    (item (generateFuel K fuel (registered positions loops))
      (peekItem (generateFuel K fuel (registered positions loops))).1).processed = false ∧
    (peekItem (generateFuel K fuel (registered positions loops))).1 <
      (generateFuel K fuel (registered positions loops)).m_items.length ∧
    ∀ j, j < (generateFuel K fuel (registered positions loops)).m_items.length →
      (item (generateFuel K fuel (registered positions loops)) j).processed = false →
      j ≤ (peekItem (generateFuel K fuel (registered positions loops))).1 :=
  peekItem_newest _ (generateFuel_listOk K fuel positions loops) hp

/-- The amended C11 on the cone after the first pass. -/
theorem peekItem_selects_newest_witness :
    (peekItem (generateFuel exactKernel 1 (registered conePositions coneLoops))).2 = true ∧
    ((item (generateFuel exactKernel 1 (registered conePositions coneLoops))
      (peekItem (generateFuel exactKernel 1 (registered conePositions coneLoops))).1).processed
        = false ∧
    (peekItem (generateFuel exactKernel 1 (registered conePositions coneLoops))).1 <
      (generateFuel exactKernel 1 (registered conePositions coneLoops)).m_items.length ∧
    ∀ j, j < (generateFuel exactKernel 1 (registered conePositions coneLoops)).m_items.length →
      (item (generateFuel exactKernel 1 (registered conePositions coneLoops)) j).processed
        = false →
      j ≤ (peekItem (generateFuel exactKernel 1 (registered conePositions coneLoops))).1) :=
  ⟨by decide!, peekItem_selects_newest exactKernel conePositions coneLoops 1 (by decide!)⟩

/-! ## What one pass does to the items -/

theorem getD_set_self (l : List (WrapItem V)) (i : Nat) (w : WrapItem V) (hi : i < l.length) :
    (l.set i w).getD i default = w := by
  simp [List.getD_eq_getElem?_getD, List.getElem?_set, hi]

theorem getD_set_ne (l : List (WrapItem V)) (i j : Nat) (w : WrapItem V) (h : i ≠ j) :
    (l.set i w).getD j default = l.getD j default := by
  simp [List.getD_eq_getElem?_getD, List.getElem?_set, h]

theorem getD_append_lt (l extra : List (WrapItem V)) (j : Nat) (hj : j < l.length) :
    (l ++ extra).getD j default = l.getD j default := by
  simp [List.getD_eq_getElem?_getD, List.getElem?_append_left hj]

/-- The precise outcome of `addItem`: either one of its three guards fires and
nothing changes, or the item is appended. -/
theorem addItem_outcome (s : HoleWrapper V) (a b : Nat) (n : V) :
    (addItem s a b n = s ∧
      ((s.m_items ≠ [] ∧ (sourceVertex s a).sourcePlane = (sourceVertex s b).sourcePlane) ∨
        (s.m_itemsMap (a, b)).isSome = true ∨ (s.m_itemsMap (b, a)).isSome = true ∨
        (s.m_generatedFaceEdgesMap (a, b)).isSome = true ∨
        (s.m_generatedFaceEdgesMap (b, a)).isSome = true)) ∨
    (s.m_itemsMap (a, b) = none ∧ s.m_itemsMap (b, a) = none ∧
      s.m_generatedFaceEdgesMap (a, b) = none ∧ s.m_generatedFaceEdgesMap (b, a) = none ∧
      (s.m_items ≠ [] → (sourceVertex s a).sourcePlane ≠ (sourceVertex s b).sourcePlane) ∧
      addItem s a b n =
        { s with
          m_items := s.m_items ++
            [{ baseNormal := n, p1 := a, p2 := b, p3 := 0, processed := false }]
          m_itemsMap := mapInsert s.m_itemsMap (a, b) s.m_items.length
          m_itemsList := s.m_items.length :: s.m_itemsList }) := by
  unfold addItem
  split_ifs with h1 h2 h3
  · left
    refine ⟨rfl, Or.inl ⟨?_, h1.2⟩⟩
    intro he
    rw [he] at h1
    simp at h1
  · left
    refine ⟨rfl, Or.inr ?_⟩
    rcases h2 with h2 | h2
    · left
      unfold findItem at h2
      cases hm : s.m_itemsMap (a, b) with
      | none => rw [hm] at h2; simp at h2
      | some i => rfl
    · right; left
      unfold findItem at h2
      cases hm : s.m_itemsMap (b, a) with
      | none => rw [hm] at h2; simp at h2
      | some i => rfl
  · left
    refine ⟨rfl, Or.inr (Or.inr (Or.inr ?_))⟩
    exact h3
  · right
    refine ⟨?_, ?_, ?_, ?_, ?_, rfl⟩
    · cases h : s.m_itemsMap (a, b) with
      | none => rfl
      | some i => exact absurd (Or.inl (by simp [findItem, h])) h2
    · cases h : s.m_itemsMap (b, a) with
      | none => rfl
      | some i => exact absurd (Or.inr (by simp [findItem, h])) h2
    · cases h : s.m_generatedFaceEdgesMap (a, b) with
      | none => rfl
      | some i => exact absurd (Or.inl (by simp [isEdgeGenerated, h])) h3
    · cases h : s.m_generatedFaceEdgesMap (b, a) with
      | none => rfl
      | some i => exact absurd (Or.inr (by simp [isEdgeGenerated, h])) h3
    · intro he hp
      refine h1 ⟨?_, hp⟩
      cases hl : s.m_items with
      | nil => exact absurd hl he
      | cons x xs => rfl

/-- The items after `addItem`: unchanged, or one item appended. -/
theorem addItem_items_cases (s : HoleWrapper V) (a b : Nat) (n : V) :
    (addItem s a b n).m_items = s.m_items ∨
    (addItem s a b n).m_items = s.m_items ++
      [{ baseNormal := n, p1 := a, p2 := b, p3 := 0, processed := false }] := by
  rcases addItem_cases s a b n with e | ⟨_, _, _, e⟩
  · left; rw [e]
  · right; rw [e]

theorem addItem_twice_items (t : HoleWrapper V) (a b c d : Nat) (n : V) :
    ∃ extra : List (WrapItem V),
      (addItem (addItem t a b n) c d n).m_items = t.m_items ++ extra ∧
      extra.length ≤ 2 ∧ ∀ it ∈ extra, it.processed = false := by
  rcases addItem_items_cases (addItem t a b n) c d n with h2 | h2 <;>
  rcases addItem_items_cases t a b n with h1 | h1
  · exact ⟨[], by rw [h2, h1, List.append_nil], by simp, by simp⟩
  · exact ⟨[_], by rw [h2, h1], by simp, by simp⟩
  · exact ⟨[_], by rw [h2, h1], by simp, by simp⟩
  · exact ⟨[_, _], by rw [h2, h1, List.append_assoc]; rfl, by simp, by simp⟩

/-- The items after the two `addItem` calls of an emitting pass. -/
theorem emitFace_items_cases (K : Vector3Kernel V R) (s : HoleWrapper V) (i p1 p2 p3 : Nat) :
    ∃ extra : List (WrapItem V),
      (emitFace K s i p1 p2 p3).m_items =
        s.m_items.set i { item s i with p3 := p3 } ++ extra ∧
      extra.length ≤ 2 ∧ ∀ it ∈ extra, it.processed = false := by
  obtain ⟨e1, _, _⟩ := emitFace_front K s i p1 p2 p3
  rw [e1]
  unfold emitFront
  exact addItem_twice_items _ _ _ _ _ _

/-- One pass of the loop rewrites the selected item in place, keeping its edge
and normal and setting its flag, and appends at most two unprocessed items. -/
theorem generateBody_items (K : Vector3Kernel V R) (s : HoleWrapper V) (i : Nat)
    (hi : i < s.m_items.length) :
    ∃ (w : WrapItem V) (extra : List (WrapItem V)),
      (generateBody K s i).m_items = s.m_items.set i w ++ extra ∧
      w.p1 = (item s i).p1 ∧ w.p2 = (item s i).p2 ∧ w.baseNormal = (item s i).baseNormal ∧
      w.processed = true ∧ extra.length ≤ 2 ∧ ∀ it ∈ extra, it.processed = false := by
  rcases generateBody_cases K s i with ⟨_, e⟩ | ⟨_, e⟩ | ⟨_, p3, _, _, e⟩
  · exact ⟨{ item s i with processed := true }, [], by rw [e]; simp [markProcessed],
      rfl, rfl, rfl, rfl, by simp, by simp⟩
  · exact ⟨{ item s i with processed := true }, [], by rw [e]; simp [markProcessed, prune],
      rfl, rfl, rfl, rfl, by simp, by simp⟩
  · obtain ⟨extra, h1, h2, h3⟩ :=
      emitFace_items_cases K (prune (markProcessed s i)) i (item s i).p1 (item s i).p2 p3
    obtain ⟨q1, q2, q3⟩ := item_markProcessed s i i
    refine ⟨{ item (prune (markProcessed s i)) i with p3 := p3 }, extra, ?_,
      q1, q2, q3, item_markProcessed_processed s i hi, h2, h3⟩
    rw [e, h1]
    simp [prune, markProcessed, List.set_set]

theorem generateBody_items_length (K : Vector3Kernel V R) (s : HoleWrapper V) (i : Nat) :
    s.m_items.length ≤ (generateBody K s i).m_items.length ∧
    (generateBody K s i).m_items.length ≤ s.m_items.length + 2 := by
  rcases generateBody_cases K s i with ⟨_, e⟩ | ⟨_, e⟩ | ⟨_, p3, _, _, e⟩
  · rw [e]; simp [markProcessed]
  · rw [e]; simp [markProcessed, prune]
  · obtain ⟨extra, h1, h2, _⟩ :=
      emitFace_items_cases K (prune (markProcessed s i)) i (item s i).p1 (item s i).p2 p3
    rw [e, h1]
    simp [prune, markProcessed]
    omega

/-- The selected item carries the flag after the pass. -/
theorem generateBody_processed_self (K : Vector3Kernel V R) (s : HoleWrapper V) (i : Nat)
    (hi : i < s.m_items.length) : (item (generateBody K s i) i).processed = true := by
  obtain ⟨w, extra, e, _, _, _, hw, _, _⟩ := generateBody_items K s i hi
  unfold item
  rw [e, getD_append_lt _ _ _ (by simpa using hi), getD_set_self _ _ _ hi]
  exact hw

/-- Every other item is left as it was. -/
theorem generateBody_item_of_ne (K : Vector3Kernel V R) (s : HoleWrapper V) (i j : Nat)
    (hi : i < s.m_items.length) (hj : j < s.m_items.length) (hij : i ≠ j) :
    item (generateBody K s i) j = item s j := by
  obtain ⟨w, extra, e, _, _, _, hw, _, _⟩ := generateBody_items K s i hi
  unfold item
  rw [e, getD_append_lt _ _ _ (by simpa using hj), getD_set_ne _ _ _ _ hij]

/-- The flag of an item is never cleared by a pass. -/
theorem generateBody_processed_mono (K : Vector3Kernel V R) (s : HoleWrapper V) (i j : Nat)
    (hi : i < s.m_items.length) (h : (item s j).processed = true) :
    (item (generateBody K s i) j).processed = true := by
  by_cases hij : i = j
  · subst hij
    exact generateBody_processed_self K s i hi
  · have hj : j < s.m_items.length := by
      by_contra hn
      unfold item at h
      rw [List.getD_eq_default _ _ (not_lt.1 hn)] at h
      exact Bool.noConfusion h
    rw [generateBody_item_of_ne K s i j hi hj hij]
    exact h

/-- The edge and the normal of an item never change. -/
theorem generateBody_item_key (K : Vector3Kernel V R) (s : HoleWrapper V) (i j : Nat)
    (hi : i < s.m_items.length) (hj : j < s.m_items.length) :
    (item (generateBody K s i) j).p1 = (item s j).p1 ∧
    (item (generateBody K s i) j).p2 = (item s j).p2 ∧
    (item (generateBody K s i) j).baseNormal = (item s j).baseNormal := by
  by_cases hij : i = j
  · subst hij
    obtain ⟨w, extra, e, h1, h2, h3, _, _, _⟩ := generateBody_items K s i hi
    unfold item at h1 h2 h3 ⊢
    rw [e, getD_append_lt _ _ _ (by simpa using hi), getD_set_self _ _ _ hi]
    exact ⟨h1, h2, h3⟩
  · rw [generateBody_item_of_ne K s i j hi hj hij]
    exact ⟨rfl, rfl, rfl⟩

theorem peekItem_lt (s : HoleWrapper V) (h : FrontOk s) (hp : (peekItem s).2 = true) :
    (peekItem s).1 < s.m_items.length :=
  h.list_lt _ (peekItem_spec s hp).1

/-- Every index in the trace of selections belongs to an item that does not
carry the flag yet. -/
theorem peekTrace_unprocessed (K : Vector3Kernel V R) :
    ∀ (fuel : Nat) (s : HoleWrapper V), FrontOk s →
      ∀ j ∈ peekTrace K fuel s, (item s j).processed = false := by
  intro fuel
  induction fuel with
  | zero => intro s _ j hj; simp [peekTrace] at hj
  | succ n ih =>
    intro s hs j hj
    simp only [peekTrace] at hj
    split_ifs at hj with hp
    · rcases List.mem_cons.1 hj with hj | hj
      · rw [hj]; exact (peekItem_spec s hp).2
      · have := ih _ (generateBody_frontOk K s hs hp) j hj
        by_contra hc
        have hc2 : (item s j).processed = true := by simpa using hc
        rw [generateBody_processed_mono K s _ j (peekItem_lt s hs hp) hc2] at this
        exact Bool.noConfusion this
    · simp at hj

theorem peekTrace_nodup (K : Vector3Kernel V R) :
    ∀ (fuel : Nat) (s : HoleWrapper V), FrontOk s → (peekTrace K fuel s).Nodup := by
  intro fuel
  induction fuel with
  | zero => intro s _; simp [peekTrace]
  | succ n ih =>
    intro s hs
    simp only [peekTrace]
    split_ifs with hp
    · refine List.nodup_cons.2 ⟨?_, ih _ (generateBody_frontOk K s hs hp)⟩
      intro hm
      have := peekTrace_unprocessed K n _ (generateBody_frontOk K s hs hp) _ hm
      rw [generateBody_processed_self K s _ (peekItem_lt s hs hp)] at this
      exact Bool.noConfusion this
    · exact List.nodup_nil

theorem generateFuel_frontOk (K : Vector3Kernel V R) (fuel : Nat) (s : HoleWrapper V)
    (h : FrontOk s) : FrontOk (generateFuel K fuel s) :=
  generateFuel_induction K FrontOk (fun s hs hp => generateBody_frontOk K s hs hp) fuel s h

theorem generateFuel_processed_mono (K : Vector3Kernel V R) :
    ∀ (fuel : Nat) (s : HoleWrapper V), FrontOk s → ∀ j, (item s j).processed = true →
      (item (generateFuel K fuel s) j).processed = true := by
  intro fuel
  induction fuel with
  | zero => intro s _ j h; exact h
  | succ n ih =>
    intro s hs j h
    simp only [generateFuel]
    split_ifs with hp
    · exact ih _ (generateBody_frontOk K s hs hp) j
        (generateBody_processed_mono K s _ j (peekItem_lt s hs hp) h)
    · exact h

/-- The trace of a longer run extends the trace of a shorter one. -/
theorem peekTrace_add (K : Vector3Kernel V R) :
    ∀ (n m : Nat) (s : HoleWrapper V),
      peekTrace K (n + m) s = peekTrace K n s ++ peekTrace K m (generateFuel K n s) := by
  intro n
  induction n with
  | zero => intro m s; simp [peekTrace, generateFuel]
  | succ k ih =>
    intro m s
    rw [Nat.succ_add]
    simp only [peekTrace, generateFuel]
    split_ifs with hp
    · rw [ih]; rfl
    · cases m with
      | zero => simp [peekTrace]
      | succ m => simp [peekTrace, hp]

theorem registered_frontOk (positions : List V) (loops : List (List Nat × V)) :
    FrontOk (registered positions loops) :=
  (registered_regOk positions loops).front

theorem peekTrace_of_no_item (K : Vector3Kernel V R) (fuel : Nat) (s : HoleWrapper V)
    (h : (peekItem s).2 = false) : peekTrace K fuel s = [] := by
  cases fuel with
  | zero => rfl
  | succ n => simp [peekTrace, h]

theorem generateFuel_succ_of_peek (K : Vector3Kernel V R) (n : Nat) (s : HoleWrapper V)
    (hp : (peekItem (generateFuel K n s)).2 = true) :
    generateFuel K (n + 1) s =
      generateBody K (generateFuel K n s) (peekItem (generateFuel K n s)).1 := by
  rw [generateFuel_add]
  simp [generateFuel, hp]

/-- C12. During the run of `generate` no front item is processed twice. The
sequence of item indices that `peekItem` selects, pass after pass, contains no
duplicates, for every number of passes; the sequence of the whole run is the
one of `V * V` passes, where `V` is the number of registered vertices, and
does not grow after that.  A `processed` flag that is set is never cleared,
and every pass selects an item without the flag and sets it. -/
theorem no_item_processed_twice (K : Vector3Kernel V R) (positions : List V)
    (loops : List (List Nat × V)) :
    (∀ fuel, (peekTrace K fuel (registered positions loops)).Nodup) ∧
    (∀ extra, peekTrace K
        ((registered positions loops).m_sourceVertices.length *
          (registered positions loops).m_sourceVertices.length + extra)
        (registered positions loops) =
      peekTrace K
        ((registered positions loops).m_sourceVertices.length *
          (registered positions loops).m_sourceVertices.length)
        (registered positions loops)) ∧
    (∀ n m j, (item (generateFuel K n (registered positions loops)) j).processed = true →
      (item (generateFuel K (n + m) (registered positions loops)) j).processed = true) ∧
    (∀ n, (peekItem (generateFuel K n (registered positions loops))).2 = true →
      (item (generateFuel K n (registered positions loops))
        (peekItem (generateFuel K n (registered positions loops))).1).processed = false ∧
      (item (generateFuel K (n + 1) (registered positions loops))
        (peekItem (generateFuel K n (registered positions loops))).1).processed = true) := by
  have h0 := registered_frontOk positions loops
  refine ⟨fun fuel => peekTrace_nodup K fuel _ h0, ?_, ?_, ?_⟩
  · intro extra
    have hx : (peekItem (generateFuel K
        ((registered positions loops).m_sourceVertices.length *
          (registered positions loops).m_sourceVertices.length)
        (registered positions loops))).2 = false := generate_exhausts_front K _ h0
    rw [peekTrace_add, peekTrace_of_no_item K extra _ hx, List.append_nil]
  · intro n m j h
    rw [generateFuel_add]
    exact generateFuel_processed_mono K m _ (generateFuel_frontOk K n _ h0) j h
  · intro n hp
    refine ⟨(peekItem_spec _ hp).2, ?_⟩
    rw [generateFuel_succ_of_peek K n _ hp]
    exact generateBody_processed_self K _ _ (peekItem_lt _ (generateFuel_frontOk K n _ h0) hp)

/-! ## One item per pair of vertices -/

theorem itemKeys_addItem (s : HoleWrapper V) (a b : Nat) (n : V) :
    (addItem s a b n = s) ∨
    (s.m_itemsMap (a, b) = none ∧ s.m_itemsMap (b, a) = none ∧
      itemKeys (addItem s a b n) = itemKeys s ++ [(a, b)] ∧
      (addItem s a b n).m_itemsMap = mapInsert s.m_itemsMap (a, b) s.m_items.length) := by
  rcases addItem_cases s a b n with e | ⟨h1, h2, _, e⟩
  · left; exact e
  · right
    refine ⟨h1, h2, ?_, ?_⟩
    · rw [e]; simp [itemKeys]
    · rw [e]

theorem not_mem_keys_of_none (s : HoleWrapper V) (h : FrontOk s) (k : WrapItemKey)
    (hk : s.m_itemsMap k = none) : k ∉ itemKeys s := by
  intro hm
  have := h.key_mapped k hm
  rw [hk] at this
  exact Bool.noConfusion this

theorem addItem_pairsOk (s : HoleWrapper V) (a b : Nat) (n : V) (h : FrontOk s)
    (hp : PairsOk s) : PairsOk (addItem s a b n) := by
  rcases itemKeys_addItem s a b n with e | ⟨h1, h2, e, _⟩
  · rw [e]; exact hp
  · unfold PairsOk
    rw [e]
    refine List.pairwise_append.2 ⟨hp, List.pairwise_singleton _ _, ?_⟩
    intro x hx y hy
    rw [List.mem_singleton] at hy
    subst hy
    refine ⟨?_, ?_⟩
    · intro hxy
      exact not_mem_keys_of_none s h _ h1 (hxy ▸ hx)
    · intro hxy
      exact not_mem_keys_of_none s h _ h2 (hxy ▸ hx)

theorem addItem_mapOk (s : HoleWrapper V) (a b : Nat) (n : V) (hp : MapOk s) :
    MapOk (addItem s a b n) := by
  rcases itemKeys_addItem s a b n with e | ⟨_, _, e, em⟩
  · rw [e]; exact hp
  · intro k hk
    rw [em] at hk
    rw [e]
    rcases (mapInsert_isSome _ _ _ _).1 hk with hk | hk
    · rw [hk]; simp
    · exact List.mem_append_left _ (hp k hk)

theorem emitFront_eq (K : Vector3Kernel V R) (s : HoleWrapper V) (i p1 p2 p3 : Nat) :
    emitFront K s i p1 p2 p3 =
      addItem (addItem (pushFace K s i p1 p2 p3) p3 p2 (triNormal K s p1 p2 p3)) p1 p3
        (triNormal K s p1 p2 p3) := rfl

theorem itemKeys_emitFace (K : Vector3Kernel V R) (s : HoleWrapper V) (i p1 p2 p3 : Nat) :
    itemKeys (emitFace K s i p1 p2 p3) = itemKeys (emitFront K s i p1 p2 p3) := rfl

theorem itemKeys_pushFace (K : Vector3Kernel V R) (s : HoleWrapper V) (i p1 p2 p3 : Nat) :
    itemKeys (pushFace K s i p1 p2 p3) = itemKeys s := by
  unfold itemKeys pushFace
  exact map_key_set _ _ _ rfl rfl

@[simp] theorem pushFace_sourceVertices (K : Vector3Kernel V R) (s : HoleWrapper V)
    (i p1 p2 p3 : Nat) : (pushFace K s i p1 p2 p3).m_sourceVertices = s.m_sourceVertices := rfl

@[simp] theorem pushFace_itemsMap (K : Vector3Kernel V R) (s : HoleWrapper V)
    (i p1 p2 p3 : Nat) : (pushFace K s i p1 p2 p3).m_itemsMap = s.m_itemsMap := rfl

@[simp] theorem pushFace_ledger (K : Vector3Kernel V R) (s : HoleWrapper V)
    (i p1 p2 p3 : Nat) :
    (pushFace K s i p1 p2 p3).m_generatedFaceEdgesMap = s.m_generatedFaceEdgesMap := rfl

theorem pushFace_items_length (K : Vector3Kernel V R) (s : HoleWrapper V)
    (i p1 p2 p3 : Nat) : (pushFace K s i p1 p2 p3).m_items.length = s.m_items.length := by
  simp [pushFace]

theorem pushFace_frontOk (K : Vector3Kernel V R) (s : HoleWrapper V) (i p1 p2 p3 : Nat)
    (h : FrontOk s) : FrontOk (pushFace K s i p1 p2 p3) :=
  h.congr rfl rfl (itemKeys_pushFace K s i p1 p2 p3) rfl rfl (pushFace_items_length K s i p1 p2 p3)

theorem emitFace_pairsOk (K : Vector3Kernel V R) (s : HoleWrapper V) (i p1 p2 p3 : Nat)
    (h : FrontOk s) (h2 : p2 < s.m_sourceVertices.length)
    (h3 : p3 < s.m_sourceVertices.length) (hp : PairsOk s) :
    PairsOk (emitFace K s i p1 p2 p3) := by
  unfold PairsOk
  rw [itemKeys_emitFace, emitFront_eq]
  have hq : PairsOk (pushFace K s i p1 p2 p3) := by
    unfold PairsOk
    rw [itemKeys_pushFace]
    exact hp
  exact addItem_pairsOk _ _ _ _ (addItem_frontOk _ _ _ _ (pushFace_frontOk K s i p1 p2 p3 h) h3 h2)
    (addItem_pairsOk _ _ _ _ (pushFace_frontOk K s i p1 p2 p3 h) hq)

theorem emitFace_mapOk (K : Vector3Kernel V R) (s : HoleWrapper V) (i p1 p2 p3 : Nat)
    (hp : MapOk s) : MapOk (emitFace K s i p1 p2 p3) := by
  have : MapOk (emitFront K s i p1 p2 p3) := by
    rw [emitFront_eq]
    refine addItem_mapOk _ _ _ _ (addItem_mapOk _ _ _ _ ?_)
    intro k hk2
    rw [itemKeys_pushFace]
    exact hp k hk2
  exact this

theorem generateBody_pairsOk (K : Vector3Kernel V R) (s : HoleWrapper V) (h : FrontOk s)
    (hq : PairsOk s) (hp : (peekItem s).2 = true) :
    PairsOk (generateBody K s (peekItem s).1) := by
  have hi := h.list_lt _ (peekItem_spec s hp).1
  have hk := h.item_lt _ (item_mem_keys s _ hi)
  have hm : PairsOk (prune (markProcessed s (peekItem s).1)) := by
    unfold PairsOk
    have : itemKeys (prune (markProcessed s (peekItem s).1)) = itemKeys s :=
      itemKeys_markProcessed s _
    rw [this]
    exact hq
  rcases generateBody_cases K s (peekItem s).1 with ⟨_, e⟩ | ⟨_, e⟩ | ⟨_, p3, hp3, _, e⟩
  · rw [e]; exact hm
  · rw [e]; exact hm
  · rw [e]
    exact emitFace_pairsOk K _ _ _ _ _ (prune_frontOk _ (markProcessed_frontOk s _ h))
      hk.2 (h.cand_lt p3 hp3) hm

theorem generateBody_mapOk (K : Vector3Kernel V R) (s : HoleWrapper V) (i : Nat)
    (hq : MapOk s) : MapOk (generateBody K s i) := by
  have hm : MapOk (prune (markProcessed s i)) := by
    intro k hk
    have : itemKeys (prune (markProcessed s i)) = itemKeys s := itemKeys_markProcessed s _
    rw [this]
    exact hq k hk
  rcases generateBody_cases K s i with ⟨_, e⟩ | ⟨_, e⟩ | ⟨_, p3, hp3, _, e⟩
  · rw [e]; exact hm
  · rw [e]; exact hm
  · rw [e]; exact emitFace_mapOk K _ _ _ _ _ hm

theorem registered_pairsOk (positions : List V) (loops : List (List Nat × V)) :
    PairsOk (registered positions loops) := by
  have hle := (registered_regOk positions loops).items_le
  unfold PairsOk itemKeys
  cases hl : (registered positions loops).m_items with
  | nil => simp
  | cons a rest =>
    rw [hl] at hle
    have : rest = [] := by
      cases rest with
      | nil => rfl
      | cons b r => simp at hle
    subst this
    simp

theorem registered_mapOk (positions : List V) (loops : List (List Nat × V)) :
    MapOk (registered positions loops) := by
  rcases loops_split loops with hall | ⟨pre, tags, normal, rest, e, hpre, ht⟩
  · intro k hk
    unfold registered at hk
    rw [registerLoops_all_empty loops 1 _ hall] at hk
    simp [setVertices, fresh] at hk
  · obtain ⟨it, h1, _, h3, _⟩ := registerLoops_seed pre tags normal rest 1
      (setVertices fresh positions) (le_refl 1) (fresh_regOk positions) rfl hpre ht
    intro k hk
    unfold registered at hk ⊢
    rw [e] at hk ⊢
    rw [h3] at hk
    unfold itemKeys
    rw [h1]
    by_cases hkk : k = (it.p1, it.p2)
    · simp [hkk]
    · simp [hkk] at hk

theorem generateFuel_pairsOk (K : Vector3Kernel V R) (fuel : Nat) (positions : List V)
    (loops : List (List Nat × V)) :
    PairsOk (generateFuel K fuel (registered positions loops)) :=
  (generateFuel_induction K (fun s => FrontOk s ∧ PairsOk s)
    (fun s hs hp => ⟨generateBody_frontOk K s hs.1 hp, generateBody_pairsOk K s hs.1 hs.2 hp⟩)
    fuel _ ⟨registered_frontOk positions loops, registered_pairsOk positions loops⟩).2

theorem generateFuel_mapOk (K : Vector3Kernel V R) (fuel : Nat) (positions : List V)
    (loops : List (List Nat × V)) :
    MapOk (generateFuel K fuel (registered positions loops)) :=
  generateFuel_induction K MapOk (fun s hs _ => generateBody_mapOk K s _ hs)
    fuel _ (registered_mapOk positions loops)

/-- Without a pending item, every item carries the flag. -/
theorem all_processed_of_no_item (s : HoleWrapper V) (h : ListOk s)
    (hp : (peekItem s).2 = false) :
    ∀ j, j < s.m_items.length → (item s j).processed = true := by
  intro j hj
  unfold peekItem at hp
  cases hf : s.m_itemsList.find? (fun itemIndex => !(item s itemIndex).processed) with
  | some i => rw [hf] at hp; exact Bool.noConfusion hp
  | none =>
    have := List.find?_eq_none.1 hf j (by
      rw [h]
      simp [hj])
    simpa using this

/-- C13. `generate` terminates for every input, whatever the positions and
angles are.  In every state of the loop the front holds at most one item per
unordered pair of registered vertices; every pass marks one item that was
unprocessed as processed and adds at most two items; the loop has ended by
itself after `V * V` passes, where `V` is the number of registered vertices
(more passes change nothing), and then no unprocessed item is left. -/
theorem generate_terminates (K : Vector3Kernel V R) (positions : List V)
    (loops : List (List Nat × V)) :
    (peekItem (generated K positions loops)).2 = false ∧
    (∀ j, j < (generated K positions loops).m_items.length →
      (item (generated K positions loops) j).processed = true) ∧
    (∀ extra, generateFuel K
        ((registered positions loops).m_sourceVertices.length *
          (registered positions loops).m_sourceVertices.length + extra)
        (registered positions loops) = generated K positions loops) ∧
    (∀ fuel,
      (itemKeys (generateFuel K fuel (registered positions loops))).Pairwise
        (fun a b => a ≠ b ∧ a ≠ (b.2, b.1)) ∧
      (∀ k ∈ itemKeys (generateFuel K fuel (registered positions loops)),
        k.1 < (registered positions loops).m_sourceVertices.length ∧
        k.2 < (registered positions loops).m_sourceVertices.length) ∧
      ((peekItem (generateFuel K fuel (registered positions loops))).2 = true →
        (item (generateFuel K fuel (registered positions loops))
          (peekItem (generateFuel K fuel (registered positions loops))).1).processed = false ∧
        (item (generateFuel K (fuel + 1) (registered positions loops))
          (peekItem (generateFuel K fuel (registered positions loops))).1).processed = true ∧
        processedCount (generateFuel K (fuel + 1) (registered positions loops)) =
          processedCount (generateFuel K fuel (registered positions loops)) + 1 ∧
        (generateFuel K fuel (registered positions loops)).m_items.length ≤
          (generateFuel K (fuel + 1) (registered positions loops)).m_items.length ∧
        (generateFuel K (fuel + 1) (registered positions loops)).m_items.length ≤
          (generateFuel K fuel (registered positions loops)).m_items.length + 2)) := by
  have h0 := registered_frontOk positions loops
  have hx : (peekItem (generated K positions loops)).2 = false :=
    generate_exhausts_front K _ h0
  refine ⟨hx, ?_, ?_, ?_⟩
  · exact all_processed_of_no_item _ (generateFuel_listOk K _ positions loops) hx
  · intro extra
    exact generateFuel_stable K _ extra _ hx
  · intro fuel
    have hf := generateFuel_frontOk K fuel _ h0
    refine ⟨generateFuel_pairsOk K fuel positions loops, ?_, ?_⟩
    · intro k hk
      have := hf.item_lt k hk
      have hs : (generateFuel K fuel (registered positions loops)).m_sourceVertices =
          (registered positions loops).m_sourceVertices :=
        generateFuel_induction K
          (fun s => s.m_sourceVertices = (registered positions loops).m_sourceVertices)
          (fun s hs _ => (generateBody_sourceVertices K s _).trans hs) fuel _ rfl
      rw [hs] at this
      exact this
    · intro hp
      rw [generateFuel_succ_of_peek K fuel _ hp]
      exact ⟨(peekItem_spec _ hp).2,
        generateBody_processed_self K _ _ (peekItem_lt _ hf hp),
        processedCount_generateBody K _ hf hp,
        (generateBody_items_length K _ _).1, (generateBody_items_length K _ _).2⟩

/-! ## The triangles and their base edges -/

/-- What one pass does to the triangles and the ledger: nothing, or one
triangle on the edge of the selected item. -/
theorem generateBody_emit_cases (K : Vector3Kernel V R) (s : HoleWrapper V) (i : Nat) :
    ((generateBody K s i).m_generatedFaces = s.m_generatedFaces ∧
      (generateBody K s i).m_generatedFaceEdgesMap = s.m_generatedFaceEdgesMap) ∨
    (isEdgeClosed s (item s i).p1 (item s i).p2 = false ∧
      ∃ p3, p3 ∈ s.m_candidates ∧ Eligible K s i (item s i).p1 (item s i).p2 p3 ∧
        (generateBody K s i).m_generatedFaces = s.m_generatedFaces ++
          [{ p1 := (item s i).p1, p2 := (item s i).p2, p3 := p3,
             normal := triNormal K s (item s i).p1 (item s i).p2 p3,
             index := s.m_generatedFaces.length }] ∧
        (generateBody K s i).m_generatedFaceEdgesMap =
          mapInsert (mapInsert (mapInsert s.m_generatedFaceEdgesMap
            ((item s i).p1, (item s i).p2) (s.m_generatedFaces.length, true))
            ((item s i).p2, p3) (s.m_generatedFaces.length, true))
            (p3, (item s i).p1) (s.m_generatedFaces.length, true) ∧
        generateBody K s i =
          emitFace K (prune (markProcessed s i)) i (item s i).p1 (item s i).p2 p3) := by
  rcases generateBody_cases K s i with ⟨_, e⟩ | ⟨_, e⟩ | ⟨hc, p3, hp3, hel, e⟩
  · left; rw [e]; exact ⟨rfl, rfl⟩
  · left; rw [e]; exact ⟨rfl, rfl⟩
  · right
    refine ⟨hc, p3, hp3, hel, ?_, ?_, e⟩
    · rw [e, emitFace_faces]; rfl
    · rw [e, emitFace_ledger]; rfl

theorem itemKeys_getElem (s : HoleWrapper V) (i : Nat) (hi : i < (itemKeys s).length) :
    (itemKeys s)[i] = ((item s i).p1, (item s i).p2) := by
  have hi2 : i < s.m_items.length := by simpa [itemKeys] using hi
  simp [itemKeys, item, List.getD_eq_getElem?_getD, List.getElem?_eq_getElem hi2]

/-- Two different items differ in their end points, as unordered pairs. -/
theorem PairsOk.distinct {s : HoleWrapper V} (h : PairsOk s) (i j : Nat)
    (hi : i < s.m_items.length) (hj : j < s.m_items.length) (hij : i ≠ j) :
    ((item s i).p1, (item s i).p2) ≠ ((item s j).p1, (item s j).p2) ∧
    ((item s i).p1, (item s i).p2) ≠ ((item s j).p2, (item s j).p1) := by
  have hi2 : i < (itemKeys s).length := by simpa [itemKeys] using hi
  have hj2 : j < (itemKeys s).length := by simpa [itemKeys] using hj
  have hp := List.pairwise_iff_getElem.1 h
  rcases Nat.lt_or_gt_of_ne hij with hlt | hgt
  · have := hp i j hi2 hj2 hlt
    rw [itemKeys_getElem, itemKeys_getElem] at this
    exact this
  · have := hp j i hj2 hi2 hgt
    rw [itemKeys_getElem, itemKeys_getElem] at this
    refine ⟨fun e => this.1 e.symm, fun e => this.2 ?_⟩
    have e1 := congrArg Prod.fst e
    have e2 := congrArg Prod.snd e
    simp only at e1 e2
    rw [Prod.mk.injEq]
    exact ⟨e2.symm, e1.symm⟩

theorem getD_append_new {α : Type} (l : List α) (a d : α) (i : Nat) (hi : i < l.length) :
    (l ++ [a]).getD i d = l.getD i d := by
  simp [List.getD_eq_getElem?_getD, List.getElem?_append_left hi]

theorem generateBody_facesOk (K : Vector3Kernel V R) (s : HoleWrapper V) (hg : GenOk s)
    (hq : PairsOk s) (h : FacesOk s) (hp : (peekItem s).2 = true) :
    FacesOk (generateBody K s (peekItem s).1) := by
  have hi := hg.front.list_lt _ (peekItem_spec s hp).1
  have h0 := (peekItem_spec s hp).2
  have hk := hg.front.item_lt _ (item_mem_keys s _ hi)
  have hlen := (generateBody_items_length K s (peekItem s).1).1
  have hsv := generateBody_sourceVertices K s (peekItem s).1
  have hsame : ∀ v, sourceVertex (generateBody K s (peekItem s).1) v = sourceVertex s v :=
    fun v => sourceVertex_congr hsv v
  -- the old triangles keep their item
  have hbase : ∀ f ∈ s.m_generatedFaces, ∃ i, i < (generateBody K s (peekItem s).1).m_items.length ∧
      (item (generateBody K s (peekItem s).1) i).processed = true ∧
      (item (generateBody K s (peekItem s).1) i).p1 = f.p1 ∧
      (item (generateBody K s (peekItem s).1) i).p2 = f.p2 := by
    intro f hf
    obtain ⟨j, hj, hjp, hj1, hj2⟩ := h.base f hf
    obtain ⟨k1, k2, _⟩ := generateBody_item_key K s (peekItem s).1 j hi hj
    exact ⟨j, lt_of_lt_of_le hj hlen, generateBody_processed_mono K s _ j hi hjp,
      k1.trans hj1, k2.trans hj2⟩
  have hshape : ∀ f ∈ s.m_generatedFaces,
      (f.p1 < (generateBody K s (peekItem s).1).m_sourceVertices.length ∧
        f.p2 < (generateBody K s (peekItem s).1).m_sourceVertices.length ∧
        f.p3 < (generateBody K s (peekItem s).1).m_sourceVertices.length) ∧
      (f.p1 ≠ f.p2 ∧ f.p1 ≠ f.p3 ∧ f.p2 ≠ f.p3) ∧
      ¬ ((sourceVertex (generateBody K s (peekItem s).1) f.p1).sourcePlane =
          (sourceVertex (generateBody K s (peekItem s).1) f.p2).sourcePlane ∧
        (sourceVertex (generateBody K s (peekItem s).1) f.p1).sourcePlane =
          (sourceVertex (generateBody K s (peekItem s).1) f.p3).sourcePlane) := by
    intro f hf
    rw [hsv, hsame, hsame, hsame]
    exact h.shape f hf
  rcases generateBody_emit_cases K s (peekItem s).1 with ⟨ef, el⟩ | ⟨hc, p3, hp3, hel, ef, el, _⟩
  · refine ⟨?_, ?_, ?_, ?_⟩
    · intro f hf
      rw [ef] at hf
      exact hbase f hf
    · rw [ef]; exact h.base_pairs
    · intro f hf
      rw [ef] at hf
      exact hshape f hf
    · intro k fi hkf
      rw [el] at hkf
      rw [ef]
      exact h.flag_edge k fi hkf
  · obtain ⟨n1, n2, n3⟩ := Eligible.ne K s _ p3 hel
    have n12 : (item s (peekItem s).1).p1 ≠ (item s (peekItem s).1).p2 := by
      intro e12
      have hrev := hg.item_rev _ (item_mem_keys s _ hi)
      simp only at hrev
      have : isEdgeClosed s (item s (peekItem s).1).p1 (item s (peekItem s).1).p2 = true := by
        rw [isEdgeClosed_iff]
        refine ⟨?_, hrev⟩
        rw [← e12] at hrev ⊢
        exact hrev
      rw [hc] at this
      exact Bool.noConfusion this
    refine ⟨?_, ?_, ?_, ?_⟩
    · intro f hf
      rw [ef] at hf
      rcases List.mem_append.1 hf with hf | hf
      · exact hbase f hf
      · rw [List.mem_singleton] at hf
        subst hf
        obtain ⟨k1, k2, _⟩ := generateBody_item_key K s (peekItem s).1 _ hi hi
        exact ⟨_, lt_of_lt_of_le hi hlen, generateBody_processed_self K s _ hi, k1, k2⟩
    · rw [ef, List.map_append]
      refine List.pairwise_append.2 ⟨h.base_pairs, by simp, ?_⟩
      intro x hx y hy
      simp only [List.map_cons, List.map_nil, List.mem_singleton] at hy
      subst hy
      obtain ⟨f, hf, rfl⟩ := List.mem_map.1 hx
      obtain ⟨j, hj, hjp, hj1, hj2⟩ := h.base f hf
      have hne : j ≠ (peekItem s).1 := by
        intro e
        rw [e, h0] at hjp
        exact Bool.noConfusion hjp
      have := hq.distinct j _ hj hi hne
      rw [hj1, hj2] at this
      exact this
    · intro f hf
      rw [ef] at hf
      rcases List.mem_append.1 hf with hf | hf
      · exact hshape f hf
      · rw [List.mem_singleton] at hf
        subst hf
        rw [hsv, hsame, hsame, hsame]
        exact ⟨⟨hk.1, hk.2, hg.front.cand_lt p3 hp3⟩, ⟨n12, n1, n2⟩, n3⟩
    · intro k fi hkf
      rw [el] at hkf
      rw [ef]
      rcases (mapInsert_eq_some _ _ _ _ _).1 hkf with hkf | ⟨e1, _, e2⟩
      · rcases (mapInsert_eq_some _ _ _ _ _).1 hkf with hkf | ⟨e1, _, e2⟩
        · rcases (mapInsert_eq_some _ _ _ _ _).1 hkf with hkf | ⟨e1, _, e2⟩
          · rw [getD_append_new _ _ _ _ (hg.flag_lt k fi hkf)]
            exact h.flag_edge k fi hkf
          · have : fi = s.m_generatedFaces.length := congrArg Prod.fst e2
            rw [this, getD_append_last, e1]
            simp [faceEdges]
        · have : fi = s.m_generatedFaces.length := congrArg Prod.fst e2
          rw [this, getD_append_last, e1]
          simp [faceEdges]
      · have : fi = s.m_generatedFaces.length := congrArg Prod.fst e2
        rw [this, getD_append_last, e1]
        simp [faceEdges]

theorem RegOk.facesOk {next : Nat} {s : HoleWrapper V} (h : RegOk next s) : FacesOk s := by
  refine ⟨?_, ?_, ?_, ?_⟩
  · intro f hf; rw [h.noFaces] at hf; simp at hf
  · rw [h.noFaces]; simp
  · intro f hf; rw [h.noFaces] at hf; simp at hf
  · intro k fi hk
    have := h.ledger_val k _ hk
    simp at this

theorem generateFuel_facesOk (K : Vector3Kernel V R) (fuel : Nat) (positions : List V)
    (loops : List (List Nat × V)) :
    FacesOk (generateFuel K fuel (registered positions loops)) :=
  (generateFuel_induction K (fun s => GenOk s ∧ PairsOk s ∧ FacesOk s)
    (fun s hs hp => ⟨generateBody_genOk K s hs.1 hp,
      generateBody_pairsOk K s hs.1.front hs.2.1 hp,
      generateBody_facesOk K s hs.1 hs.2.1 hs.2.2 hp⟩)
    fuel _ ⟨(registered_regOk positions loops).genOk, registered_pairsOk positions loops,
      (registered_regOk positions loops).facesOk⟩).2.2

theorem generated_facesOk (K : Vector3Kernel V R) (positions : List V)
    (loops : List (List Nat × V)) : FacesOk (generated K positions loops) :=
  generateFuel_facesOk K _ positions loops

theorem run_faces (K : Vector3Kernel V R) (positions : List V) (loops : List (List Nat × V)) :
    (run K positions loops).m_generatedFaces = (generated K positions loops).m_generatedFaces := by
  rw [run_eq]
  exact finalize_faces K _

theorem run_items (K : Vector3Kernel V R) (positions : List V) (loops : List (List Nat × V)) :
    (run K positions loops).m_items = (generated K positions loops).m_items := by
  rw [run_eq]
  exact finalize_items K _

theorem run_ledger (K : Vector3Kernel V R) (positions : List V) (loops : List (List Nat × V)) :
    (run K positions loops).m_generatedFaceEdgesMap =
      (generated K positions loops).m_generatedFaceEdgesMap := by
  rw [run_eq]
  exact finalize_ledger K _

theorem faces_getD_mem (s : HoleWrapper V) (i : Nat) (hi : i < s.m_generatedFaces.length) :
    s.m_generatedFaces.getD i default ∈ s.m_generatedFaces := by
  rw [List.getD_eq_getElem?_getD, List.getElem?_eq_getElem hi]
  exact List.getElem_mem _

/-- C15. No edge is the base edge of two different generated triangles.  The
base edge `(p1, p2)` of every generated triangle is the edge of a processed
front item; two different triangles of a run of `wrap` have base edges that
differ as unordered vertex pairs, so no edge, boundary edge or not, is used as
a base twice. -/
theorem base_edges_unique (K : Vector3Kernel V R) (positions : List V)
    (loops : List (List Nat × V)) :
    (∀ f ∈ (run K positions loops).m_generatedFaces,
      ∃ i, i < (run K positions loops).m_items.length ∧
        (item (run K positions loops) i).processed = true ∧
        (item (run K positions loops) i).p1 = f.p1 ∧
        (item (run K positions loops) i).p2 = f.p2) ∧
    ∀ i j, i < (run K positions loops).m_generatedFaces.length →
      j < (run K positions loops).m_generatedFaces.length → i ≠ j →
      (((run K positions loops).m_generatedFaces.getD i default).p1,
        ((run K positions loops).m_generatedFaces.getD i default).p2) ≠
      (((run K positions loops).m_generatedFaces.getD j default).p1,
        ((run K positions loops).m_generatedFaces.getD j default).p2) ∧
      (((run K positions loops).m_generatedFaces.getD i default).p1,
        ((run K positions loops).m_generatedFaces.getD i default).p2) ≠
      (((run K positions loops).m_generatedFaces.getD j default).p2,
        ((run K positions loops).m_generatedFaces.getD j default).p1) := by
  have h := generated_facesOk K positions loops
  have hitem : ∀ i, item (run K positions loops) i = item (generated K positions loops) i := by
    intro i
    unfold item
    rw [run_items]
  refine ⟨?_, ?_⟩
  · intro f hf
    rw [run_faces] at hf
    obtain ⟨i, hi, h1, h2, h3⟩ := h.base f hf
    exact ⟨i, by rw [run_items]; exact hi, by rw [hitem]; exact h1,
      by rw [hitem]; exact h2, by rw [hitem]; exact h3⟩
  · intro i j hi hj hij
    rw [run_faces] at hi hj ⊢
    have hp := List.pairwise_iff_getElem.1 h.base_pairs
    have gi : ∀ a (ha : a < ((generated K positions loops).m_generatedFaces.map
        (fun f => (f.p1, f.p2))).length),
        ((generated K positions loops).m_generatedFaces.map (fun f => (f.p1, f.p2)))[a] =
        (((generated K positions loops).m_generatedFaces.getD a default).p1,
          ((generated K positions loops).m_generatedFaces.getD a default).p2) := by
      intro a ha
      have ha2 : a < (generated K positions loops).m_generatedFaces.length := by
        simpa using ha
      simp [List.getD_eq_getElem?_getD, List.getElem?_eq_getElem ha2]
    have hi2 : i < ((generated K positions loops).m_generatedFaces.map
        (fun f => (f.p1, f.p2))).length := by simpa using hi
    have hj2 : j < ((generated K positions loops).m_generatedFaces.map
        (fun f => (f.p1, f.p2))).length := by simpa using hj
    rcases Nat.lt_or_gt_of_ne hij with hlt | hgt
    · have := hp i j hi2 hj2 hlt
      rw [gi i hi2, gi j hj2] at this
      exact this
    · have := hp j i hj2 hi2 hgt
      rw [gi i hi2, gi j hj2] at this
      refine ⟨fun e => this.1 e.symm, fun e => this.2 ?_⟩
      have e1 := congrArg Prod.fst e
      have e2 := congrArg Prod.snd e
      simp only at e1 e2
      rw [Prod.mk.injEq]
      exact ⟨e2.symm, e1.symm⟩

/-- C19. Every triangle `(p1, p2, p3)` emitted by `generate` has three
registered, pairwise distinct local vertices, and the three do not all
originate from the same input loop: they do not share a source plane, and no
loop position `k` is the origin of all three.  This holds for every input,
also when the first non-empty loop does not start with two distinct tags: a
seed item with `p1 = p2` is a closed edge and is skipped. -/
theorem triangles_nondegenerate (K : Vector3Kernel V R) (positions : List V)
    (loops : List (List Nat × V)) :
    ∀ f ∈ (run K positions loops).m_generatedFaces,
      (f.p1 < (run K positions loops).m_sourceVertices.length ∧
        f.p2 < (run K positions loops).m_sourceVertices.length ∧
        f.p3 < (run K positions loops).m_sourceVertices.length) ∧
      (f.p1 ≠ f.p2 ∧ f.p1 ≠ f.p3 ∧ f.p2 ≠ f.p3) ∧
      ¬ ((sourceVertex (run K positions loops) f.p1).sourcePlane =
          (sourceVertex (run K positions loops) f.p2).sourcePlane ∧
        (sourceVertex (run K positions loops) f.p1).sourcePlane =
          (sourceVertex (run K positions loops) f.p3).sourcePlane) ∧
      ¬ ∃ k, FromLoop loops (run K positions loops) f.p1 k ∧
        FromLoop loops (run K positions loops) f.p2 k ∧
        FromLoop loops (run K positions loops) f.p3 k := by
  intro f hf
  rw [run_faces] at hf
  have h := (generated_facesOk K positions loops).shape f hf
  have hsv : (run K positions loops).m_sourceVertices =
      (generated K positions loops).m_sourceVertices := by
    rw [run_eq]
    exact finalize_sourceVertices K _
  have hsame : ∀ v, sourceVertex (run K positions loops) v =
      sourceVertex (generated K positions loops) v := fun v => sourceVertex_congr hsv v
  have hb : f.p1 < (run K positions loops).m_sourceVertices.length ∧
      f.p2 < (run K positions loops).m_sourceVertices.length ∧
      f.p3 < (run K positions loops).m_sourceVertices.length := by
    rw [hsv]; exact h.1
  have hpl : ¬ ((sourceVertex (run K positions loops) f.p1).sourcePlane =
        (sourceVertex (run K positions loops) f.p2).sourcePlane ∧
      (sourceVertex (run K positions loops) f.p1).sourcePlane =
        (sourceVertex (run K positions loops) f.p3).sourcePlane) := by
    rw [hsame, hsame, hsame]; exact h.2.2
  refine ⟨hb, h.2.1, hpl, ?_⟩
  rintro ⟨k, k1, k2, k3⟩
  rw [fromLoop_iff K positions loops _ k hb.1] at k1
  rw [fromLoop_iff K positions loops _ k hb.2.1] at k2
  rw [fromLoop_iff K positions loops _ k hb.2.2] at k3
  exact hpl ⟨k1.trans k2.symm, k1.trans k3.symm⟩

/-- C19 on the cone, for the first triangle of the run. -/
theorem triangles_nondegenerate_witness :
    ((run exactKernel conePositions coneLoops).m_generatedFaces.getD 0 default) ∈
      (run exactKernel conePositions coneLoops).m_generatedFaces ∧
    (((((run exactKernel conePositions coneLoops).m_generatedFaces.getD 0 default).p1 <
          (run exactKernel conePositions coneLoops).m_sourceVertices.length ∧
        ((run exactKernel conePositions coneLoops).m_generatedFaces.getD 0 default).p2 <
          (run exactKernel conePositions coneLoops).m_sourceVertices.length ∧
        ((run exactKernel conePositions coneLoops).m_generatedFaces.getD 0 default).p3 <
          (run exactKernel conePositions coneLoops).m_sourceVertices.length) ∧
      (((run exactKernel conePositions coneLoops).m_generatedFaces.getD 0 default).p1 ≠
          ((run exactKernel conePositions coneLoops).m_generatedFaces.getD 0 default).p2 ∧
        ((run exactKernel conePositions coneLoops).m_generatedFaces.getD 0 default).p1 ≠
          ((run exactKernel conePositions coneLoops).m_generatedFaces.getD 0 default).p3 ∧
        ((run exactKernel conePositions coneLoops).m_generatedFaces.getD 0 default).p2 ≠
          ((run exactKernel conePositions coneLoops).m_generatedFaces.getD 0 default).p3) ∧
      ¬ ((sourceVertex (run exactKernel conePositions coneLoops)
            ((run exactKernel conePositions coneLoops).m_generatedFaces.getD 0 default).p1).sourcePlane =
          (sourceVertex (run exactKernel conePositions coneLoops)
            ((run exactKernel conePositions coneLoops).m_generatedFaces.getD 0 default).p2).sourcePlane ∧
        (sourceVertex (run exactKernel conePositions coneLoops)
            ((run exactKernel conePositions coneLoops).m_generatedFaces.getD 0 default).p1).sourcePlane =
          (sourceVertex (run exactKernel conePositions coneLoops)
            ((run exactKernel conePositions coneLoops).m_generatedFaces.getD 0 default).p3).sourcePlane) ∧
      ¬ ∃ k, FromLoop coneLoops (run exactKernel conePositions coneLoops)
          ((run exactKernel conePositions coneLoops).m_generatedFaces.getD 0 default).p1 k ∧
        FromLoop coneLoops (run exactKernel conePositions coneLoops)
          ((run exactKernel conePositions coneLoops).m_generatedFaces.getD 0 default).p2 k ∧
        FromLoop coneLoops (run exactKernel conePositions coneLoops)
          ((run exactKernel conePositions coneLoops).m_generatedFaces.getD 0 default).p3 k)) :=
  ⟨faces_getD_mem _ 0 (by decide!),
    triangles_nondegenerate exactKernel conePositions coneLoops _
      (faces_getD_mem _ 0 (by decide!))⟩

/-! ## The items pushed by an emitting pass -/

theorem addItem_blocked_cases (t : HoleWrapper V) (a b : Nat) (n : V) (hf : FrontOk t)
    (hm : MapOk t) (hne : t.m_items ≠ []) :
    (addItem t a b n = t ∧ AddItemBlocked t a b) ∨
    (¬ AddItemBlocked t a b ∧
      (addItem t a b n).m_items = t.m_items ++
        [{ baseNormal := n, p1 := a, p2 := b, p3 := 0, processed := false }] ∧
      itemKeys (addItem t a b n) = itemKeys t ++ [(a, b)]) := by
  rcases addItem_outcome t a b n with ⟨e, h⟩ | ⟨h1, h2, h3, h4, h5, e⟩
  · left
    refine ⟨e, ?_⟩
    rcases h with h | h | h | h | h
    · exact Or.inl h.2
    · exact Or.inr (Or.inl (hm _ h))
    · exact Or.inr (Or.inr (Or.inl (hm _ h)))
    · exact Or.inr (Or.inr (Or.inr (Or.inl h)))
    · exact Or.inr (Or.inr (Or.inr (Or.inr h)))
  · right
    refine ⟨?_, by rw [e], by rw [e]; simp [itemKeys]⟩
    rintro (h | h | h | h | h)
    · exact h5 hne h
    · exact not_mem_keys_of_none t hf _ h1 h
    · exact not_mem_keys_of_none t hf _ h2 h
    · rw [h3] at h; exact Bool.noConfusion h
    · rw [h4] at h; exact Bool.noConfusion h

theorem addItemBlocked_congr {s t : HoleWrapper V} (a b : Nat)
    (h1 : t.m_sourceVertices = s.m_sourceVertices) (h2 : itemKeys t = itemKeys s)
    (h3 : t.m_generatedFaceEdgesMap = s.m_generatedFaceEdgesMap) :
    AddItemBlocked t a b ↔ AddItemBlocked s a b := by
  unfold AddItemBlocked
  rw [sourceVertex_congr h1, sourceVertex_congr h1, h2, h3]

/-- The items after the two `addItem` calls that follow the `push_back` of a
triangle `(p1, p2, p3)` with pairwise distinct vertices. -/
theorem addItem_twice_blocked (t : HoleWrapper V) (p1 p2 p3 : Nat) (n : V) (hf : FrontOk t)
    (hm : MapOk t) (hne : t.m_items ≠ []) (h2 : p2 < t.m_sourceVertices.length)
    (h3 : p3 < t.m_sourceVertices.length) (n12 : p1 ≠ p2) (n13 : p1 ≠ p3) :
    ∃ e1 e2 : List (WrapItem V),
      (addItem (addItem t p3 p2 n) p1 p3 n).m_items = t.m_items ++ e1 ++ e2 ∧
      ((e1 = [{ baseNormal := n, p1 := p3, p2 := p2, p3 := 0, processed := false }] ∧
          ¬ AddItemBlocked t p3 p2) ∨ (e1 = [] ∧ AddItemBlocked t p3 p2)) ∧
      ((e2 = [{ baseNormal := n, p1 := p1, p2 := p3, p3 := 0, processed := false }] ∧
          ¬ AddItemBlocked t p1 p3) ∨ (e2 = [] ∧ AddItemBlocked t p1 p3)) := by
  have hf1 : FrontOk (addItem t p3 p2 n) := addItem_frontOk _ _ _ _ hf h3 h2
  have hm1 : MapOk (addItem t p3 p2 n) := addItem_mapOk _ _ _ _ hm
  rcases addItem_blocked_cases t p3 p2 n hf hm hne with ⟨e, hb⟩ | ⟨hb, e, ek⟩
  · rw [e]
    rcases addItem_blocked_cases t p1 p3 n hf hm hne with ⟨e', hb'⟩ | ⟨hb', e', _⟩
    · exact ⟨[], [], by rw [e']; simp, Or.inr ⟨rfl, hb⟩, Or.inr ⟨rfl, hb'⟩⟩
    · exact ⟨[], [_], by rw [e']; simp, Or.inr ⟨rfl, hb⟩, Or.inl ⟨rfl, hb'⟩⟩
  · have hne1 : (addItem t p3 p2 n).m_items ≠ [] := by rw [e]; simp
    have hiff : AddItemBlocked (addItem t p3 p2 n) p1 p3 ↔ AddItemBlocked t p1 p3 := by
      unfold AddItemBlocked
      rw [sourceVertex_congr (addItem_sourceVertices t p3 p2 n),
        sourceVertex_congr (addItem_sourceVertices t p3 p2 n), ek, addItem_ledger]
      simp only [List.mem_append, List.mem_singleton, Prod.mk.injEq]
      constructor
      · rintro (h | (h | h) | (h | h) | h | h)
        · exact Or.inl h
        · exact Or.inr (Or.inl h)
        · exact absurd h.1 n13
        · exact Or.inr (Or.inr (Or.inl h))
        · exact absurd h.2 n12
        · exact Or.inr (Or.inr (Or.inr (Or.inl h)))
        · exact Or.inr (Or.inr (Or.inr (Or.inr h)))
      · rintro (h | h | h | h | h)
        · exact Or.inl h
        · exact Or.inr (Or.inl (Or.inl h))
        · exact Or.inr (Or.inr (Or.inl (Or.inl h)))
        · exact Or.inr (Or.inr (Or.inr (Or.inl h)))
        · exact Or.inr (Or.inr (Or.inr (Or.inr h)))
    rcases addItem_blocked_cases (addItem t p3 p2 n) p1 p3 n hf1 hm1 hne1 with
      ⟨e', hb'⟩ | ⟨hb', e', _⟩
    · exact ⟨[_], [], by rw [e', e]; simp, Or.inl ⟨rfl, hb⟩, Or.inr ⟨rfl, hiff.1 hb'⟩⟩
    · exact ⟨[_], [_], by rw [e', e], Or.inl ⟨rfl, hb⟩, Or.inl ⟨rfl, fun h => hb' (hiff.2 h)⟩⟩

/-- C16, as stated, fails: on the cone the second pass of `generate` emits the
triangle `(1, 3, 2)`, and after that pass the front has no item for the
directed edge `(p1, p3) = (1, 2)`, because `addItem` returns early for two
vertices of the same loop. -/
theorem pushed_items_counterexample :
    (generateFuel exactKernel 2 (registered conePositions coneLoops)).m_generatedFaces.length =
      (generateFuel exactKernel 1 (registered conePositions coneLoops)).m_generatedFaces.length
        + 1 ∧
    faceVertices ((generateFuel exactKernel 2
      (registered conePositions coneLoops)).m_generatedFaces.getD 1 default) = [1, 3, 2] ∧
    (1, 2) ∉ itemKeys (generateFuel exactKernel 2 (registered conePositions coneLoops)) := by
  decide!

/-- C16, amended. Whenever a pass of `generate` emits a triangle `f` (the list
of triangles grows, and `f` is its new last element), it is the triangle on
the edge of the selected item, and the front after the pass
is the front before it, with the selected item marked and its `p3` set,
followed by the items pushed for `(p3, p2)` and for `(p1, p3)`, in this order.
For each of the two directed edges exactly one new unprocessed item with the
normal of the triangle is pushed, unless a guard of `addItem` holds for the
edge in the state before the pass; then nothing is pushed for it. -/
theorem emitted_triangle_pushes (K : Vector3Kernel V R) (positions : List V)
    (loops : List (List Nat × V)) (fuel : Nat) (f : Face3 V)
    (hlen : (generateFuel K (fuel + 1) (registered positions loops)).m_generatedFaces.length =
      (generateFuel K fuel (registered positions loops)).m_generatedFaces.length + 1)
    (hf : f = (generateFuel K (fuel + 1) (registered positions loops)).m_generatedFaces.getD
      (generateFuel K fuel (registered positions loops)).m_generatedFaces.length default) :
    (peekItem (generateFuel K fuel (registered positions loops))).2 = true ∧
    f.p1 = (item (generateFuel K fuel (registered positions loops))
      (peekItem (generateFuel K fuel (registered positions loops))).1).p1 ∧
    f.p2 = (item (generateFuel K fuel (registered positions loops))
      (peekItem (generateFuel K fuel (registered positions loops))).1).p2 ∧
    f.normal = triNormal K (generateFuel K fuel (registered positions loops)) f.p1 f.p2 f.p3 ∧
    ∃ e1 e2 : List (WrapItem V),
      (generateFuel K (fuel + 1) (registered positions loops)).m_items =
        (generateFuel K fuel (registered positions loops)).m_items.set
          (peekItem (generateFuel K fuel (registered positions loops))).1
          { item (generateFuel K fuel (registered positions loops))
              (peekItem (generateFuel K fuel (registered positions loops))).1 with
            processed := true, p3 := f.p3 } ++ e1 ++ e2 ∧
      ((e1 = [{ baseNormal := f.normal, p1 := f.p3, p2 := f.p2, p3 := 0, processed := false }] ∧
          ¬ AddItemBlocked (generateFuel K fuel (registered positions loops)) f.p3 f.p2) ∨
        (e1 = [] ∧ AddItemBlocked (generateFuel K fuel (registered positions loops)) f.p3 f.p2)) ∧
      ((e2 = [{ baseNormal := f.normal, p1 := f.p1, p2 := f.p3, p3 := 0, processed := false }] ∧
          ¬ AddItemBlocked (generateFuel K fuel (registered positions loops)) f.p1 f.p3) ∨
        (e2 = [] ∧
          AddItemBlocked (generateFuel K fuel (registered positions loops)) f.p1 f.p3)) := by
  have h0 := registered_frontOk positions loops
  have hF := generateFuel_frontOk K fuel _ h0
  have hM := generateFuel_mapOk K fuel positions loops
  have hG := generateFuel_genOk K fuel _ (registered_regOk positions loops).genOk
  have hp : (peekItem (generateFuel K fuel (registered positions loops))).2 = true := by
    by_contra hn
    have hn2 : (peekItem (generateFuel K fuel (registered positions loops))).2 = false := by
      simpa using hn
    rw [generateFuel_add, generateFuel_of_no_item K 1 _ hn2] at hlen
    omega
  refine ⟨hp, ?_⟩
  rw [generateFuel_succ_of_peek K fuel _ hp] at hf hlen ⊢
  generalize generateFuel K fuel (registered positions loops) = s at hf hlen hp hF hM hG ⊢
  have hi := peekItem_lt s hF hp
  have hk := hF.item_lt _ (item_mem_keys s _ hi)
  rcases generateBody_emit_cases K s (peekItem s).1 with ⟨ef, _⟩ | ⟨hc, p3, hp3, hel, ef, _, e⟩
  · rw [ef] at hlen
    omega
  · rw [ef, getD_append_last] at hf
    subst hf
    obtain ⟨n1, n2, _⟩ := Eligible.ne K s _ p3 hel
    have n12 : (item s (peekItem s).1).p1 ≠ (item s (peekItem s).1).p2 := by
      intro e12
      have hrev := hG.item_rev _ (item_mem_keys s _ hi)
      simp only at hrev
      have : isEdgeClosed s (item s (peekItem s).1).p1 (item s (peekItem s).1).p2 = true := by
        rw [isEdgeClosed_iff]
        refine ⟨?_, hrev⟩
        rw [← e12] at hrev ⊢
        exact hrev
      rw [hc] at this
      exact Bool.noConfusion this
    refine ⟨rfl, rfl, rfl, ?_⟩
    have hFp : FrontOk (pushFace K (prune (markProcessed s (peekItem s).1)) (peekItem s).1
        (item s (peekItem s).1).p1 (item s (peekItem s).1).p2 p3) :=
      pushFace_frontOk K _ _ _ _ _ (prune_frontOk _ (markProcessed_frontOk s _ hF))
    have hkeys : itemKeys (pushFace K (prune (markProcessed s (peekItem s).1)) (peekItem s).1
        (item s (peekItem s).1).p1 (item s (peekItem s).1).p2 p3) = itemKeys s :=
      (itemKeys_pushFace K _ _ _ _ _).trans (itemKeys_markProcessed s _)
    have hMp : MapOk (pushFace K (prune (markProcessed s (peekItem s).1)) (peekItem s).1
        (item s (peekItem s).1).p1 (item s (peekItem s).1).p2 p3) := by
      intro k hk2
      rw [hkeys]
      exact hM k hk2
    have hitems : (pushFace K (prune (markProcessed s (peekItem s).1)) (peekItem s).1
        (item s (peekItem s).1).p1 (item s (peekItem s).1).p2 p3).m_items =
        s.m_items.set (peekItem s).1
          { item s (peekItem s).1 with processed := true, p3 := p3 } := by
      have hit : item (prune (markProcessed s (peekItem s).1)) (peekItem s).1 =
          { item s (peekItem s).1 with processed := true } := by
        unfold item prune markProcessed
        exact getD_set_self _ _ _ hi
      show (s.m_items.set (peekItem s).1 { item s (peekItem s).1 with processed := true }).set
        (peekItem s).1
        { item (prune (markProcessed s (peekItem s).1)) (peekItem s).1 with p3 := p3 } = _
      rw [List.set_set, hit]
    have hne : (pushFace K (prune (markProcessed s (peekItem s).1)) (peekItem s).1
        (item s (peekItem s).1).p1 (item s (peekItem s).1).p2 p3).m_items ≠ [] := by
      rw [hitems]
      intro hnil
      have := congrArg List.length hnil
      rw [List.length_set, List.length_nil] at this
      omega
    obtain ⟨e1, e2, he, hb1, hb2⟩ := addItem_twice_blocked _ (item s (peekItem s).1).p1
      (item s (peekItem s).1).p2 p3
      (triNormal K (prune (markProcessed s (peekItem s).1)) (item s (peekItem s).1).p1
        (item s (peekItem s).1).p2 p3) hFp hMp hne hk.2 (hF.cand_lt p3 hp3) n12 n1
    have hcg : ∀ a b, AddItemBlocked (pushFace K (prune (markProcessed s (peekItem s).1))
        (peekItem s).1 (item s (peekItem s).1).p1 (item s (peekItem s).1).p2 p3) a b ↔
        AddItemBlocked s a b := fun a b => addItemBlocked_congr a b rfl hkeys rfl
    rw [hcg] at hb1 hb2
    refine ⟨e1, e2, ?_, hb1, hb2⟩
    rw [e, ← hitems, ← he]
    rfl

/-- The amended C16 on the cone: the second pass emits the triangle
`(1, 3, 2)`; an item is pushed for `(2, 3)` and none for `(1, 2)`. -/
theorem emitted_triangle_pushes_witness :
    ((generateFuel exactKernel 2 (registered conePositions coneLoops)).m_generatedFaces.length =
      (generateFuel exactKernel 1 (registered conePositions coneLoops)).m_generatedFaces.length + 1 ∧
    ((generateFuel exactKernel 2 (registered conePositions coneLoops)).m_generatedFaces.getD (generateFuel exactKernel 1 (registered conePositions coneLoops)).m_generatedFaces.length default) =
      (generateFuel exactKernel 2 (registered conePositions coneLoops)).m_generatedFaces.getD (generateFuel exactKernel 1 (registered conePositions coneLoops)).m_generatedFaces.length default) ∧
    ((peekItem (generateFuel exactKernel 1 (registered conePositions coneLoops))).2 = true ∧
    ((generateFuel exactKernel 2 (registered conePositions coneLoops)).m_generatedFaces.getD (generateFuel exactKernel 1 (registered conePositions coneLoops)).m_generatedFaces.length default).p1 = (item (generateFuel exactKernel 1 (registered conePositions coneLoops))
      (peekItem (generateFuel exactKernel 1 (registered conePositions coneLoops))).1).p1 ∧
    ((generateFuel exactKernel 2 (registered conePositions coneLoops)).m_generatedFaces.getD (generateFuel exactKernel 1 (registered conePositions coneLoops)).m_generatedFaces.length default).p2 = (item (generateFuel exactKernel 1 (registered conePositions coneLoops))
      (peekItem (generateFuel exactKernel 1 (registered conePositions coneLoops))).1).p2 ∧
    ((generateFuel exactKernel 2 (registered conePositions coneLoops)).m_generatedFaces.getD (generateFuel exactKernel 1 (registered conePositions coneLoops)).m_generatedFaces.length default).normal = triNormal exactKernel (generateFuel exactKernel 1 (registered conePositions coneLoops))
      ((generateFuel exactKernel 2 (registered conePositions coneLoops)).m_generatedFaces.getD (generateFuel exactKernel 1 (registered conePositions coneLoops)).m_generatedFaces.length default).p1
      ((generateFuel exactKernel 2 (registered conePositions coneLoops)).m_generatedFaces.getD (generateFuel exactKernel 1 (registered conePositions coneLoops)).m_generatedFaces.length default).p2
      ((generateFuel exactKernel 2 (registered conePositions coneLoops)).m_generatedFaces.getD (generateFuel exactKernel 1 (registered conePositions coneLoops)).m_generatedFaces.length default).p3 ∧
    ∃ e1 e2 : List (WrapItem QVec),
      (generateFuel exactKernel 2 (registered conePositions coneLoops)).m_items =
        (generateFuel exactKernel 1 (registered conePositions coneLoops)).m_items.set
          (peekItem (generateFuel exactKernel 1 (registered conePositions coneLoops))).1
          { item (generateFuel exactKernel 1 (registered conePositions coneLoops))
              (peekItem (generateFuel exactKernel 1 (registered conePositions coneLoops))).1 with
              processed := true,
              p3 := ((generateFuel exactKernel 2 (registered conePositions coneLoops)).m_generatedFaces.getD (generateFuel exactKernel 1 (registered conePositions coneLoops)).m_generatedFaces.length default).p3 } ++ e1 ++ e2 ∧
      ((e1 = [{ baseNormal := ((generateFuel exactKernel 2 (registered conePositions coneLoops)).m_generatedFaces.getD (generateFuel exactKernel 1 (registered conePositions coneLoops)).m_generatedFaces.length default).normal,
                  p1 := ((generateFuel exactKernel 2 (registered conePositions coneLoops)).m_generatedFaces.getD (generateFuel exactKernel 1 (registered conePositions coneLoops)).m_generatedFaces.length default).p3,
                  p2 := ((generateFuel exactKernel 2 (registered conePositions coneLoops)).m_generatedFaces.getD (generateFuel exactKernel 1 (registered conePositions coneLoops)).m_generatedFaces.length default).p2,
                  p3 := 0, processed := false }] ∧
          ¬ AddItemBlocked (generateFuel exactKernel 1 (registered conePositions coneLoops))
            ((generateFuel exactKernel 2 (registered conePositions coneLoops)).m_generatedFaces.getD (generateFuel exactKernel 1 (registered conePositions coneLoops)).m_generatedFaces.length default).p3
            ((generateFuel exactKernel 2 (registered conePositions coneLoops)).m_generatedFaces.getD (generateFuel exactKernel 1 (registered conePositions coneLoops)).m_generatedFaces.length default).p2) ∨
        (e1 = [] ∧ AddItemBlocked (generateFuel exactKernel 1 (registered conePositions coneLoops))
            ((generateFuel exactKernel 2 (registered conePositions coneLoops)).m_generatedFaces.getD (generateFuel exactKernel 1 (registered conePositions coneLoops)).m_generatedFaces.length default).p3
            ((generateFuel exactKernel 2 (registered conePositions coneLoops)).m_generatedFaces.getD (generateFuel exactKernel 1 (registered conePositions coneLoops)).m_generatedFaces.length default).p2)) ∧
      ((e2 = [{ baseNormal := ((generateFuel exactKernel 2 (registered conePositions coneLoops)).m_generatedFaces.getD (generateFuel exactKernel 1 (registered conePositions coneLoops)).m_generatedFaces.length default).normal,
                  p1 := ((generateFuel exactKernel 2 (registered conePositions coneLoops)).m_generatedFaces.getD (generateFuel exactKernel 1 (registered conePositions coneLoops)).m_generatedFaces.length default).p1,
                  p2 := ((generateFuel exactKernel 2 (registered conePositions coneLoops)).m_generatedFaces.getD (generateFuel exactKernel 1 (registered conePositions coneLoops)).m_generatedFaces.length default).p3,
                  p3 := 0, processed := false }] ∧
          ¬ AddItemBlocked (generateFuel exactKernel 1 (registered conePositions coneLoops))
            ((generateFuel exactKernel 2 (registered conePositions coneLoops)).m_generatedFaces.getD (generateFuel exactKernel 1 (registered conePositions coneLoops)).m_generatedFaces.length default).p1
            ((generateFuel exactKernel 2 (registered conePositions coneLoops)).m_generatedFaces.getD (generateFuel exactKernel 1 (registered conePositions coneLoops)).m_generatedFaces.length default).p3) ∨
        (e2 = [] ∧ AddItemBlocked (generateFuel exactKernel 1 (registered conePositions coneLoops))
            ((generateFuel exactKernel 2 (registered conePositions coneLoops)).m_generatedFaces.getD (generateFuel exactKernel 1 (registered conePositions coneLoops)).m_generatedFaces.length default).p1
            ((generateFuel exactKernel 2 (registered conePositions coneLoops)).m_generatedFaces.getD (generateFuel exactKernel 1 (registered conePositions coneLoops)).m_generatedFaces.length default).p3))) :=
  ⟨⟨by decide!, rfl⟩,
    emitted_triangle_pushes exactKernel conePositions coneLoops 1 _ (by decide!) rfl⟩

/-! ## Boundary edges in the ledger -/

theorem mapInsert_cases {κ α : Type} [DecidableEq κ] (m : κ → Option α) (k q : κ) (v : α) :
    mapInsert m k v q = m q ∨ (m q = none ∧ mapInsert m k v q = some v) := by
  unfold mapInsert
  by_cases h : q = k
  · subst h
    cases hm : m q with
    | none => right; simp
    | some w => left; simp
  · left; simp [h]

theorem generateBody_ledger_of_some (K : Vector3Kernel V R) (s : HoleWrapper V) (i : Nat)
    (k : WrapItemKey) (w : Nat × Bool) (h : s.m_generatedFaceEdgesMap k = some w) :
    (generateBody K s i).m_generatedFaceEdgesMap k = some w := by
  rcases generateBody_emit_cases K s i with ⟨_, el⟩ | ⟨_, p3, _, _, _, el, _⟩
  · rw [el]; exact h
  · rw [el]
    exact mapInsert_of_some _ _ _ _ _ (mapInsert_of_some _ _ _ _ _ (mapInsert_of_some _ _ _ _ _ h))

theorem generateBody_ledger_new (K : Vector3Kernel V R) (s : HoleWrapper V) (i : Nat)
    (k : WrapItemKey) (h : s.m_generatedFaceEdgesMap k = none) :
    (generateBody K s i).m_generatedFaceEdgesMap k = none ∨
    ∃ fi, (generateBody K s i).m_generatedFaceEdgesMap k = some (fi, true) := by
  rcases generateBody_emit_cases K s i with ⟨_, el⟩ | ⟨_, p3, _, _, _, el, _⟩
  · left; rw [el]; exact h
  · rw [el]
    rcases mapInsert_cases (mapInsert (mapInsert s.m_generatedFaceEdgesMap
        ((item s i).p1, (item s i).p2) (s.m_generatedFaces.length, true))
        ((item s i).p2, p3) (s.m_generatedFaces.length, true))
        (p3, (item s i).p1) k (s.m_generatedFaces.length, true) with e3 | ⟨_, e3⟩
    · rw [e3]
      rcases mapInsert_cases (mapInsert s.m_generatedFaceEdgesMap
          ((item s i).p1, (item s i).p2) (s.m_generatedFaces.length, true))
          ((item s i).p2, p3) k (s.m_generatedFaces.length, true) with e2 | ⟨_, e2⟩
      · rw [e2]
        rcases mapInsert_cases s.m_generatedFaceEdgesMap
            ((item s i).p1, (item s i).p2) k (s.m_generatedFaces.length, true) with e1 | ⟨_, e1⟩
        · left; rw [e1]; exact h
        · right; exact ⟨_, e1⟩
      · right; exact ⟨_, e2⟩
    · right; exact ⟨_, e3⟩

theorem generateFuel_ledger_of_some (K : Vector3Kernel V R) (fuel : Nat) (s : HoleWrapper V)
    (k : WrapItemKey) (w : Nat × Bool) (h : s.m_generatedFaceEdgesMap k = some w) :
    (generateFuel K fuel s).m_generatedFaceEdgesMap k = some w :=
  generateFuel_induction K (fun t => t.m_generatedFaceEdgesMap k = some w)
    (fun t ht _ => generateBody_ledger_of_some K t _ k w ht) fuel s h

theorem generateFuel_ledger_new (K : Vector3Kernel V R) (fuel : Nat) (s : HoleWrapper V)
    (k : WrapItemKey) (h : s.m_generatedFaceEdgesMap k = none) :
    (generateFuel K fuel s).m_generatedFaceEdgesMap k = none ∨
    ∃ fi, (generateFuel K fuel s).m_generatedFaceEdgesMap k = some (fi, true) := by
  refine generateFuel_induction K (fun t => t.m_generatedFaceEdgesMap k = none ∨
    ∃ fi, t.m_generatedFaceEdgesMap k = some (fi, true)) ?_ fuel s (Or.inl h)
  intro t ht _
  rcases ht with ht | ⟨fi, ht⟩
  · exact generateBody_ledger_new K t _ k ht
  · exact Or.inr ⟨fi, generateBody_ledger_of_some K t _ k _ ht⟩

theorem getD_inj_of_nodup (l : List Nat) (hn : l.Nodup) (i j : Nat) (hi : i < l.length)
    (hj : j < l.length) (h : l.getD i 0 = l.getD j 0) : i = j := by
  rw [List.getD_eq_getElem?_getD, List.getD_eq_getElem?_getD,
    List.getElem?_eq_getElem hi, List.getElem?_eq_getElem hj] at h
  simp only [Option.getD_some] at h
  exact (List.Nodup.getElem_inj_iff hn).1 h

/-- In a loop with at least three positions, the successor of the successor
of a position is not the position itself. -/
theorem succ_succ_mod_ne (n i j : Nat) (hn : 3 ≤ n) (hi : i < n)
    (h1 : (i + 1) % n = j) (h2 : (j + 1) % n = i) : False := by
  by_cases hlt : i + 1 < n
  · rw [Nat.mod_eq_of_lt hlt] at h1
    subst h1
    by_cases hlt2 : i + 1 + 1 < n
    · rw [Nat.mod_eq_of_lt hlt2] at h2
      omega
    · have : i + 1 + 1 = n := by omega
      rw [this, Nat.mod_self] at h2
      omega
  · have : i + 1 = n := by omega
    rw [this, Nat.mod_self] at h1
    subst h1
    rw [Nat.mod_eq_of_lt (by omega)] at h2
    omega

/-- After registration the ledger does not hold a boundary edge of a loop
with at least three distinct tags in both directions. -/
theorem registered_one_direction (positions : List V) (loops : List (List Nat × V))
    (hall : ∀ l ∈ loops, 3 ≤ l.1.length ∧ l.1.Nodup) (a b k i : Nat) (tags : List Nat)
    (normal : V) (hl : loops[k]? = some (tags, normal)) (hi : i < tags.length)
    (ha : Registered (registered positions loops) a (k + 1) (tags.getD i 0))
    (hb : Registered (registered positions loops) b (k + 1)
      (tags.getD ((i + 1) % tags.length) 0)) :
    (registered positions loops).m_generatedFaceEdgesMap (a, b) = some (0, false) ∧
    (registered positions loops).m_generatedFaceEdgesMap (b, a) = none := by
  have hreg := registered_regOk positions loops
  have hled := registerLoops_ledger loops 1 (setVertices fresh positions) (le_refl 1)
    (fresh_regOk positions)
  have hfresh : ∀ x y, ((setVertices (fresh : HoleWrapper V) positions).m_generatedFaceEdgesMap
      (x, y)).isSome = false := fun _ _ => rfl
  refine ⟨?_, ?_⟩
  · have h1 : ((registered positions loops).m_generatedFaceEdgesMap (a, b)).isSome = true := by
      refine (hled a b).2 (Or.inr ⟨k, tags, normal, i, hl, hi, ?_, ?_⟩)
      · rw [Nat.add_comm]; exact ha
      · rw [Nat.add_comm]; exact hb
    cases hv : (registered positions loops).m_generatedFaceEdgesMap (a, b) with
    | none => rw [hv] at h1; exact Bool.noConfusion h1
    | some w => rw [hreg.ledger_val _ _ hv]
  · cases hv : (registered positions loops).m_generatedFaceEdgesMap (b, a) with
    | none => rfl
    | some w =>
      exfalso
      have h1 : ((registered positions loops).m_generatedFaceEdgesMap (b, a)).isSome = true := by
        rw [hv]; rfl
      rcases (hled b a).1 h1 with h2 | ⟨k2, tags2, normal2, j, hl2, hj, hb2, ha2⟩
      · rw [hfresh] at h2; exact Bool.noConfusion h2
      · have hk : k2 = k := by
          have e1 := ha.2.1
          have e2 := ha2.2.1
          have : (1 + k2 : Nat) = k + 1 := e2.symm.trans e1
          omega
        subst hk
        rw [hl] at hl2
        have ht : tags2 = tags := by
          have := Option.some.inj hl2
          exact (congrArg Prod.fst this).symm
        subst ht
        obtain ⟨h3, hnd⟩ := hall _ (List.getElem?_mem hl)
        have hm1 : (i + 1) % tags2.length < tags2.length := Nat.mod_lt _ (by omega)
        have hm2 : (j + 1) % tags2.length < tags2.length := Nat.mod_lt _ (by omega)
        have ea : i = (j + 1) % tags2.length :=
          getD_inj_of_nodup tags2 hnd _ _ hi hm2 (ha.2.2.symm.trans ha2.2.2)
        have eb : (i + 1) % tags2.length = j :=
          getD_inj_of_nodup tags2 hnd _ _ hm1 hj (hb.2.2.symm.trans hb2.2.2)
        exact succ_succ_mod_ne tags2.length i j h3 hi eb ea.symm

/-- C14, as stated, fails: on the prism both loops have three distinct tags,
the local vertices `0` and `1` carry the consecutive tags `0` and `1` of the
first loop, and at the end of `wrap` the ledger holds the boundary key
`(0, 1)` and also the key `(1, 0)`, inserted by the triangle built on the seed
edge. -/
theorem boundary_both_directions_counterexample :
    (∀ l ∈ prismLoops, 3 ≤ l.1.length ∧ l.1.Nodup) ∧
    (sourceVertex (run exactKernel prismPositions prismLoops) 0).tag = 0 ∧
    (sourceVertex (run exactKernel prismPositions prismLoops) 0).sourcePlane = 1 ∧
    (sourceVertex (run exactKernel prismPositions prismLoops) 1).tag = 1 ∧
    (sourceVertex (run exactKernel prismPositions prismLoops) 1).sourcePlane = 1 ∧
    (run exactKernel prismPositions prismLoops).m_generatedFaceEdgesMap (0, 1) =
      some (0, false) ∧
    ((run exactKernel prismPositions prismLoops).m_generatedFaceEdgesMap (1, 0)).isSome =
      true := by
  decide!

/-- C14, amended. For every input whose loops each have at least three
distinct vertex tags, and every boundary edge `(a, b)` of a loop (`a` and `b`
are the local vertices of two cyclically consecutive tags): before
`generate` runs, the ledger holds the key `(a, b)` with the entry `(0, false)`
and does not hold the key `(b, a)`; at the end of `wrap` the key `(a, b)`
still has the entry `(0, false)`, and the key `(b, a)` is either absent or
has an entry with the flag set that names a generated triangle with the
directed edge `(b, a)`. -/
theorem boundary_edge_directions (K : Vector3Kernel V R) (positions : List V)
    (loops : List (List Nat × V))
    (hall : ∀ l ∈ loops, 3 ≤ l.1.length ∧ l.1.Nodup) (a b k i : Nat) (tags : List Nat)
    (normal : V) (hl : loops[k]? = some (tags, normal)) (hi : i < tags.length)
    (ha : Registered (registered positions loops) a (k + 1) (tags.getD i 0))
    (hb : Registered (registered positions loops) b (k + 1)
      (tags.getD ((i + 1) % tags.length) 0)) :
    (registered positions loops).m_generatedFaceEdgesMap (a, b) = some (0, false) ∧
    (registered positions loops).m_generatedFaceEdgesMap (b, a) = none ∧
    (run K positions loops).m_generatedFaceEdgesMap (a, b) = some (0, false) ∧
    ((run K positions loops).m_generatedFaceEdgesMap (b, a) = none ∨
      ∃ fi, (run K positions loops).m_generatedFaceEdgesMap (b, a) = some (fi, true) ∧
        fi < (run K positions loops).m_generatedFaces.length ∧
        (b, a) ∈ faceEdges ((run K positions loops).m_generatedFaces.getD fi default)) := by
  obtain ⟨h1, h2⟩ := registered_one_direction positions loops hall a b k i tags normal hl hi ha hb
  refine ⟨h1, h2, ?_, ?_⟩
  · rw [run_ledger]
    exact generateFuel_ledger_of_some K _ _ _ _ h1
  · rw [run_ledger, run_faces]
    rcases generateFuel_ledger_new K
      ((registered positions loops).m_sourceVertices.length *
        (registered positions loops).m_sourceVertices.length) _ _ h2 with h | ⟨fi, h⟩
    · left; exact h
    · right
      exact ⟨fi, h, (run_genOk_fields K positions loops).flag_lt _ _ h,
        (generated_facesOk K positions loops).flag_edge _ _ h⟩

/-- The amended C14 on the prism, for the boundary edge from tag `0` to tag `1`. -/
theorem boundary_edge_directions_witness :
    ((∀ l ∈ prismLoops, 3 ≤ l.1.length ∧ l.1.Nodup) ∧
      prismLoops[0]? = some ([0, 1, 2], (⟨0, 0, 1⟩ : QVec)) ∧ 0 < [0, 1, 2].length ∧
      Registered (registered prismPositions prismLoops) 0 (0 + 1) ([0, 1, 2].getD 0 0) ∧
      Registered (registered prismPositions prismLoops) 1 (0 + 1)
        ([0, 1, 2].getD ((0 + 1) % [0, 1, 2].length) 0)) ∧
    ((registered prismPositions prismLoops).m_generatedFaceEdgesMap (0, 1) = some (0, false) ∧
    (registered prismPositions prismLoops).m_generatedFaceEdgesMap (1, 0) = none ∧
    (run exactKernel prismPositions prismLoops).m_generatedFaceEdgesMap (0, 1) =
      some (0, false) ∧
    ((run exactKernel prismPositions prismLoops).m_generatedFaceEdgesMap (1, 0) = none ∨
      ∃ fi, (run exactKernel prismPositions prismLoops).m_generatedFaceEdgesMap (1, 0) =
          some (fi, true) ∧
        fi < (run exactKernel prismPositions prismLoops).m_generatedFaces.length ∧
        (1, 0) ∈ faceEdges
          ((run exactKernel prismPositions prismLoops).m_generatedFaces.getD fi default))) :=
  ⟨⟨by decide, rfl, by decide, by unfold Registered; decide, by unfold Registered; decide⟩,
    boundary_edge_directions exactKernel prismPositions prismLoops (by decide) 0 1 0 0
      [0, 1, 2] ⟨0, 0, 1⟩ rfl (by decide) (by unfold Registered; decide)
      (by unfold Registered; decide)⟩

/-! ## The candidate search -/

theorem kernel_gt_asymm (K : Vector3Kernel V R) (a b : R) (h : K.gt a b = true) :
    K.gt b a = false := by
  cases hb : K.gt b a with
  | false => rfl
  | true =>
    have := K.gt_trans a b a h hb
    rw [K.gt_irrefl] at this
    exact Bool.noConfusion this

theorem exactKernel_weak_order (a b c : Rat) (h : exactKernel.gt a b = true) :
    exactKernel.gt a c = true ∨ exactKernel.gt c b = true := by
  simp only [exactKernel, decide_eq_true_eq] at h ⊢
  rcases lt_or_le c a with hc | hc
  · left; exact hc
  · right; exact lt_of_lt_of_le h hc

/-! ## The normals of the loops after the first -/

theorem seedEdges_normal_irrelevant (vertices : List Nat) (m : Nat → Option Nat) (n n2 : V)
    (is : List Nat) (s : HoleWrapper V) (h : s.m_items ≠ []) :
    seedEdges vertices m n is s = seedEdges vertices m n2 is s := by
  induction is generalizing s with
  | nil => rfl
  | cons i rest ih =>
    rw [seedEdges_cons, seedEdges_cons,
      addStartup_of_items s (seedKey vertices m i).2 (seedKey vertices m i).1 n h,
      addStartup_of_items s (seedKey vertices m i).2 (seedKey vertices m i).1 n2 h]
    exact ih _ h

theorem addCandidateVertices_normal_irrelevant (s : HoleWrapper V) (tags : List Nat)
    (n n2 : V) (p : Nat) (h : s.m_items ≠ []) :
    addCandidateVertices s tags n p = addCandidateVertices s tags n2 p := by
  rw [addCandidateVertices_eq, addCandidateVertices_eq]
  refine seedEdges_normal_irrelevant _ _ _ _ _ _ ?_
  rw [(registerVertices_front p tags s (fun _ => none)).1]
  exact h

/-- Once the front has its seed, the normals of the loops are not used. -/
theorem registerLoops_normal_irrelevant (loops1 : List (List Nat × V)) :
    ∀ (loops2 : List (List Nat × V)) (next : Nat) (s : HoleWrapper V),
      s.m_items ≠ [] → loops1.map Prod.fst = loops2.map Prod.fst →
      registerLoops loops1 next s = registerLoops loops2 next s := by
  induction loops1 with
  | nil =>
    intro loops2 next s _ ht
    cases loops2 with
    | nil => rfl
    | cons l r => simp at ht
  | cons l1 r1 ih =>
    intro loops2 next s hs ht
    cases loops2 with
    | nil => simp at ht
    | cons l2 r2 =>
      simp only [List.map_cons, List.cons.injEq] at ht
      rw [registerLoops_cons, registerLoops_cons, ← ht.1,
        addCandidateVertices_normal_irrelevant s l1.1 l1.2 l2.2 next hs]
      refine ih r2 _ _ ?_ ht.2
      rw [((addCandidateVertices_items s l1.1 l2.2 next).1 hs).1]
      exact hs

/-- Registration depends on the normals only through the normal of the first
non-empty loop. -/
theorem registerLoops_first_normal (loops1 : List (List Nat × V)) :
    ∀ (loops2 : List (List Nat × V)) (next : Nat) (s : HoleWrapper V),
      1 ≤ next → RegOk next s → s.m_items = [] →
      loops1.map Prod.fst = loops2.map Prod.fst →
      (loops1.find? (fun l => !l.1.isEmpty)).map Prod.snd =
        (loops2.find? (fun l => !l.1.isEmpty)).map Prod.snd →
      registerLoops loops1 next s = registerLoops loops2 next s := by
  induction loops1 with
  | nil =>
    intro loops2 next s _ _ _ ht _
    cases loops2 with
    | nil => rfl
    | cons l r => simp at ht
  | cons l1 r1 ih =>
    intro loops2 next s hn hreg hs ht hf
    cases loops2 with
    | nil => simp at ht
    | cons l2 r2 =>
      simp only [List.map_cons, List.cons.injEq] at ht
      rw [registerLoops_cons, registerLoops_cons, ← ht.1]
      by_cases he : l1.1 = []
      · have he2 : l2.1 = [] := by rw [← ht.1]; exact he
        rw [he, addCandidateVertices_nil, addCandidateVertices_nil]
        have hreg2 : RegOk (next + 1) s := by
          have := addCandidateVertices_regOk s [] l1.2 next hn hreg
          rw [addCandidateVertices_nil] at this
          exact this
        refine ih r2 (next + 1) s (by omega) hreg2 hs ht.2 ?_
        simpa [List.find?_cons, he, he2] using hf
      · have he2 : l2.1 ≠ [] := by rw [← ht.1]; exact he
        have hn12 : l1.2 = l2.2 := by
          have e1 : (l1.1.isEmpty) = false := by
            cases hl : l1.1 with
            | nil => exact absurd hl he
            | cons a b => rfl
          have e2 : (l2.1.isEmpty) = false := by
            cases hl : l2.1 with
            | nil => exact absurd hl he2
            | cons a b => rfl
          simpa [List.find?_cons, e1, e2] using hf
        rw [hn12]
        refine registerLoops_normal_irrelevant r1 r2 _ _ ?_ ht.2
        obtain ⟨hm, hl⟩ := hreg.empty_items hs
        rw [((addCandidateVertices_items s l1.1 l2.2 next).2 hs hm hl he).1]
        simp

theorem registered_first_normal (positions : List V) (loops1 loops2 : List (List Nat × V))
    (htags : loops1.map Prod.fst = loops2.map Prod.fst)
    (hfirst : (loops1.find? (fun l => !l.1.isEmpty)).map Prod.snd =
      (loops2.find? (fun l => !l.1.isEmpty)).map Prod.snd) :
    registered positions loops1 = registered positions loops2 :=
  registerLoops_first_normal loops1 loops2 1 _ (le_refl 1) (fresh_regOk positions) rfl
    htags hfirst

/-- C20. The result of `wrap` does not depend on the normal of any loop other
than the first non-empty one: two inputs with the same positions, the same
tag sequences for all loops and the same normal for the first non-empty loop
give the same generated faces, the same answer of `finished` and the same
failed loops, whatever the other normals are. -/
theorem other_normals_irrelevant (K : Vector3Kernel V R) (positions : List V)
    (loops1 loops2 : List (List Nat × V))
    (htags : loops1.map Prod.fst = loops2.map Prod.fst)
    (hfirst : (loops1.find? (fun l => !l.1.isEmpty)).map Prod.snd =
      (loops2.find? (fun l => !l.1.isEmpty)).map Prod.snd) :
    newlyGeneratedFaces (run K positions loops1) = newlyGeneratedFaces (run K positions loops2) ∧
    finished (run K positions loops1) = finished (run K positions loops2) ∧
    ∀ failedEdgeLoops, getFailedEdgeLoops (run K positions loops1) failedEdgeLoops =
      getFailedEdgeLoops (run K positions loops2) failedEdgeLoops := by
  have h : run K positions loops1 = run K positions loops2 := by
    rw [run_eq, run_eq, registered_first_normal positions loops1 loops2 htags hfirst]
  rw [h]
  exact ⟨rfl, rfl, fun _ => rfl⟩

/-- C20 on the cone: the normal of the second loop is replaced. -/
theorem other_normals_irrelevant_witness :
    (coneLoops.map Prod.fst =
        ([([0, 1, 2], (⟨0, 0, -1⟩ : QVec)), ([3], ⟨5, 7, 0⟩)]).map Prod.fst ∧
      (coneLoops.find? (fun l => !l.1.isEmpty)).map Prod.snd =
        (([([0, 1, 2], (⟨0, 0, -1⟩ : QVec)), ([3], ⟨5, 7, 0⟩)]).find?
          (fun l => !l.1.isEmpty)).map Prod.snd) ∧
    (newlyGeneratedFaces (run exactKernel conePositions coneLoops) =
      newlyGeneratedFaces (run exactKernel conePositions
        [([0, 1, 2], ⟨0, 0, -1⟩), ([3], ⟨5, 7, 0⟩)]) ∧
    finished (run exactKernel conePositions coneLoops) =
      finished (run exactKernel conePositions [([0, 1, 2], ⟨0, 0, -1⟩), ([3], ⟨5, 7, 0⟩)]) ∧
    ∀ failedEdgeLoops,
      getFailedEdgeLoops (run exactKernel conePositions coneLoops) failedEdgeLoops =
      getFailedEdgeLoops (run exactKernel conePositions
        [([0, 1, 2], ⟨0, 0, -1⟩), ([3], ⟨5, 7, 0⟩)]) failedEdgeLoops) :=
  ⟨⟨rfl, rfl⟩, other_normals_irrelevant exactKernel conePositions coneLoops
    [([0, 1, 2], ⟨0, 0, -1⟩), ([3], ⟨5, 7, 0⟩)] rfl rfl⟩

/-! ## The quad of a merge -/

/-- In a triangle with three different vertices that has the directed edge
`(b, a)`, `anotherVertexIndexOfFace3` finds the vertex opposite to the edge. -/
theorem anotherVertex_spec (g : Face3 V) (a b : Nat)
    (hd : g.p1 ≠ g.p2 ∧ g.p1 ≠ g.p3 ∧ g.p2 ≠ g.p3) (h : (b, a) ∈ faceEdges g) :
    ((g.p1, g.p2, g.p3) = (b, a, anotherVertexIndexOfFace3 g b a) ∨
      (g.p1, g.p2, g.p3) = (a, anotherVertexIndexOfFace3 g b a, b) ∨
      (g.p1, g.p2, g.p3) = (anotherVertexIndexOfFace3 g b a, b, a)) ∧
    anotherVertexIndexOfFace3 g b a ≠ a ∧ anotherVertexIndexOfFace3 g b a ≠ b := by
  obtain ⟨d12, d13, d23⟩ := hd
  simp only [faceEdges, List.mem_cons, Prod.mk.injEq, List.mem_singleton, List.not_mem_nil,
    or_false] at h
  unfold anotherVertexIndexOfFace3
  rcases h with ⟨hb, ha⟩ | ⟨hb, ha⟩ | ⟨hb, ha⟩
  · subst hb; subst ha
    simp [List.find?, d12, d13, d23, Ne.symm d13, Ne.symm d23]
  · subst hb; subst ha
    simp [List.find?, d12, d13, d23]
  · subst hb; subst ha
    simp [List.find?, d12, d13, d23, Ne.symm d12, Ne.symm d23]

/-- When the scan of `findPairFace3` succeeds, it does so at an edge position
`i` of `f` whose reversed edge is in the ledger with the flag set, for an
unused triangle with an almost equal normal; the quad pushed is built from
that edge. -/
theorem findPairLoop_detail (K : Vector3Kernel V R) (s : HoleWrapper V) (f : Face3 V)
    (used : Nat → Option Bool) (is : List Nat)
    (h : (findPairLoop K s f used [] is).1.2 = true) :
    ∃ i ∈ is,
      s.m_generatedFaceEdgesMap
          ([f.p1, f.p2, f.p3].getD ((i + 1) % 3) 0, [f.p1, f.p2, f.p3].getD i 0) =
        some ((findPairLoop K s f used [] is).1.1, true) ∧
      (used (findPairLoop K s f used [] is).1.1).isSome = false ∧
      almostEqual K (s.m_generatedFaces.getD (findPairLoop K s f used [] is).1.1 default).normal
        f.normal = true ∧
      (findPairLoop K s f used [] is).2 =
        [{ p1 := [f.p1, f.p2, f.p3].getD i 0,
           p2 := anotherVertexIndexOfFace3
             (s.m_generatedFaces.getD (findPairLoop K s f used [] is).1.1 default)
             ([f.p1, f.p2, f.p3].getD ((i + 1) % 3) 0) ([f.p1, f.p2, f.p3].getD i 0),
           p3 := [f.p1, f.p2, f.p3].getD ((i + 1) % 3) 0,
           p4 := [f.p1, f.p2, f.p3].getD ((i + 2) % 3) 0 }] := by
  induction is with
  | nil => simp [findPairLoop] at h
  | cons i rest ih =>
    have next : (findPairLoop K s f used [] (i :: rest)) = (findPairLoop K s f used [] rest) →
        ∃ i' ∈ i :: rest,
          s.m_generatedFaceEdgesMap
              ([f.p1, f.p2, f.p3].getD ((i' + 1) % 3) 0, [f.p1, f.p2, f.p3].getD i' 0) =
            some ((findPairLoop K s f used [] (i :: rest)).1.1, true) ∧
          (used (findPairLoop K s f used [] (i :: rest)).1.1).isSome = false ∧
          almostEqual K (s.m_generatedFaces.getD
            (findPairLoop K s f used [] (i :: rest)).1.1 default).normal f.normal = true ∧
          (findPairLoop K s f used [] (i :: rest)).2 =
            [{ p1 := [f.p1, f.p2, f.p3].getD i' 0,
               p2 := anotherVertexIndexOfFace3
                 (s.m_generatedFaces.getD (findPairLoop K s f used [] (i :: rest)).1.1 default)
                 ([f.p1, f.p2, f.p3].getD ((i' + 1) % 3) 0) ([f.p1, f.p2, f.p3].getD i' 0),
               p3 := [f.p1, f.p2, f.p3].getD ((i' + 1) % 3) 0,
               p4 := [f.p1, f.p2, f.p3].getD ((i' + 2) % 3) 0 }] := by
      intro e
      rw [e] at h ⊢
      obtain ⟨i', hi', r⟩ := ih h
      exact ⟨i', List.mem_cons_of_mem _ hi', r⟩
    cases hl : s.m_generatedFaceEdgesMap
        ([f.p1, f.p2, f.p3].getD ((i + 1) % 3) 0, [f.p1, f.p2, f.p3].getD i 0) with
    | none =>
      apply next
      simp only [findPairLoop, List.length_cons, List.length_nil, Nat.zero_add, Nat.reduceAdd, hl]
    | some v =>
      obtain ⟨pid, flag⟩ := v
      cases flag with
      | false =>
        apply next
        simp only [findPairLoop, List.length_cons, List.length_nil, Nat.zero_add, Nat.reduceAdd,
          hl]
      | true =>
        by_cases hu : (used pid).isSome = true
        · apply next
          simp only [findPairLoop, List.length_cons, List.length_nil, Nat.zero_add,
            Nat.reduceAdd, hl, if_pos hu]
        · by_cases ha : almostEqual K (s.m_generatedFaces.getD pid default).normal f.normal
              = false
          · apply next
            simp only [findPairLoop, List.length_cons, List.length_nil, Nat.zero_add,
              Nat.reduceAdd, hl, if_neg hu, if_pos ha]
          · have e : findPairLoop K s f used [] (i :: rest) =
                ((pid, true),
                  [{ p1 := [f.p1, f.p2, f.p3].getD i 0,
                     p2 := anotherVertexIndexOfFace3 (s.m_generatedFaces.getD pid default)
                       ([f.p1, f.p2, f.p3].getD ((i + 1) % 3) 0) ([f.p1, f.p2, f.p3].getD i 0),
                     p3 := [f.p1, f.p2, f.p3].getD ((i + 1) % 3) 0,
                     p4 := [f.p1, f.p2, f.p3].getD ((i + 2) % 3) 0 }]) := by
              simp only [findPairLoop, List.length_cons, List.length_nil, Nat.zero_add,
                Nat.reduceAdd, hl, if_neg hu, if_neg ha, List.nil_append]
            rw [e]
            exact ⟨i, List.mem_cons_self _ _, hl, by simpa using hu, by simpa using ha, rfl⟩

/-- The same for `findPairFace3`, with the edge written as a rotation
`(a, b, c)` of the triangle. -/
theorem findPairFace3_detail (K : Vector3Kernel V R) (s : HoleWrapper V) (f : Face3 V)
    (used : Nat → Option Bool) (h : (findPairFace3 K s f used []).1.2 = true) :
    ∃ a b c, ((a, b, c) = (f.p1, f.p2, f.p3) ∨ (a, b, c) = (f.p2, f.p3, f.p1) ∨
        (a, b, c) = (f.p3, f.p1, f.p2)) ∧
      s.m_generatedFaceEdgesMap (b, a) = some ((findPairFace3 K s f used []).1.1, true) ∧
      (used (findPairFace3 K s f used []).1.1).isSome = false ∧
      almostEqual K (s.m_generatedFaces.getD (findPairFace3 K s f used []).1.1 default).normal
        f.normal = true ∧
      (findPairFace3 K s f used []).2 =
        [{ p1 := a,
           p2 := anotherVertexIndexOfFace3
             (s.m_generatedFaces.getD (findPairFace3 K s f used []).1.1 default) b a,
           p3 := b, p4 := c }] := by
  unfold findPairFace3 at h ⊢
  obtain ⟨i, hi, h1, h2, h3, h4⟩ := findPairLoop_detail K s f used (List.range 3) h
  have hi3 : i = 0 ∨ i = 1 ∨ i = 2 := by
    have := List.mem_range.1 hi
    omega
  rcases hi3 with rfl | rfl | rfl
  · exact ⟨f.p1, f.p2, f.p3, Or.inl rfl, h1, h2, h3, h4⟩
  · exact ⟨f.p2, f.p3, f.p1, Or.inr (Or.inl rfl), h1, h2, h3, h4⟩
  · exact ⟨f.p3, f.p1, f.p2, Or.inr (Or.inr rfl), h1, h2, h3, h4⟩

theorem mergeQuads_mem (K : Vector3Kernel V R) (s : HoleWrapper V) (fs : List (Face3 V))
    (used : Nat → Option Bool) (e : Face3 V × Nat × List Face4)
    (h : e ∈ mergeQuads K s fs used) :
    e.1 ∈ fs ∧ ∃ used2 : Nat → Option Bool, (used2 e.1.index).isSome = true ∧
      (findPairFace3 K s e.1 used2 []).1.2 = true ∧
      (findPairFace3 K s e.1 used2 []).1.1 = e.2.1 ∧
      (findPairFace3 K s e.1 used2 []).2 = e.2.2 := by
  induction fs generalizing used with
  | nil => simp [mergeQuads] at h
  | cons x rest ih =>
    simp only [mergeQuads] at h
    by_cases hu : (used x.index).isSome = true
    · rw [if_pos hu] at h
      exact ⟨List.mem_cons_of_mem _ (ih used h).1, (ih used h).2⟩
    · rw [if_neg hu] at h
      split_ifs at h with hp
      · rcases List.mem_cons.1 h with h | h
        · subst h
          exact ⟨List.mem_cons_self _ _, mapInsert used x.index true,
            mapInsert_self_isSome _ _ _, hp, rfl, rfl⟩
        · exact ⟨List.mem_cons_of_mem _ (ih _ h).1, (ih _ h).2⟩
      · exact ⟨List.mem_cons_of_mem _ (ih _ h).1, (ih _ h).2⟩

theorem mergeQuads_pairs (K : Vector3Kernel V R) (s : HoleWrapper V) (fs : List (Face3 V))
    (used : Nat → Option Bool) :
    (mergeQuads K s fs used).map (fun e => (e.1.index, e.2.1)) =
      pairsOf (mergeTrace K s fs used) := by
  induction fs generalizing used with
  | nil => simp [mergeQuads, mergeTrace, pairsOf]
  | cons x rest ih =>
    simp only [mergeQuads, mergeTrace]
    by_cases hu : (used x.index).isSome = true
    · rw [if_pos hu, if_pos hu]
      exact ih used
    · rw [if_neg hu, if_neg hu]
      by_cases hp : (findPairFace3 K s x (mapInsert used x.index true) []).1.2 = true
      · rw [if_pos hp, if_pos hp]
        simp only [List.map_cons, pairsOf, List.filterMap_cons, Option.map_some']
        rw [ih]
        rfl
      · rw [if_neg hp, if_neg hp]
        simp only [pairsOf, List.filterMap_cons, Option.map_none']
        rw [ih]
        rfl

theorem finalizeLoop_quads (K : Vector3Kernel V R) (s : HoleWrapper V) (fs : List (Face3 V))
    (st : FinalizeState) :
    (finalizeLoop K s fs st).quads =
      st.quads ++ (mergeQuads K s fs st.usedIds).flatMap (fun e => e.2.2) := by
  induction fs generalizing st with
  | nil => simp [finalizeLoop, mergeQuads]
  | cons f rest ih =>
    simp only [finalizeLoop, mergeQuads]
    by_cases hu : (st.usedIds f.index).isSome = true
    · rw [if_pos hu, if_pos hu]
      exact ih st
    · rw [if_neg hu, if_neg hu]
      rw [findPairFace3_acc K s f _ st.quads]
      simp only
      rcases findPairFace3_spec K s f (mapInsert st.usedIds f.index true) with
        ⟨h1, _, _, _, _⟩ | ⟨h1, h2, _⟩
      · rw [if_pos h1, if_pos h1, ih]
        simp [List.flatMap_cons, List.append_assoc]
      · have h1n : ¬ (findPairFace3 K s f (mapInsert st.usedIds f.index true) []).1.2 = true := by
          rw [h1]; simp
        rw [if_neg h1n, if_neg h1n, ih]
        simp [h2]

theorem accounted_nodup (K : Vector3Kernel V R) (s : HoleWrapper V) (hg : GenOk s) :
    (accounted (mergeTrace K s s.m_generatedFaces (fun _ => none))).Nodup := by
  have := mergeTrace_accounts K s s.m_generatedFaces (fun _ => none)
    (by rw [faces_index_range _ hg]; exact List.nodup_range _)
    (by
      intro key j hk
      right
      rw [faces_index_range _ hg]
      exact List.mem_range.2 (hg.flag_lt key j hk))
  rw [faces_index_range _ hg] at this
  exact this.nodup_iff.2 ((List.nodup_range _).filter _)

/-- On the flat cone input `finalize` performs exactly one merge. -/
theorem mergeQuads_flat_example :
    (mergeQuads exactKernel (generated exactKernel flatPositions coneLoops)
      (generated exactKernel flatPositions coneLoops).m_generatedFaces (fun _ => none)).length
        = 1 := by
  decide!

/-- The scan of `findBestVertexOnTheLeft` returns the first candidate with the
largest angle among the qualifying candidates whose angle exceeds the start
value `m`, and no qualifying candidate before it has the same angle; that its
angle exceeds the angle of every candidate before it needs the comparison `>`
of the kernel to be a strict weak order. -/
theorem findBestLoop_max (K : Vector3Kernel V R) (s : HoleWrapper V) (i p1 p2 : Nat)
    (cands : List Nat) (m : R) (r : Nat × Bool) :
    ((findBestLoop K s i p1 p2 cands m r).2 = r ∧
      ∀ u ∈ cands, Qualifies s p1 p2 u → K.gt (angleOfBaseFaceAndPoint K s i u) m = false) ∨
    (∃ pre post, cands = pre ++ (findBestLoop K s i p1 p2 cands m r).2.1 :: post ∧
      (findBestLoop K s i p1 p2 cands m r).2.2 = true ∧
      Qualifies s p1 p2 (findBestLoop K s i p1 p2 cands m r).2.1 ∧
      K.gt (angleOfBaseFaceAndPoint K s i (findBestLoop K s i p1 p2 cands m r).2.1) m = true ∧
      (∀ u ∈ cands, Qualifies s p1 p2 u →
        K.gt (angleOfBaseFaceAndPoint K s i u)
          (angleOfBaseFaceAndPoint K s i (findBestLoop K s i p1 p2 cands m r).2.1) = false) ∧
      ((∀ a b c, K.gt a b = true → K.gt a c = true ∨ K.gt c b = true) →
        ∀ u ∈ pre, Qualifies s p1 p2 u →
          K.gt (angleOfBaseFaceAndPoint K s i (findBestLoop K s i p1 p2 cands m r).2.1)
            (angleOfBaseFaceAndPoint K s i u) = true) ∧
      (∀ u ∈ pre, Qualifies s p1 p2 u →
        angleOfBaseFaceAndPoint K s i u ≠
          angleOfBaseFaceAndPoint K s i (findBestLoop K s i p1 p2 cands m r).2.1)) := by
  induction cands generalizing m r with
  | nil => left; exact ⟨rfl, by simp⟩
  | cons c rest ih =>
    -- a candidate that does not qualify is passed over
    have skip : ¬ Qualifies s p1 p2 c →
        ((findBestLoop K s i p1 p2 rest m r).2 = r ∧
          ∀ u ∈ c :: rest, Qualifies s p1 p2 u →
            K.gt (angleOfBaseFaceAndPoint K s i u) m = false) ∨
        (∃ pre post, c :: rest = pre ++ (findBestLoop K s i p1 p2 rest m r).2.1 :: post ∧
          (findBestLoop K s i p1 p2 rest m r).2.2 = true ∧
          Qualifies s p1 p2 (findBestLoop K s i p1 p2 rest m r).2.1 ∧
          K.gt (angleOfBaseFaceAndPoint K s i (findBestLoop K s i p1 p2 rest m r).2.1) m = true ∧
          (∀ u ∈ c :: rest, Qualifies s p1 p2 u →
            K.gt (angleOfBaseFaceAndPoint K s i u)
              (angleOfBaseFaceAndPoint K s i (findBestLoop K s i p1 p2 rest m r).2.1) = false) ∧
          ((∀ a b c, K.gt a b = true → K.gt a c = true ∨ K.gt c b = true) →
            ∀ u ∈ pre, Qualifies s p1 p2 u →
              K.gt (angleOfBaseFaceAndPoint K s i (findBestLoop K s i p1 p2 rest m r).2.1)
                (angleOfBaseFaceAndPoint K s i u) = true) ∧
          (∀ u ∈ pre, Qualifies s p1 p2 u →
            angleOfBaseFaceAndPoint K s i u ≠
              angleOfBaseFaceAndPoint K s i (findBestLoop K s i p1 p2 rest m r).2.1)) := by
      intro hq
      rcases ih m r with ⟨e, hall⟩ | ⟨pre, post, hc, hb, hv, hg, hA, hP, hN⟩
      · left
        refine ⟨e, ?_⟩
        intro u hu hqu
        rcases List.mem_cons.1 hu with hu | hu
        · subst hu; exact absurd hqu hq
        · exact hall u hu hqu
      · right
        refine ⟨c :: pre, post, by rw [List.cons_append, ← hc], hb, hv, hg, ?_, ?_, ?_⟩
        · intro u hu hqu
          rcases List.mem_cons.1 hu with hu | hu
          · subst hu; exact absurd hqu hq
          · exact hA u hu hqu
        · intro hw u hu hqu
          rcases List.mem_cons.1 hu with hu | hu
          · subst hu; exact absurd hqu hq
          · exact hP hw u hu hqu
        · intro u hu hqu
          rcases List.mem_cons.1 hu with hu | hu
          · subst hu; exact absurd hqu hq
          · exact hN u hu hqu
    simp only [findBestLoop]
    split_ifs with h1 h2 h3
    · exact skip (fun hq => by rw [hq.1] at h1; exact Bool.noConfusion h1)
    · refine skip (fun hq => ?_)
      rcases h2 with h2 | h2
      · rw [hq.2.1] at h2; exact Bool.noConfusion h2
      · rw [hq.2.2] at h2; exact Bool.noConfusion h2
    · have hqc : Qualifies s p1 p2 c :=
        ⟨by simpa using h1, by simpa using (not_or.1 h2).1, by simpa using (not_or.1 h2).2⟩
      right
      rcases ih (angleOfBaseFaceAndPoint K s i c) (c, true) with
        ⟨e, hall⟩ | ⟨pre, post, hc, hb, hv, hg, hA, hP, hN⟩
      · simp only [e]
        refine ⟨[], rest, rfl, trivial, hqc, h3, ?_, fun _ => by simp, by simp⟩
        intro u hu hqu
        rcases List.mem_cons.1 hu with hu | hu
        · subst hu; exact K.gt_irrefl _
        · exact hall u hu hqu
      · refine ⟨c :: pre, post, by rw [List.cons_append, ← hc], hb, hv,
          K.gt_trans _ _ _ hg h3, ?_, ?_, ?_⟩
        · intro u hu hqu
          rcases List.mem_cons.1 hu with hu | hu
          · subst hu; exact kernel_gt_asymm K _ _ hg
          · exact hA u hu hqu
        · intro hw u hu hqu
          rcases List.mem_cons.1 hu with hu | hu
          · subst hu; exact hg
          · exact hP hw u hu hqu
        · intro u hu hqu
          rcases List.mem_cons.1 hu with hu | hu
          · subst hu
            intro e
            rw [← e, K.gt_irrefl] at hg
            exact Bool.noConfusion hg
          · exact hN u hu hqu
    · have h3f : K.gt (angleOfBaseFaceAndPoint K s i c) m = false := by simpa using h3
      rcases ih m r with ⟨e, hall⟩ | ⟨pre, post, hc, hb, hv, hg, hA, hP, hN⟩
      · left
        refine ⟨e, ?_⟩
        intro u hu hqu
        rcases List.mem_cons.1 hu with hu | hu
        · subst hu; exact h3f
        · exact hall u hu hqu
      · right
        refine ⟨c :: pre, post, by rw [List.cons_append, ← hc], hb, hv, hg, ?_, ?_, ?_⟩
        · intro u hu hqu
          rcases List.mem_cons.1 hu with hu | hu
          · subst hu
            cases hx : K.gt (angleOfBaseFaceAndPoint K s i u)
              (angleOfBaseFaceAndPoint K s i (findBestLoop K s i p1 p2 rest m r).2.1) with
            | false => rfl
            | true =>
              have := K.gt_trans _ _ _ hx hg
              rw [h3f] at this
              exact Bool.noConfusion this
          · exact hA u hu hqu
        · intro hw u hu hqu
          rcases List.mem_cons.1 hu with hu | hu
          · subst hu
            rcases hw _ _ (angleOfBaseFaceAndPoint K s i u) hg with hx | hx
            · exact hx
            · rw [h3f] at hx; exact Bool.noConfusion hx
          · exact hP hw u hu hqu
        · intro u hu hqu
          rcases List.mem_cons.1 hu with hu | hu
          · subst hu
            intro e
            rw [e, hg] at h3f
            exact Bool.noConfusion h3f
          · exact hN u hu hqu

/-- C17, as stated, fails when an angle is NaN: on the prism with a NaN
coordinate in the vertex with tag `3`, the search for the seed item returns
the local vertex `5`; the local vertex `3` precedes it in the pool, is not
closed, has no closed edge to `p1` or `p2`, and its angle is NaN, so the
angle of `5` is neither greater than nor greater than or equal to it. -/
theorem best_vertex_nan_counterexample :
    (findBestVertexOnTheLeft nanKernel (registered nanPositions nanLoops) 0).2 = (5, true) ∧
    (registered nanPositions nanLoops).m_candidates = [0, 1, 2, 3, 4, 5] ∧
    isVertexClosed (registered nanPositions nanLoops) 3 = false ∧
    isEdgeClosed (registered nanPositions nanLoops) (item (registered nanPositions nanLoops) 0).p1 3 = false ∧
    isEdgeClosed (registered nanPositions nanLoops) (item (registered nanPositions nanLoops) 0).p2 3 = false ∧
    angleOfBaseFaceAndPoint nanKernel (registered nanPositions nanLoops) 0 3 = none ∧
    nanKernel.gt (angleOfBaseFaceAndPoint nanKernel (registered nanPositions nanLoops) 0 5)
      (angleOfBaseFaceAndPoint nanKernel (registered nanPositions nanLoops) 0 3) = false ∧
    nanKernel.le (angleOfBaseFaceAndPoint nanKernel (registered nanPositions nanLoops) 0 3)
      (angleOfBaseFaceAndPoint nanKernel (registered nanPositions nanLoops) 0 5) = false := by
  decide!

/-- C17, amended. For every state and every front item `(p1, p2)`, when
`findBestVertexOnTheLeft` returns a vertex `v`, then `v` is in the candidate
pool (before and after the lazy pruning), `v` is not closed, neither the edge
`(p1, v)` nor the edge `(p2, v)` is closed, and the angle of `v` is greater
than zero.  No pool vertex that qualifies in the same way has an angle
greater than the angle of `v`, and no such vertex that precedes `v` in the
pool has an angle equal to it (first maximal value wins).  Where the `>` of
the kernel is a strict weak order on the angles, as it is on numbers, the
angle of `v` is greater than the angle of every qualifying vertex that
precedes it. -/
theorem best_vertex_first_maximum (K : Vector3Kernel V R) (s : HoleWrapper V) (i : Nat)
    (hr : (findBestVertexOnTheLeft K s i).2.2 = true) :
    ∃ pre post, s.m_candidates = pre ++ (findBestVertexOnTheLeft K s i).2.1 :: post ∧
      (findBestVertexOnTheLeft K s i).2.1 ∈ (findBestVertexOnTheLeft K s i).1.m_candidates ∧
      isVertexClosed s (findBestVertexOnTheLeft K s i).2.1 = false ∧
      isEdgeClosed s (item s i).p1 (findBestVertexOnTheLeft K s i).2.1 = false ∧
      isEdgeClosed s (item s i).p2 (findBestVertexOnTheLeft K s i).2.1 = false ∧
      K.gt (angleOfBaseFaceAndPoint K s i (findBestVertexOnTheLeft K s i).2.1) K.zero = true ∧
      (∀ u ∈ s.m_candidates, Qualifies s (item s i).p1 (item s i).p2 u →
        K.gt (angleOfBaseFaceAndPoint K s i u)
          (angleOfBaseFaceAndPoint K s i (findBestVertexOnTheLeft K s i).2.1) = false) ∧
      (∀ u ∈ pre, Qualifies s (item s i).p1 (item s i).p2 u →
        angleOfBaseFaceAndPoint K s i u ≠
          angleOfBaseFaceAndPoint K s i (findBestVertexOnTheLeft K s i).2.1) ∧
      ((∀ a b c, K.gt a b = true → K.gt a c = true ∨ K.gt c b = true) →
        ∀ u ∈ pre, Qualifies s (item s i).p1 (item s i).p2 u →
          K.gt (angleOfBaseFaceAndPoint K s i (findBestVertexOnTheLeft K s i).2.1)
            (angleOfBaseFaceAndPoint K s i u) = true) := by
  have hspec := (findBest_spec K s i).1
  have hval : (findBestVertexOnTheLeft K s i).2 =
      (findBestLoop K s i (item s i).p1 (item s i).p2 s.m_candidates K.zero (0, false)).2 := rfl
  rcases findBestLoop_max K s i (item s i).p1 (item s i).p2 s.m_candidates K.zero
    (0, false) with ⟨e, _⟩ | ⟨pre, post, hc, _, hv, hg, hA, hP, hN⟩
  · rw [hval, e] at hr
    exact Bool.noConfusion hr
  · rw [← hval] at hc hv hg hA hP hN
    refine ⟨pre, post, hc, ?_, hv.1, hv.2.1, hv.2.2, hg, hA, hN, hP⟩
    rw [hspec]
    refine List.mem_filter.2 ⟨?_, by simp [hv.1]⟩
    have : (findBestVertexOnTheLeft K s i).2.1 ∈
        pre ++ (findBestVertexOnTheLeft K s i).2.1 :: post := by simp
    rw [← hc] at this
    exact this

/-- The amended C17 at the input of the counterexample. -/
theorem best_vertex_first_maximum_witness :
    (findBestVertexOnTheLeft nanKernel (registered nanPositions nanLoops) 0).2.2 = true ∧
    ∃ pre post, (registered nanPositions nanLoops).m_candidates = pre ++ (findBestVertexOnTheLeft nanKernel (registered nanPositions nanLoops) 0).2.1 :: post ∧
      (findBestVertexOnTheLeft nanKernel (registered nanPositions nanLoops) 0).2.1 ∈ (findBestVertexOnTheLeft nanKernel (registered nanPositions nanLoops) 0).1.m_candidates ∧
      isVertexClosed (registered nanPositions nanLoops) (findBestVertexOnTheLeft nanKernel (registered nanPositions nanLoops) 0).2.1 = false ∧
      isEdgeClosed (registered nanPositions nanLoops) (item (registered nanPositions nanLoops) 0).p1 (findBestVertexOnTheLeft nanKernel (registered nanPositions nanLoops) 0).2.1 = false ∧
      isEdgeClosed (registered nanPositions nanLoops) (item (registered nanPositions nanLoops) 0).p2 (findBestVertexOnTheLeft nanKernel (registered nanPositions nanLoops) 0).2.1 = false ∧
      nanKernel.gt (angleOfBaseFaceAndPoint nanKernel (registered nanPositions nanLoops) 0 (findBestVertexOnTheLeft nanKernel (registered nanPositions nanLoops) 0).2.1) nanKernel.zero = true ∧
      (∀ u ∈ (registered nanPositions nanLoops).m_candidates, Qualifies (registered nanPositions nanLoops) (item (registered nanPositions nanLoops) 0).p1 (item (registered nanPositions nanLoops) 0).p2 u →
        nanKernel.gt (angleOfBaseFaceAndPoint nanKernel (registered nanPositions nanLoops) 0 u)
          (angleOfBaseFaceAndPoint nanKernel (registered nanPositions nanLoops) 0 (findBestVertexOnTheLeft nanKernel (registered nanPositions nanLoops) 0).2.1) = false) ∧
      (∀ u ∈ pre, Qualifies (registered nanPositions nanLoops) (item (registered nanPositions nanLoops) 0).p1 (item (registered nanPositions nanLoops) 0).p2 u →
        angleOfBaseFaceAndPoint nanKernel (registered nanPositions nanLoops) 0 u ≠
          angleOfBaseFaceAndPoint nanKernel (registered nanPositions nanLoops) 0 (findBestVertexOnTheLeft nanKernel (registered nanPositions nanLoops) 0).2.1) ∧
      ((∀ a b c, nanKernel.gt a b = true → nanKernel.gt a c = true ∨ nanKernel.gt c b = true) →
        ∀ u ∈ pre, Qualifies (registered nanPositions nanLoops) (item (registered nanPositions nanLoops) 0).p1 (item (registered nanPositions nanLoops) 0).p2 u →
          nanKernel.gt (angleOfBaseFaceAndPoint nanKernel (registered nanPositions nanLoops) 0 (findBestVertexOnTheLeft nanKernel (registered nanPositions nanLoops) 0).2.1)
            (angleOfBaseFaceAndPoint nanKernel (registered nanPositions nanLoops) 0 u) = true) :=
  ⟨by decide!, best_vertex_first_maximum nanKernel (registered nanPositions nanLoops) 0 (by decide!)⟩

/-- The output of `wrap` in terms of the two traces of `finalize`: the
triangles left single, in the order of their visit, followed by the quads of
the merges. -/
theorem run_newly_trace (K : Vector3Kernel V R) (positions : List V)
    (loops : List (List Nat × V)) :
    newlyGeneratedFaces (run K positions loops) =
      (singlesOf (mergeTrace K (generated K positions loops)
        (generated K positions loops).m_generatedFaces (fun _ => none))).map
          (triTags (generated K positions loops)) ++
      ((mergeQuads K (generated K positions loops)
        (generated K positions loops).m_generatedFaces (fun _ => none)).flatMap
          (fun e => e.2.2)).map (quadTags (generated K positions loops)) := by
  rw [run_newly, (finalizeLoop_trace K _ _ _).1, finalizeLoop_quads]
  simp

/-- What holds of every merge of `finalize`: it happens across an edge
`(a, b)` of the visited triangle, `(a, b, c)` in cyclic order; the ledger has
the reversed key `(b, a)` with the flag set and the index of the partner; the
partner is a generated triangle with another index and the vertices
`(b, a, x)` in cyclic order, `x` different from `a` and `b`; the test
`almostEqual` returned true; and the call pushed exactly the quad
`(a, x, b, c)`. -/
theorem merge_event_detail (K : Vector3Kernel V R) (positions : List V)
    (loops : List (List Nat × V)) (e : Face3 V × Nat × List Face4)
    (he : e ∈ mergeQuads K (generated K positions loops)
      (generated K positions loops).m_generatedFaces (fun _ => none)) :
    e.1 ∈ (generated K positions loops).m_generatedFaces ∧
    e.2.1 < (generated K positions loops).m_generatedFaces.length ∧
    e.2.1 ≠ e.1.index ∧
    ∃ a b c x,
      ((a, b, c) = (e.1.p1, e.1.p2, e.1.p3) ∨ (a, b, c) = (e.1.p2, e.1.p3, e.1.p1) ∨
        (a, b, c) = (e.1.p3, e.1.p1, e.1.p2)) ∧
      (generated K positions loops).m_generatedFaceEdgesMap (b, a) = some (e.2.1, true) ∧
      ((((generated K positions loops).m_generatedFaces.getD e.2.1 default).p1,
          ((generated K positions loops).m_generatedFaces.getD e.2.1 default).p2,
          ((generated K positions loops).m_generatedFaces.getD e.2.1 default).p3) = (b, a, x) ∨
        (((generated K positions loops).m_generatedFaces.getD e.2.1 default).p1,
          ((generated K positions loops).m_generatedFaces.getD e.2.1 default).p2,
          ((generated K positions loops).m_generatedFaces.getD e.2.1 default).p3) = (a, x, b) ∨
        (((generated K positions loops).m_generatedFaces.getD e.2.1 default).p1,
          ((generated K positions loops).m_generatedFaces.getD e.2.1 default).p2,
          ((generated K positions loops).m_generatedFaces.getD e.2.1 default).p3) = (x, b, a)) ∧
      x ≠ a ∧ x ≠ b ∧
      almostEqual K ((generated K positions loops).m_generatedFaces.getD e.2.1 default).normal
        e.1.normal = true ∧
      e.2.2 = [{ p1 := a, p2 := x, p3 := b, p4 := c }] := by
  have hg : GenOk (generated K positions loops) := run_genOk_fields K positions loops
  have hfo := generated_facesOk K positions loops
  obtain ⟨hmem, used2, hu, hp, h1, h2⟩ := mergeQuads_mem K _ _ _ e he
  obtain ⟨a, b, c, hrot, hled, hun, hal, hq⟩ :=
    findPairFace3_detail K (generated K positions loops) e.1 used2 hp
  rw [h1] at hled hun hal hq
  rw [h2] at hq
  have hlt := hg.flag_lt _ _ hled
  have hedge := hfo.flag_edge _ _ hled
  have hshape := (hfo.shape _ (faces_getD_mem _ _ hlt)).2.1
  obtain ⟨hx, hxa, hxb⟩ := anotherVertex_spec _ a b hshape hedge
  refine ⟨hmem, hlt, ?_, a, b, c, _, hrot, hled, hx, hxa, hxb, hal, hq⟩
  intro hcon
  rw [hcon, hu] at hun
  exact Bool.noConfusion hun

/-- A triangle index in a merged pair belongs to a merge: it is the index of
the visited triangle or of its partner. -/
theorem merged_event (K : Vector3Kernel V R) (s : HoleWrapper V) (fs : List (Face3 V))
    (used : Nat → Option Bool) (idx : Nat)
    (h : idx ∈ mergedIndices (mergeTrace K s fs used)) :
    ∃ e ∈ mergeQuads K s fs used, e.1.index = idx ∨ e.2.1 = idx := by
  unfold mergedIndices at h
  rw [← mergeQuads_pairs] at h
  rcases List.mem_append.1 h with h | h
  · obtain ⟨p, hp, rfl⟩ := List.mem_map.1 h
    obtain ⟨e, he, rfl⟩ := List.mem_map.1 hp
    exact ⟨e, he, Or.inl rfl⟩
  · obtain ⟨p, hp, rfl⟩ := List.mem_map.1 h
    obtain ⟨e, he, rfl⟩ := List.mem_map.1 hp
    exact ⟨e, he, Or.inr rfl⟩

theorem rot_mem (a b c p1 p2 p3 v : Nat)
    (hrot : (a, b, c) = (p1, p2, p3) ∨ (a, b, c) = (p2, p3, p1) ∨ (a, b, c) = (p3, p1, p2))
    (hv : v = p1 ∨ v = p2 ∨ v = p3) : v = a ∨ v = b ∨ v = c := by
  simp only [Prod.mk.injEq] at hrot
  rcases hrot with ⟨rfl, rfl, rfl⟩ | ⟨rfl, rfl, rfl⟩ | ⟨rfl, rfl, rfl⟩ <;> tauto

theorem rot_mem2 (a b c p1 p2 p3 v : Nat)
    (hrot : (p1, p2, p3) = (a, b, c) ∨ (p1, p2, p3) = (b, c, a) ∨ (p1, p2, p3) = (c, a, b))
    (hv : v = p1 ∨ v = p2 ∨ v = p3) : v = a ∨ v = b ∨ v = c := by
  simp only [Prod.mk.injEq] at hrot
  rcases hrot with ⟨rfl, rfl, rfl⟩ | ⟨rfl, rfl, rfl⟩ | ⟨rfl, rfl, rfl⟩ <;> tauto

/-- C8. Two different generated triangles `T1` and `T2` that share an edge in
opposite directions (`T1` has `(a, b)`, `T2` has `(b, a)`) and whose normals
are almost equal are never both emitted as 3-vertex faces.  The output of
`wrap` is the list of the triangles that `finalize` leaves single, followed
by the quads of its merges; `T1` and `T2` are not both among the single
triangles, and one of them is the visited triangle or the partner of a merge
whose quad is a 4-vertex face of the output and has the three vertices of
that triangle among its four. -/
theorem mergeable_neighbours_not_both_single (K : Vector3Kernel V R) (positions : List V)
    (loops : List (List Nat × V)) (T1 T2 : Face3 V) (a b : Nat)
    (h1 : T1 ∈ (generated K positions loops).m_generatedFaces)
    (h2 : T2 ∈ (generated K positions loops).m_generatedFaces)
    (hne : T1.index ≠ T2.index)
    (hab : (a, b) ∈ faceEdges T1) (hba : (b, a) ∈ faceEdges T2)
    (hn12 : almostEqual K T1.normal T2.normal = true)
    (hn21 : almostEqual K T2.normal T1.normal = true) :
    newlyGeneratedFaces (run K positions loops) =
      (singlesOf (mergeTrace K (generated K positions loops)
        (generated K positions loops).m_generatedFaces (fun _ => none))).map
          (triTags (generated K positions loops)) ++
      ((mergeQuads K (generated K positions loops)
        (generated K positions loops).m_generatedFaces (fun _ => none)).flatMap
          (fun e => e.2.2)).map (quadTags (generated K positions loops)) ∧
    ¬ (T1 ∈ singlesOf (mergeTrace K (generated K positions loops)
          (generated K positions loops).m_generatedFaces (fun _ => none)) ∧
        T2 ∈ singlesOf (mergeTrace K (generated K positions loops)
          (generated K positions loops).m_generatedFaces (fun _ => none))) ∧
    ∃ T, (T = T1 ∨ T = T2) ∧
      ∃ e ∈ mergeQuads K (generated K positions loops)
          (generated K positions loops).m_generatedFaces (fun _ => none),
        (e.1 = T ∨ (generated K positions loops).m_generatedFaces.getD e.2.1 default = T) ∧
        ∃ q, e.2.2 = [q] ∧
          quadTags (generated K positions loops) q ∈ newlyGeneratedFaces (run K positions loops) ∧
          ∀ v ∈ faceVertices T, v ∈ [q.p1, q.p2, q.p3, q.p4] := by
  have hg : GenOk (generated K positions loops) := run_genOk_fields K positions loops
  obtain ⟨hnot, hm⟩ := mergeable_pair_not_both_single K positions loops T1 T2 a b h1 h2 hne
    hab hba hn12 hn21
  refine ⟨run_newly_trace K positions loops, hnot, ?_⟩
  have key : ∀ T, T ∈ (generated K positions loops).m_generatedFaces →
      T.index ∈ mergedIndices (mergeTrace K (generated K positions loops)
        (generated K positions loops).m_generatedFaces (fun _ => none)) →
      ∃ e ∈ mergeQuads K (generated K positions loops)
          (generated K positions loops).m_generatedFaces (fun _ => none),
        (e.1 = T ∨ (generated K positions loops).m_generatedFaces.getD e.2.1 default = T) ∧
        ∃ q, e.2.2 = [q] ∧
          quadTags (generated K positions loops) q ∈ newlyGeneratedFaces (run K positions loops) ∧
          ∀ v ∈ faceVertices T, v ∈ [q.p1, q.p2, q.p3, q.p4] := by
    intro T hT hidx
    obtain ⟨e, he, hcase⟩ := merged_event K _ _ _ _ hidx
    obtain ⟨hmem, _, _, a2, b2, c2, x, hrot, _, hgrot, _, _, _, hq⟩ :=
      merge_event_detail K positions loops e he
    have hout : quadTags (generated K positions loops)
        { p1 := a2, p2 := x, p3 := b2, p4 := c2 } ∈
        newlyGeneratedFaces (run K positions loops) := by
      rw [run_newly_trace]
      refine List.mem_append.2 (Or.inr (List.mem_map.2 ⟨_, ?_, rfl⟩))
      exact List.mem_flatMap.2 ⟨e, he, by rw [hq]; simp⟩
    refine ⟨e, he, ?_, _, hq, hout, ?_⟩
    · rcases hcase with hc | hc
      · left
        rw [← (face_lookup _ hg e.1 hmem).2, hc, (face_lookup _ hg T hT).2]
      · right
        rw [hc, (face_lookup _ hg T hT).2]
    · have hTe : (T.p1, T.p2, T.p3) = (e.1.p1, e.1.p2, e.1.p3) ∨
          (T.p1, T.p2, T.p3) =
            (((generated K positions loops).m_generatedFaces.getD e.2.1 default).p1,
              ((generated K positions loops).m_generatedFaces.getD e.2.1 default).p2,
              ((generated K positions loops).m_generatedFaces.getD e.2.1 default).p3) := by
        rcases hcase with hc | hc
        · left
          rw [← (face_lookup _ hg e.1 hmem).2, hc, (face_lookup _ hg T hT).2]
        · right
          rw [hc, (face_lookup _ hg T hT).2]
      intro v hv
      have hv2 : v = T.p1 ∨ v = T.p2 ∨ v = T.p3 := by
        simpa [faceVertices] using hv
      have goal : v = a2 ∨ v = x ∨ v = b2 ∨ v = c2 := by
        simp only [Prod.mk.injEq] at hTe
        rcases hTe with ⟨t1, t2, t3⟩ | ⟨t1, t2, t3⟩
        · rw [t1, t2, t3] at hv2
          rcases rot_mem a2 b2 c2 _ _ _ v hrot hv2 with h | h | h
          · exact Or.inl h
          · exact Or.inr (Or.inr (Or.inl h))
          · exact Or.inr (Or.inr (Or.inr h))
        · rw [t1, t2, t3] at hv2
          rcases rot_mem2 b2 a2 x _ _ _ v hgrot hv2 with h | h | h
          · exact Or.inr (Or.inr (Or.inl h))
          · exact Or.inl h
          · exact Or.inr (Or.inl h)
      simpa using goal
  rcases hm with hm | hm
  · exact ⟨T1, Or.inl rfl, key T1 h1 hm⟩
  · exact ⟨T2, Or.inr rfl, key T2 h2 hm⟩

/-- C8 on a triangle and its centroid: the three generated triangles are
coplanar, the first two share the edge between the vertices `3` and `1`. -/
theorem mergeable_neighbours_not_both_single_witness :
    (((generated exactKernel flatPositions coneLoops).m_generatedFaces.getD 0 default) ∈
        (generated exactKernel flatPositions coneLoops).m_generatedFaces ∧
      ((generated exactKernel flatPositions coneLoops).m_generatedFaces.getD 1 default) ∈
        (generated exactKernel flatPositions coneLoops).m_generatedFaces ∧
      ((generated exactKernel flatPositions coneLoops).m_generatedFaces.getD 0 default).index ≠
        ((generated exactKernel flatPositions coneLoops).m_generatedFaces.getD 1 default).index ∧
      (3, 1) ∈ faceEdges
        ((generated exactKernel flatPositions coneLoops).m_generatedFaces.getD 0 default) ∧
      (1, 3) ∈ faceEdges
        ((generated exactKernel flatPositions coneLoops).m_generatedFaces.getD 1 default) ∧
      almostEqual exactKernel
        ((generated exactKernel flatPositions coneLoops).m_generatedFaces.getD 0 default).normal
        ((generated exactKernel flatPositions coneLoops).m_generatedFaces.getD 1 default).normal
          = true ∧
      almostEqual exactKernel
        ((generated exactKernel flatPositions coneLoops).m_generatedFaces.getD 1 default).normal
        ((generated exactKernel flatPositions coneLoops).m_generatedFaces.getD 0 default).normal
          = true) ∧
    (newlyGeneratedFaces (run exactKernel flatPositions coneLoops) =
        (singlesOf (mergeTrace exactKernel (generated exactKernel flatPositions coneLoops)
            (generated exactKernel flatPositions coneLoops).m_generatedFaces (fun _ => none))).map
            (triTags (generated exactKernel flatPositions coneLoops)) ++
        ((mergeQuads exactKernel (generated exactKernel flatPositions coneLoops)
            (generated exactKernel flatPositions coneLoops).m_generatedFaces (fun _ => none)).flatMap
            (fun e => e.2.2)).map (quadTags (generated exactKernel flatPositions coneLoops)) ∧
      ¬ (((generated exactKernel flatPositions coneLoops).m_generatedFaces.getD 0 default) ∈
          singlesOf (mergeTrace exactKernel (generated exactKernel flatPositions coneLoops)
            (generated exactKernel flatPositions coneLoops).m_generatedFaces (fun _ => none)) ∧
        ((generated exactKernel flatPositions coneLoops).m_generatedFaces.getD 1 default) ∈
          singlesOf (mergeTrace exactKernel (generated exactKernel flatPositions coneLoops)
            (generated exactKernel flatPositions coneLoops).m_generatedFaces (fun _ => none))) ∧
      ∃ T, (T = ((generated exactKernel flatPositions coneLoops).m_generatedFaces.getD 0 default) ∨
          T = ((generated exactKernel flatPositions coneLoops).m_generatedFaces.getD 1 default)) ∧
        ∃ e ∈ (mergeQuads exactKernel (generated exactKernel flatPositions coneLoops)
            (generated exactKernel flatPositions coneLoops).m_generatedFaces (fun _ => none)),
          (e.1 = T ∨ (generated exactKernel flatPositions coneLoops).m_generatedFaces.getD e.2.1 default = T) ∧
          ∃ q, e.2.2 = [q] ∧
            quadTags (generated exactKernel flatPositions coneLoops) q ∈
              newlyGeneratedFaces (run exactKernel flatPositions coneLoops) ∧
            ∀ v ∈ faceVertices T, v ∈ [q.p1, q.p2, q.p3, q.p4]) :=
  have hlen : (generated exactKernel flatPositions coneLoops).m_generatedFaces.length = 3 := by
    decide!
  have m0 : (generated exactKernel flatPositions coneLoops).m_generatedFaces.getD 0 default ∈
      (generated exactKernel flatPositions coneLoops).m_generatedFaces := by
    rw [List.getD_eq_getElem _ _ (by rw [hlen]; decide)]
    exact List.getElem_mem _
  have m1 : (generated exactKernel flatPositions coneLoops).m_generatedFaces.getD 1 default ∈
      (generated exactKernel flatPositions coneLoops).m_generatedFaces := by
    rw [List.getD_eq_getElem _ _ (by rw [hlen]; decide)]
    exact List.getElem_mem _
  have hne : ((generated exactKernel flatPositions coneLoops).m_generatedFaces.getD 0
      default).index ≠
      ((generated exactKernel flatPositions coneLoops).m_generatedFaces.getD 1 default).index := by
    decide!
  have e1 : (3, 1) ∈ faceEdges
      ((generated exactKernel flatPositions coneLoops).m_generatedFaces.getD 0 default) := by
    decide!
  have e2 : (1, 3) ∈ faceEdges
      ((generated exactKernel flatPositions coneLoops).m_generatedFaces.getD 1 default) := by
    decide!
  have n1 : almostEqual exactKernel
      ((generated exactKernel flatPositions coneLoops).m_generatedFaces.getD 0 default).normal
      ((generated exactKernel flatPositions coneLoops).m_generatedFaces.getD 1 default).normal
        = true := by decide!
  have n2 : almostEqual exactKernel
      ((generated exactKernel flatPositions coneLoops).m_generatedFaces.getD 1 default).normal
      ((generated exactKernel flatPositions coneLoops).m_generatedFaces.getD 0 default).normal
        = true := by decide!
  ⟨⟨m0, m1, hne, e1, e2, n1, n2⟩,
    mergeable_neighbours_not_both_single exactKernel flatPositions coneLoops _ _ 3 1
      m0 m1 hne e1 e2 n1 n2⟩

/-- C18 at the cone, evaluated with the integer `abs`: `finalize` merges the
triangle `0`, which is `(1, 0, 3)`, with the triangle `2`, which is
`(2, 3, 0)`, across the edge `(0, 3)` into the quad `[0, 2, 3, 1]`, because
`almostEqual` returns true for their normals; the normals are not almost
equal: their first components differ by more than 0.89. -/
theorem merge_not_almost_equal_example :
    newlyGeneratedFaces (run truncKernel conePositions coneLoops) = [[1, 3, 2], [0, 2, 3, 1]] ∧
    (mergeQuads truncKernel (generated truncKernel conePositions coneLoops)
        (generated truncKernel conePositions coneLoops).m_generatedFaces (fun _ => none)).map
          (fun e => (e.1.index, e.2.1)) = [(0, 2)] ∧
    faceVertices ((generated truncKernel conePositions coneLoops).m_generatedFaces.getD 0
      default) = [1, 0, 3] ∧
    faceVertices ((generated truncKernel conePositions coneLoops).m_generatedFaces.getD 2
      default) = [2, 3, 0] ∧
    almostEqual truncKernel
      ((generated truncKernel conePositions coneLoops).m_generatedFaces.getD 2 default).normal
      ((generated truncKernel conePositions coneLoops).m_generatedFaces.getD 0 default).normal
        = true ∧
    withinHundredth
      ((generated truncKernel conePositions coneLoops).m_generatedFaces.getD 2 default).normal
      ((generated truncKernel conePositions coneLoops).m_generatedFaces.getD 0 default).normal
        = false ∧
    89 / 100 < |((generated truncKernel conePositions coneLoops).m_generatedFaces.getD 2
        default).normal.x -
      ((generated truncKernel conePositions coneLoops).m_generatedFaces.getD 0
        default).normal.x| := by
  decide!

end HoleWrapper

end dust3d
